import Mathlib

/-!
# Queen software rasterizer: clipper, vertex cache, geometry setup and pixel pipeline

A shallow embedding of `Queen/Rasterizer.cpp` and `Queen/Cache.hpp`.

Conventions of the embedding:
* `float` values are exact rationals (`ℚ`) and `int32_t` values are unbounded integers:
  a statement below is a statement of exact arithmetic, unless it is about the definitions
  named `Binary32.*`, in which every `float` operation is rounded to binary32 and a
  conversion to `int32_t` has the range of that type.
* `uint32_t` values are natural numbers, every arithmetic operation of the
  source being reduced modulo `2 ^ 32` where the source computes in 32 bits.
* Undefined behaviour (writing past the end of a buffer) and failed `ASSERT`s
  are explicit faults.
-/

namespace Queen

/-! ## Vectors and vertices -/

/-- Modelled from the spec: the math library's `float4` (its header is not part of the
sources), a homogeneous 4-component value. -/
structure float4 where
  X : ℚ
  Y : ℚ
  Z : ℚ
  W : ℚ
deriving DecidableEq, Inhabited

/-- Modelled from the spec: `Dot(plane, position)`, the signed distance "plane · position"
(the math library is not part of the sources). -/
def Dot (a b : float4) : ℚ :=
  a.X * b.X + a.Y * b.Y + a.Z * b.Z + a.W * b.W

/-- Modelled from the spec: `Lerp(a, b, t)` on scalars, the linear interpolation
`a + (b - a) * t` (the math library is not part of the sources). -/
def Lerp (a b t : ℚ) : ℚ :=
  a + (b - a) * t

/-- Modelled from the spec: `Lerp(a, b, t)` on `float4`, componentwise linear interpolation
(the math library is not part of the sources). -/
def Lerp4 (a b : float4) (t : ℚ) : float4 :=
  { X := Lerp a.X b.X t, Y := Lerp a.Y b.Y t, Z := Lerp a.Z b.Z t, W := Lerp a.W b.W t }

/-- Modelled from the spec: `VS_Output` (declared in a header that is not part of the
sources): a clip-space position and the array of shader-output attributes. The list
`ShaderOutputs` is the whole fixed-capacity array, of which a draw call uses the first
`mCurrVSOutputCount` entries. -/
structure VS_Output where
  Position : float4
  ShaderOutputs : List ℚ
deriving DecidableEq, Inhabited

/-- The attribute loop `for (i = 0; i < numAttri; ++i) out[i] = f(out, i)` shared by the
`VS_Output_*` helpers: the first `numAttri` entries of `out` are overwritten in turn, `f`
seeing the array as it is when entry `i` is computed. -/
def attribLoop (numAttri : Nat) (f : List ℚ → Nat → ℚ) (out : List ℚ) : List ℚ :=
  (List.range numAttri).foldl (fun so i => so.set i (f so i)) out

/-- `VS_Output_Interpolate(out, a, b, t, numAttri)` (Rasterizer.cpp:93-100): writes the
position and the first `numAttri` attributes of `out`; the other attributes of `out` keep
what the destination held before. -/
def VS_Output_Interpolate (out a b : VS_Output) (t : ℚ) (numAttri : Nat) : VS_Output :=
  { Position := Lerp4 a.Position b.Position t
    ShaderOutputs :=
      attribLoop numAttri
        (fun _ i => Lerp (a.ShaderOutputs.getD i 0) (b.ShaderOutputs.getD i 0) t)
        out.ShaderOutputs }

/-! ## Faults -/

/-- Abnormal ends of a call: a failed `ASSERT` (fatal, as the spec's error taxonomy has it),
a store past the last entry of a 5-entry clip stage, an exhausted scratch pool, and an
access outside the `std::vector` buffers `outVertices` / `outFaces` (or past the index array
of a face record). -/
inductive Fault where
  | assertion
  | stageOverflow
  | poolExhausted
  | outOfBounds
deriving DecidableEq, Inhabited

deriving instance DecidableEq for Except

/-! ## Clipper (Rasterizer.cpp:175-255) -/

/-- The clip planes installed by the constructor (Rasterizer.cpp:109-110): near, far. -/
def mClipPlanes : List float4 :=
  [⟨0, 0, 1, 0⟩, ⟨0, 0, -1, 1⟩]

/-- The destination stage of one clip pass: the vertices `pClipVertices[destStage][0..n)`
written so far and the scratch-pool slots not handed out yet (with the indeterminate
contents they hold). -/
structure ClipBuf where
  dest : List VS_Output
  pool : List VS_Output
deriving DecidableEq, Inhabited

/-- The store `pClipVertices[destStage][numClippedVertices[destStage]++] = v`; the stage has
5 entries, a store past the last one is a fault. -/
def pushVertex (st : ClipBuf) (v : VS_Output) : Except Fault ClipBuf :=
  if st.dest.length < 5 then .ok { st with dest := st.dest ++ [v] } else .error Fault.stageOverflow

/-- The pair `pool.malloc()` / `VS_Output_Interpolate(newVSOutput, a, b, t, N)` followed by the
store of the new vertex (Rasterizer.cpp:209-213 and 221-225). -/
def pushInterpolated (st : ClipBuf) (a b : VS_Output) (t : ℚ) (numAttri : Nat) :
    Except Fault ClipBuf :=
  match st.pool with
  | [] => .error Fault.poolExhausted
  | slot :: rest =>
    pushVertex { st with pool := rest } (VS_Output_Interpolate slot a b t numAttri)

/-- The body of the edge loop for the edge `vi -> vj` (Rasterizer.cpp:198-227). -/
def clipEdge (plane : float4) (numAttri : Nat) (vi vj : VS_Output) (st : ClipBuf) :
    Except Fault ClipBuf :=
  let di := Dot plane vi.Position
  let dj := Dot plane vj.Position
  if 0 ≤ di then
    match pushVertex st vi with
    | .error e => .error e
    | .ok st1 =>
      if dj < 0 then pushInterpolated st1 vi vj (di / (di - dj)) numAttri
      else .ok st1
  else
    if 0 ≤ dj then pushInterpolated st vj vi (dj / (dj - di)) numAttri
    else .ok st

/-- The edge loop `for (i = 0, j = 1; i < n; ++i, ++j)` with `j` wrapped to 0 at `n`
(Rasterizer.cpp:193-228), run over the list of the remaining values of `i`. -/
def clipEdges (plane : float4) (numAttri : Nat) (src : List VS_Output) :
    List Nat → ClipBuf → Except Fault ClipBuf
  | [], st => .ok st
  | i :: rest, st =>
    let j := if i + 1 = src.length then 0 else i + 1
    match clipEdge plane numAttri (src.getD i default) (src.getD j default) st with
    | .error e => .error e
    | .ok st1 => clipEdges plane numAttri src rest st1

/-- The loop over the clip planes and the epilogue of `Clip` (Rasterizer.cpp:189-254). The
result is the returned count and the vertices written to `clipped[0..count)`; on the
early "cull out" return nothing is written. -/
def clipPlanes (numAttri : Nat) :
    List float4 → List VS_Output → List VS_Output → Except Fault (Nat × List VS_Output)
  | [], src, _ =>
    if ¬ src.length ≤ 5 then .error Fault.assertion
    else if src.length = 5 then .error Fault.assertion
    else .ok (src.length, src)
  | plane :: rest, src, pool =>
    match clipEdges plane numAttri src (List.range src.length) ⟨[], pool⟩ with
    | .error e => .error e
    | .ok st =>
      if st.dest.length < 3 then .ok (st.dest.length, [])
      else clipPlanes numAttri rest st.dest st.pool

/-- `Rasterizer::Clip(clipped, v0, v1, v2)` (Rasterizer.cpp:175-255). `planes` is
`mClipPlanes`, `numAttri` is `mCurrVSOutputCount` and `pool` the (indeterminate) contents
of the slots of the local `stack_pool<VS_Output, 6>`. -/
def Clip (planes : List float4) (numAttri : Nat) (pool : List VS_Output)
    (v0 v1 v2 : VS_Output) : Except Fault (Nat × List VS_Output) :=
  clipPlanes numAttri planes [v0, v1, v2] pool

/-! ## 32-bit unsigned arithmetic -/

/-- The largest `uint32_t`, `UINT_MAX` = `std::numeric_limits<uint32_t>::max()`. -/
def UINT_MAX : Nat := 2 ^ 32 - 1

/-- Addition of two `uint32_t`. -/
def add32 (a b : Nat) : Nat := (a + b) % 2 ^ 32

/-- Subtraction of two `uint32_t`. -/
def sub32 (a b : Nat) : Nat := (a + 2 ^ 32 - b % 2 ^ 32) % 2 ^ 32

/-- Multiplication of two `uint32_t`. -/
def mul32 (a b : Nat) : Nat := (a * b) % 2 ^ 32

/-! ## Vertex caches (Cache.hpp:127-173, Rasterizer.cpp:1010-1065) -/

/-- `DirectMapCache::cache_entry_type` (Cache.hpp:158-168). -/
structure cache_entry_type (V : Type) where
  key : Nat
  value : V

/-- `DirectMapCache<uint32_t, V, MaxCount>` (Cache.hpp:127-173): the slot array `mValues`,
indexed by slot number. `mValueGenFunc` and `Capacity` are passed to the operations. -/
structure DirectMapCache (V : Type) where
  mValues : Nat → cache_entry_type V

/-- The constructor (Cache.hpp:134-138 with 163-167): every entry's key is the largest key
value, its value is default-constructed (`indet i` is whatever slot `i` then holds). -/
def DirectMapCache.construct {V : Type} (indet : Nat → V) : DirectMapCache V :=
  { mValues := fun i => { key := UINT_MAX, value := indet i } }

/-- What one fetch yields: the slot the returned reference designates, the value read through
it on return, the cache afterwards and the keys for which the underlying function was
invoked during the fetch. -/
structure Fetched (C V : Type) where
  slot : Nat
  value : V
  cache : C
  invoked : List Nat

/-- `DirectMapCache::operator()` (Cache.hpp:140-151). -/
def DirectMapCache.call {V : Type} (mValueGenFunc : Nat → V) (Capacity : Nat)
    (c : DirectMapCache V) (key : Nat) : Fetched (DirectMapCache V) V :=
  let index := key % Capacity
  if (c.mValues index).key ≠ key then
    let v := mValueGenFunc key
    { slot := index, value := v,
      cache := { mValues := Function.update c.mValues index { key := key, value := v } },
      invoked := [key] }
  else
    { slot := index, value := (c.mValues index).value, cache := c, invoked := [] }

/-- A sequence of fetches on a `DirectMapCache`: the values returned, in order, and the keys
for which the underlying function was invoked, in order. -/
def DirectMapCache.fetchAll {V : Type} (mValueGenFunc : Nat → V) (Capacity : Nat) :
    DirectMapCache V → List Nat → List V × List Nat
  | _, [] => ([], [])
  | c, k :: ks =>
    let r := c.call mValueGenFunc Capacity k
    let rest := DirectMapCache.fetchAll mValueGenFunc Capacity r.cache ks
    (r.value :: rest.1, r.invoked ++ rest.2)

/-- `VertexCacheElement`, the entry of a worker's cache in `mVertexCaches`
(used at Rasterizer.cpp:1020 and 1056-1064). -/
structure VertexCacheElement where
  Index : Nat
  Vertex : VS_Output

/-- One worker's cache `mVertexCaches[threadIdx]`, indexed by slot number. -/
abbrev WorkerCache := Nat → VertexCacheElement

/-- `Rasterizer::PreDraw` on one worker's cache (Rasterizer.cpp:1016-1022): every entry's
`Index` becomes `UINT_MAX`; the stored vertices stay. -/
def PreDraw (cache : WorkerCache) : WorkerCache :=
  fun i => { cache i with Index := UINT_MAX }

/-- `Rasterizer::FetchVertex(index, threadIdx)` (Rasterizer.cpp:1054-1065) on the cache of
worker `threadIdx`; `deviceFetchVertex` is `mDevice.FetchVertex`. -/
def FetchVertex (deviceFetchVertex : Nat → VS_Output) (VertexCacheSize : Nat)
    (cache : WorkerCache) (index : Nat) : Fetched WorkerCache VS_Output :=
  let slot := index &&& (VertexCacheSize - 1)
  if (cache slot).Index ≠ index then
    let v := deviceFetchVertex index
    { slot := slot, value := v,
      cache := Function.update cache slot { Index := index, Vertex := v },
      invoked := [index] }
  else
    { slot := slot, value := (cache slot).Vertex, cache := cache, invoked := [] }

/-- A sequence of `FetchVertex` calls of one worker: the vertices returned and the indices
for which `mDevice.FetchVertex` was invoked. -/
def FetchVertex.fetchAll (deviceFetchVertex : Nat → VS_Output) (VertexCacheSize : Nat) :
    WorkerCache → List Nat → List VS_Output × List Nat
  | _, [] => ([], [])
  | c, k :: ks =>
    let r := FetchVertex deviceFetchVertex VertexCacheSize c k
    let rest := FetchVertex.fetchAll deviceFetchVertex VertexCacheSize r.cache ks
    (r.value :: rest.1, r.invoked ++ rest.2)

/-! ## Work packages (Rasterizer.cpp:446, 453-456) -/

/-- `numPackages = (primitiveCount + SetupGeometryPackageSize - 1) / SetupGeometryPackageSize`
(Rasterizer.cpp:446), in 32-bit unsigned arithmetic. -/
def numPackages (primitiveCount packageSize : Nat) : Nat :=
  sub32 (add32 primitiveCount packageSize) 1 / packageSize

/-- `start = localWorkingPackage * SetupGeometryPackageSize` (Rasterizer.cpp:455). -/
def packageStart (packageSize p : Nat) : Nat :=
  mul32 p packageSize

/-- `end = min(primitiveCount, start + SetupGeometryPackageSize)` (Rasterizer.cpp:456). -/
def packageEnd (primitiveCount packageSize p : Nat) : Nat :=
  min primitiveCount (add32 (packageStart packageSize p) packageSize)

/-- Primitive `i` is visited by the loop `for (iPrim = start; iPrim < end; ++iPrim)` of
package `p`, and `p` passes the test `p < numPackages`. -/
def claims (primitiveCount packageSize p i : Nat) : Prop :=
  p < numPackages primitiveCount packageSize ∧
    packageStart packageSize p ≤ i ∧ i < packageEnd primitiveCount packageSize p

instance (primitiveCount packageSize p i : Nat) :
    Decidable (claims primitiveCount packageSize p i) := by
  unfold claims; infer_instance

/-! ## The clipped polygon as the spec describes it -/

/-- Spec 4.2, one edge `pi -> pj`: "if `di >= 0` keep vertex i in the destination list; if
the edge crosses the plane (`di >= 0, dj < 0` or `di < 0, dj >= 0`) synthesize a new vertex
at parameter `t = di/(di - dj)` via linear interpolation", on positions. -/
def specClipEdge (plane pi pj : float4) : List float4 :=
  let di := Dot plane pi
  let dj := Dot plane pj
  (if 0 ≤ di then [pi] else [])
    ++ (if (0 ≤ di ∧ dj < 0) ∨ (di < 0 ∧ 0 ≤ dj) then [Lerp4 pi pj (di / (di - dj))] else [])

/-- Spec 4.2, the walk over "the source polygon's edges (wrapping last to first)" for the
edges that start at the vertices `is`. -/
def specClipWalk (plane : float4) (poly : List float4) : List Nat → List float4
  | [] => []
  | i :: rest =>
    specClipEdge plane (poly.getD i default)
        (poly.getD (if i + 1 = poly.length then 0 else i + 1) default)
      ++ specClipWalk plane poly rest

/-- Spec 4.2, the polygon left by one clip plane. -/
def specClipStage (plane : float4) (poly : List float4) : List float4 :=
  specClipWalk plane poly (List.range poly.length)

/-- Spec 4.2, successive half-space clipping: "If fewer than 3 vertices survive after any
plane, the triangle is fully culled - stop"; "After all planes, the surviving polygon is the
result". No bound on the number of vertices is built in. -/
def specClip : List float4 → List float4 → List float4
  | [], poly => poly
  | plane :: rest, poly =>
    if (specClipStage plane poly).length < 3 then specClipStage plane poly
    else specClip rest (specClipStage plane poly)

/-- The number of vertices synthesized for the edges that start at the vertices `is`. -/
def synthCount (plane : float4) (poly : List float4) : List Nat → Nat
  | [] => 0
  | i :: rest =>
    (if (0 ≤ Dot plane (poly.getD i default)
          ∧ Dot plane (poly.getD (if i + 1 = poly.length then 0 else i + 1) default) < 0)
        ∨ (Dot plane (poly.getD i default) < 0
          ∧ 0 ≤ Dot plane (poly.getD (if i + 1 = poly.length then 0 else i + 1) default))
      then 1 else 0) + synthCount plane poly rest

/-! ## Projection and culling (Rasterizer.cpp:85-91, 125-173) -/

/-- `PolygonCullMode` values used at Rasterizer.cpp:147-165. -/
inductive CullMode where
  | CM_None
  | CM_Front
  | CM_Back
deriving DecidableEq, Inhabited

/-- The collaborators of the rasterizer reached through `mDevice`: index and vertex fetch,
the rasterizer state and the frame buffer's viewport transform
(`position * GetViewportMatrix()`, whose matrix type is not part of the sources). -/
structure RenderDevice where
  FetchIndex : Nat → Nat
  FetchVertex : Nat → VS_Output
  PolygonCullMode : CullMode
  FrontCounterClockwise : Bool
  ViewportTransform : float4 → float4

/-- The members and constants of `Rasterizer` read by geometry setup. The constants
`SetupGeometryPackageSize` and `VertexCacheSize` come from a header that is not part of the
sources; `poolSlots` and `cacheSlots` are the indeterminate contents of freshly allocated
scratch-pool slots and cache values. -/
structure Rasterizer where
  mDevice : RenderDevice
  mClipPlanes : List float4
  mCurrVSOutputCount : Nat
  SetupGeometryPackageSize : Nat
  VertexCacheSize : Nat
  poolSlots : List VS_Output
  cacheSlots : Nat → VS_Output

/-- `std::numeric_limits<float>::epsilon()`, 2^-23. -/
def epsilon : ℚ := 1 / 2 ^ 23

/-- Modelled from the spec: `float4 * float` of the math library (not part of the sources),
the componentwise product. -/
def float4.scale (p : float4) (val : ℚ) : float4 :=
  { X := p.X * val, Y := p.Y * val, Z := p.Z * val, W := p.W * val }

/-- `VS_Output_ProjectAttrib(out, val, numAttri)` (Rasterizer.cpp:85-91). -/
def VS_Output_ProjectAttrib (out : VS_Output) (val : ℚ) (numAttri : Nat) : VS_Output :=
  { out with
    ShaderOutputs := (attribLoop numAttri (fun so i => so.getD i 0 * val) out.ShaderOutputs) }

/-- `Rasterizer::ProjectVertex(vertex)` (Rasterizer.cpp:125-142), as the new value of
`*vertex`. -/
def ProjectVertex (R : Rasterizer) (vertex : VS_Output) : VS_Output :=
  if vertex.Position.W < epsilon then vertex
  else
    let invW := 1 / vertex.Position.W
    let divided := vertex.Position.scale invW
    let transformed := R.mDevice.ViewportTransform divided
    VS_Output_ProjectAttrib ({ vertex with Position := { transformed with W := invW } }) invW
      R.mCurrVSOutputCount

/-- `Rasterizer::BackFaceCulling(v0, v1, v2)` (Rasterizer.cpp:144-173). The two branches on
the sign of the area only evaluate expressions whose value is discarded; the function then
returns `false`. -/
def BackFaceCulling (R : Rasterizer) (v0 v1 v2 : VS_Output) : Bool :=
  if R.mDevice.PolygonCullMode = CullMode.CM_None then false
  else
    let signedArea :=
      (v1.Position.X - v0.Position.X) * (v2.Position.Y - v0.Position.Y)
        - (v1.Position.Y - v0.Position.Y) * (v2.Position.X - v0.Position.X)
    let _discarded : Bool :=
      if 0 ≤ signedArea then
        (if R.mDevice.PolygonCullMode = CullMode.CM_Front
          then !R.mDevice.FrontCounterClockwise else R.mDevice.FrontCounterClockwise)
      else
        (if R.mDevice.PolygonCullMode = CullMode.CM_Front
          then R.mDevice.FrontCounterClockwise else !R.mDevice.FrontCounterClockwise)
    false

/-! ## Geometry setup (Rasterizer.cpp:402-404, 444-527) -/

/-- Modelled from the spec: `RasterFaceInfo` (declared in a header that is not part of the
sources), "produced-triangle count plus a fixed-capacity list of vertex indices into the
clipped-vertex buffer". `Indices` is the whole fixed-capacity array. -/
structure RasterFaceInfo where
  TriCount : Nat
  Indices : List Nat
deriving DecidableEq, Inhabited

/-- How the processing of one primitive ends: the loop goes on with the next primitive, the
function has returned, or a fault has stopped it. -/
inductive Flow where
  | next
  | returned
  | fault (f : Fault)
deriving DecidableEq, Inhabited

/-- The memory geometry setup works on: the two shared buffers and the invocation's local
vertex cache, with how the last step ended. -/
structure GeomState where
  outVertices : List VS_Output
  outFaces : List RasterFaceInfo
  vertexCache : DirectMapCache VS_Output
  flow : Flow

/-- The copy loop at the end of `Clip` (Rasterizer.cpp:249-252) with
`clipped = &outVertices[baseVertex]`: `clipped[i], clipped[i+1], ...` receive `vs`. The
flag is `false` when a store fell outside `outVertices`. -/
def storeClipped (baseVertex : Nat) : Nat → List VS_Output → List VS_Output →
    List VS_Output × Bool
  | _, [], outVertices => (outVertices, true)
  | i, v :: vs, outVertices =>
    if baseVertex + i < outVertices.length then
      storeClipped baseVertex (i + 1) vs (outVertices.set (baseVertex + i) v)
    else (outVertices, false)

/-- The loops `ProjectVertex(&outVertices[baseVertex + iVertex])` (Rasterizer.cpp:485-486 and
499-500) over the values `iVertex` of the list; the index is a 32-bit sum. -/
def projectLoop (R : Rasterizer) (baseVertex : Nat) : List Nat → List VS_Output →
    List VS_Output × Bool
  | [], outVertices => (outVertices, true)
  | iVertex :: rest, outVertices =>
    match outVertices[add32 baseVertex iVertex]? with
    | none => (outVertices, false)
    | some v =>
      projectLoop R baseVertex rest
        (outVertices.set (add32 baseVertex iVertex) (ProjectVertex R v))

/-- `outFaces[baseFace].TriCount = n` (Rasterizer.cpp:480, 494, 504). -/
def setTriCount (outFaces : List RasterFaceInfo) (baseFace n : Nat) :
    Option (List RasterFaceInfo) :=
  match outFaces[baseFace]? with
  | none => none
  | some face => some (outFaces.set baseFace { face with TriCount := n })

/-- `outFaces[baseFace].Indices[k] = val` (Rasterizer.cpp:508-510). -/
def setFaceIndex (outFaces : List RasterFaceInfo) (baseFace k val : Nat) :
    Option (List RasterFaceInfo) :=
  match outFaces[baseFace]? with
  | none => none
  | some face =>
    if k < face.Indices.length then
      some (outFaces.set baseFace { face with Indices := face.Indices.set k val })
    else none

/-- The triangle loop (Rasterizer.cpp:506-522) over the values `iTri` of the list. -/
def indicesLoop (baseVertex baseFace : Nat) : List Nat → List RasterFaceInfo →
    List RasterFaceInfo × Bool
  | [], outFaces => (outFaces, true)
  | iTri :: rest, outFaces =>
    match setFaceIndex outFaces baseFace (add32 (mul32 iTri 3) 0)
        (add32 (add32 baseVertex (mul32 iTri 3)) 0) with
    | none => (outFaces, false)
    | some f0 =>
      match setFaceIndex f0 baseFace (add32 (mul32 iTri 3) 1)
          (add32 (add32 baseVertex (mul32 iTri 3)) 1) with
      | none => (f0, false)
      | some f1 =>
        match setFaceIndex f1 baseFace (add32 (mul32 iTri 3) 2)
            (add32 (add32 baseVertex (mul32 iTri 3)) 2) with
        | none => (f1, false)
        | some f2 => indicesLoop baseVertex baseFace rest f2

/-- `triCount = (numCliped < 3) ? 0 : (numCliped - 2)` (Rasterizer.cpp:503). -/
def triCountOf (numCliped : Nat) : Nat :=
  if numCliped < 3 then 0 else sub32 numCliped 2

/-- The triangulation of the clipped polygon (Rasterizer.cpp:502-522): the triangle count is
stored, then the triangle loop fills the index array. The flag is `false` when a store fell
outside `outFaces` or past the index array of the face. -/
def triangulate (baseVertex baseFace numCliped : Nat) (outFaces : List RasterFaceInfo) :
    List RasterFaceInfo × Bool :=
  match setTriCount outFaces baseFace (triCountOf numCliped) with
  | none => (outFaces, false)
  | some faces => indicesLoop baseVertex baseFace (List.range (triCountOf numCliped)) faces

/-- The part of the primitive-loop body after `Clip` has returned `numCliped` and written
its vertices (Rasterizer.cpp:475-522). -/
def afterClip (R : Rasterizer) (baseVertex baseFace numCliped : Nat) (st : GeomState) :
    GeomState :=
  if ¬ numCliped ≤ 5 then { st with flow := Flow.fault Fault.assertion }
  else if numCliped < 3 then
    match setTriCount st.outFaces baseFace 0 with
    | none => { st with flow := Flow.fault Fault.outOfBounds }
    | some faces => { st with outFaces := faces, flow := Flow.returned }
  else
    match projectLoop R baseVertex [0, 1, 2] st.outVertices with
    | (vertices, false) =>
      { st with outVertices := vertices, flow := Flow.fault Fault.outOfBounds }
    | (vertices, true) =>
      if BackFaceCulling R (vertices.getD (add32 baseVertex 0) default)
          (vertices.getD (add32 baseVertex 1) default)
          (vertices.getD (add32 baseVertex 2) default) then
        match setTriCount st.outFaces baseFace 0 with
        | none =>
          { st with outVertices := vertices, flow := Flow.fault Fault.outOfBounds }
        | some faces => { st with outVertices := vertices, outFaces := faces, flow := Flow.next }
      else
        match projectLoop R baseVertex (List.range' 3 (numCliped - 3)) vertices with
        | (projected, false) =>
          { st with outVertices := projected, flow := Flow.fault Fault.outOfBounds }
        | (projected, true) =>
          match triangulate baseVertex baseFace numCliped st.outFaces with
          | (indexed, false) =>
            { st with outVertices := projected, outFaces := indexed,
                      flow := Flow.fault Fault.outOfBounds }
          | (indexed, true) =>
            { st with outVertices := projected, outFaces := indexed, flow := Flow.next }

/-- The body of the primitive loop for primitive `iPrim` (Rasterizer.cpp:460-522). The three
fetched vertices are references into the cache: they are read when `Clip` runs, after the
third fetch. -/
def processPrimitive (R : Rasterizer) (iPrim : Nat) (st : GeomState) : GeomState :=
  let baseVertex := mul32 iPrim 4
  let baseFace := iPrim
  let f0 := st.vertexCache.call R.mDevice.FetchVertex R.VertexCacheSize
    (R.mDevice.FetchIndex (add32 (mul32 iPrim 3) 0))
  let f1 := f0.cache.call R.mDevice.FetchVertex R.VertexCacheSize
    (R.mDevice.FetchIndex (add32 (mul32 iPrim 3) 1))
  let f2 := f1.cache.call R.mDevice.FetchVertex R.VertexCacheSize
    (R.mDevice.FetchIndex (add32 (mul32 iPrim 3) 2))
  let cache := f2.cache
  match Clip R.mClipPlanes R.mCurrVSOutputCount R.poolSlots (cache.mValues f0.slot).value
      (cache.mValues f1.slot).value (cache.mValues f2.slot).value with
  | .error e => { st with vertexCache := cache, flow := Flow.fault e }
  | .ok (numCliped, written) =>
    match storeClipped baseVertex 0 written st.outVertices with
    | (vertices, false) =>
      { st with outVertices := vertices, vertexCache := cache,
                flow := Flow.fault Fault.outOfBounds }
    | (vertices, true) =>
      afterClip R baseVertex baseFace numCliped
        { st with outVertices := vertices, vertexCache := cache, flow := Flow.next }

/-- The primitive loop `for (iPrim = start; iPrim < end; ++iPrim)` (Rasterizer.cpp:458-523)
over the values `iPrim` of the list; it stops at a `return` or a fault. -/
def primitiveLoop (R : Rasterizer) : List Nat → GeomState → GeomState
  | [], st => st
  | iPrim :: rest, st =>
    match (processPrimitive R iPrim st).flow with
    | Flow.next => primitiveLoop R rest (processPrimitive R iPrim st)
    | _ => processPrimitive R iPrim st

/-- What a run of `SetupGeometry` leaves: the buffers, the shared package counter and how the
run ended (`Flow.returned` for a return). -/
structure SetupResult where
  outVertices : List VS_Output
  outFaces : List RasterFaceInfo
  workingPackage : Nat
  flow : Flow

/-- The package loop `while (localWorkingPackage < numPackages)` (Rasterizer.cpp:453-526)
of an invocation that runs without interference on the counter; `fuel` bounds the number of
packages it may claim, `none` is the answer when that bound is hit. -/
def packageLoop (R : Rasterizer) (primitiveCount : Nat) :
    Nat → Nat → Nat → GeomState → Option SetupResult
  | 0, _, _, _ => none
  | fuel + 1, localWorkingPackage, workingPackage, st =>
    if localWorkingPackage < numPackages primitiveCount R.SetupGeometryPackageSize then
      let start := packageStart R.SetupGeometryPackageSize localWorkingPackage
      let stop := packageEnd primitiveCount R.SetupGeometryPackageSize localWorkingPackage
      let done := primitiveLoop R (List.range' start (stop - start)) st
      match done.flow with
      | Flow.next =>
        packageLoop R primitiveCount fuel workingPackage (add32 workingPackage 1) done
      | other =>
        some { outVertices := done.outVertices, outFaces := done.outFaces,
               workingPackage := workingPackage, flow := other }
    else
      some { outVertices := st.outVertices, outFaces := st.outFaces,
             workingPackage := workingPackage, flow := Flow.returned }

/-- `Rasterizer::SetupGeometry(outVertices, outFaces, workingPackage, primitiveCount)`
(Rasterizer.cpp:444-527), run by one worker alone. -/
def SetupGeometry (R : Rasterizer) (outVertices : List VS_Output)
    (outFaces : List RasterFaceInfo) (workingPackage primitiveCount fuel : Nat) :
    Option SetupResult :=
  packageLoop R primitiveCount fuel workingPackage (add32 workingPackage 1)
    { outVertices := outVertices, outFaces := outFaces,
      vertexCache := DirectMapCache.construct R.cacheSlots, flow := Flow.next }

/-- The sizes `Draw` gives the two buffers (Rasterizer.cpp:403-404):
`mClippedVertices.resize(primitiveCount * 4)`, the product being a 32-bit one, and
`mClippedFaces.resize(primitiveCount)`. -/
def drawBufferSizes (primitiveCount : Nat) : Nat × Nat :=
  (mul32 primitiveCount 4, primitiveCount)

/-! ## A small scene -/

/-- A device whose index buffer is the identity and whose vertices 3, 4, 5 form a triangle
at depth z = 1/2, vertices 6, 7, 8 a triangle that the near plane cuts into a quad; every
other vertex lies behind the near plane (z = -1). No culling, identity viewport. -/
def sceneDevice : RenderDevice :=
  { FetchIndex := fun i => i
    FetchVertex := fun k =>
      if k = 3 then ⟨⟨0, 0, 1 / 2, 1⟩, []⟩
      else if k = 4 then ⟨⟨1, 0, 1 / 2, 1⟩, []⟩
      else if k = 5 then ⟨⟨0, 1, 1 / 2, 1⟩, []⟩
      else if k = 6 then ⟨⟨0, 0, -1, 10⟩, []⟩
      else if k = 7 then ⟨⟨1, 0, 1, 10⟩, []⟩
      else if k = 8 then ⟨⟨0, 1, 2, 10⟩, []⟩
      else ⟨⟨0, 0, -1, 1⟩, []⟩
    PolygonCullMode := CullMode.CM_None
    FrontCounterClockwise := true
    ViewportTransform := fun p => p }

/-- A rasterizer on `sceneDevice` with the constructor's clip planes, packages of 4
primitives and a cache of 16 entries. -/
def sceneRasterizer : Rasterizer :=
  { mDevice := sceneDevice
    mClipPlanes := mClipPlanes
    mCurrVSOutputCount := 0
    SetupGeometryPackageSize := 4
    VertexCacheSize := 16
    poolSlots := List.replicate 6 ⟨⟨0, 0, 0, 0⟩, []⟩
    cacheSlots := fun _ => ⟨⟨0, 0, 0, 0⟩, []⟩ }

/-- A face record as `resize` leaves it, here with the stale triangle count 9. -/
def staleFace : RasterFaceInfo :=
  { TriCount := 9, Indices := List.replicate 6 0 }

/-- The state in which an invocation of `SetupGeometry` starts on buffers for `n`
primitives of the scene. -/
def sceneState (n : Nat) : GeomState :=
  { outVertices := List.replicate (4 * n) ⟨⟨0, 0, 0, 0⟩, []⟩
    outFaces := List.replicate n staleFace
    vertexCache := DirectMapCache.construct sceneRasterizer.cacheSlots
    flow := Flow.next }

/-! ## The rasterization walk of Draw (Rasterizer.cpp:429-442) -/

/-- The body of the walk for one face record (Rasterizer.cpp:432-439): the arguments of the
`RasterizeTriangle` calls it makes. The vertices are read through the first three entries of
the face's index array. -/
def faceCalls (mClippedVertices : List VS_Output) (face : RasterFaceInfo) :
    List (VS_Output × VS_Output × VS_Output) :=
  if face.TriCount = 1 then
    [(mClippedVertices.getD (face.Indices.getD 0 0) default,
      mClippedVertices.getD (face.Indices.getD 1 0) default,
      mClippedVertices.getD (face.Indices.getD 2 0) default)]
  else []

/-- The loop `for (i = 0; i < mClippedFaces.size(); ++i)` of `Draw` (Rasterizer.cpp:430-441):
the `RasterizeTriangle` calls it makes, in order. -/
def rasterizeWalk (mClippedVertices : List VS_Output) :
    List RasterFaceInfo → List (VS_Output × VS_Output × VS_Output)
  | [] => []
  | face :: rest => faceCalls mClippedVertices face ++ rasterizeWalk mClippedVertices rest

/-- The divisors of the divisions `ProjectVertex` executes (Rasterizer.cpp:127-131): none
after the early return, `w` for `invW = 1.0f / w` otherwise. -/
def ProjectVertex.divisors (vertex : VS_Output) : List ℚ :=
  if vertex.Position.W < epsilon then [] else [vertex.Position.W]

/-- The three vertices `*pVSOutputs[0..2]` that `Clip` receives for primitive `iPrim`
(Rasterizer.cpp:464-474), read from the cache after the third fetch. -/
def primitiveVertices (R : Rasterizer) (iPrim : Nat) (vertexCache : DirectMapCache VS_Output) :
    VS_Output × VS_Output × VS_Output :=
  let f0 := vertexCache.call R.mDevice.FetchVertex R.VertexCacheSize
    (R.mDevice.FetchIndex (add32 (mul32 iPrim 3) 0))
  let f1 := f0.cache.call R.mDevice.FetchVertex R.VertexCacheSize
    (R.mDevice.FetchIndex (add32 (mul32 iPrim 3) 1))
  let f2 := f1.cache.call R.mDevice.FetchVertex R.VertexCacheSize
    (R.mDevice.FetchIndex (add32 (mul32 iPrim 3) 2))
  ((f2.cache.mValues f0.slot).value, (f2.cache.mValues f1.slot).value,
    (f2.cache.mValues f2.slot).value)

/-! ## Pixel pipeline (Rasterizer.cpp:37-53, 722-775) -/

/-- Modelled from the spec: `float4 + float4` of the math library (not part of the sources),
the componentwise sum. -/
def float4.add (a b : float4) : float4 :=
  { X := a.X + b.X, Y := a.Y + b.Y, Z := a.Z + b.Z, W := a.W + b.W }

/-- `VS_Output_Add(out, a, b, numAttri)` (Rasterizer.cpp:37-44). In the call
`VS_Output_Add(pBaseVertex, pBaseVertex, pDdx, N)` the destination is `a` itself: entry `i`
of `a` is read before entry `i` is written, so `a` stands for the old value. -/
def VS_Output_Add (out a b : VS_Output) (numAttri : Nat) : VS_Output :=
  { Position := a.Position.add b.Position
    ShaderOutputs :=
      attribLoop numAttri (fun _ i => a.ShaderOutputs.getD i 0 + b.ShaderOutputs.getD i 0)
        out.ShaderOutputs }

/-- `VS_Output_Mul(out, in, val, numAttri)` (Rasterizer.cpp:46-53). -/
def VS_Output_Mul (out inp : VS_Output) (val : ℚ) (numAttri : Nat) : VS_Output :=
  { Position := inp.Position.scale val
    ShaderOutputs :=
      attribLoop numAttri (fun _ i => inp.ShaderOutputs.getD i 0 * val) out.ShaderOutputs }

/-- Modelled from the spec: `PS_Output` (declared in a header that is not part of the
sources), the "color output" of the pixel shader. -/
structure PS_Output where
  Color : float4
deriving DecidableEq, Inhabited

/-- Modelled from the spec: the frame buffer collaborator (not part of the sources), with
`ReadPixel(x,y) -> (color?, depth)` and `WritePixel(x,y,color,depth?)`: what is stored at
every pixel. -/
structure FrameBuffer where
  Color : Int → Int → PS_Output
  Depth : Int → Int → ℚ

/-- Modelled from the spec: `ReadPixel(X, Y, NULL, &destDepth)`, the stored depth (the colour
pointer is null at Rasterizer.cpp:731). -/
def FrameBuffer.ReadPixel (fb : FrameBuffer) (x y : Int) : ℚ :=
  fb.Depth x y

/-- Modelled from the spec: `WritePixel(X, Y, &PSOutput, depth)` stores the colour, and the
depth when the depth pointer is not null. -/
def FrameBuffer.WritePixel (fb : FrameBuffer) (x y : Int) (output : PS_Output)
    (depth : Option ℚ) : FrameBuffer :=
  { Color := fun a b => if a = x ∧ b = y then output else fb.Color a b
    Depth := fun a b =>
      match depth with
      | some d => if a = x ∧ b = y then d else fb.Depth a b
      | none => fb.Depth a b }

/-- The values of `DepthStencilState.DepthFunc` (Rasterizer.cpp:752-769). -/
inductive CompareFunction where
  | CF_AlwaysFail
  | CF_Equal
  | CF_NotEqual
  | CF_Less
  | CF_LessEqual
  | CF_GreaterEqual
  | CF_Greater
  | CF_AlwaysPass
deriving DecidableEq, Inhabited

/-- `mDevice.DepthStencilState` as read by `RasterizeScanline`. -/
structure DepthStencilState where
  DepthFunc : CompareFunction
  DepthWriteMask : Bool

/-- The pixel shader collaborator `Execute(&PSInput, &PSOutput, &srcDepth) -> bool`: from the
input and the depth passed in, `none` for `false` (discard), else the colour output and the
depth left in `srcDepth`. `InputSlot` is the indeterminate content of the local `PSInput`
before `VS_Output_Mul` fills it. -/
structure PixelShaderStage where
  Execute : VS_Output → ℚ → Option (PS_Output × ℚ)
  InputSlot : VS_Output

/-- One call `WritePixel(X, Y, &PSOutput, depth)` made by `RasterizeScanline`. -/
structure WriteCall where
  X : Int
  Y : Int
  Output : PS_Output
  Depth : Option ℚ
deriving DecidableEq, Inhabited

/-- The `switch` on the depth function (Rasterizer.cpp:750-770): `true` when control leaves
the switch by `break` and reaches `WritePixel`, `false` when it `continue`s. `FLT_EPSILON` is
`epsilon`. -/
def depthTest : CompareFunction → ℚ → ℚ → Bool
  | CompareFunction.CF_AlwaysFail, _, _ => false
  | CompareFunction.CF_Equal, srcDepth, destDepth => decide (|srcDepth - destDepth| < epsilon)
  | CompareFunction.CF_NotEqual, srcDepth, destDepth =>
    decide (epsilon ≤ |srcDepth - destDepth|)
  | CompareFunction.CF_Less, srcDepth, destDepth => decide (srcDepth < destDepth)
  | CompareFunction.CF_LessEqual, srcDepth, destDepth => decide (srcDepth ≤ destDepth)
  | CompareFunction.CF_GreaterEqual, srcDepth, destDepth => decide (destDepth ≤ srcDepth)
  | CompareFunction.CF_Greater, srcDepth, destDepth => decide (destDepth < srcDepth)
  | CompareFunction.CF_AlwaysPass, _, _ => true

/-- What `RasterizeScanline` works on: the frame buffer, the stepped vertex `*pBaseVertex` and
the `WritePixel` calls made so far. -/
structure ScanState where
  frame : FrameBuffer
  base : VS_Output
  writes : List WriteCall

/-- The body of the pixel loop for the pixel `(X, Y)` (Rasterizer.cpp:730-774), without the
loop's increment expression. -/
def scanBody (numAttri : Nat) (ds : DepthStencilState) (shader : PixelShaderStage)
    (Y X : Int) (st : ScanState) : ScanState :=
  let destDepth := st.frame.ReadPixel X Y
  let srcDepth := st.base.Position.Z
  let curPixelInvW := 1 / st.base.Position.W
  let PSInput := VS_Output_Mul shader.InputSlot st.base curPixelInvW numAttri
  match shader.Execute PSInput srcDepth with
  | none => st
  | some (PSOutput, shaded) =>
    if depthTest ds.DepthFunc shaded destDepth then
      { st with
        frame := st.frame.WritePixel X Y PSOutput
          (if ds.DepthWriteMask then some shaded else none)
        writes := st.writes
          ++ [⟨X, Y, PSOutput, if ds.DepthWriteMask then some shaded else none⟩] }
    else st

/-- The pixel loop `for (X = xStart; X < xEnd; ++X, VS_Output_Add(pBaseVertex, pBaseVertex,
pDdx, N))` (Rasterizer.cpp:728) over the values `X` of the list; the increment expression
runs after every pass through the body, also after a `continue`. -/
def scanLoop (numAttri : Nat) (ds : DepthStencilState) (shader : PixelShaderStage)
    (Y : Int) (pDdx : VS_Output) : List Int → ScanState → ScanState
  | [], st => st
  | X :: rest, st =>
    scanLoop numAttri ds shader Y pDdx rest
      { scanBody numAttri ds shader Y X st with
        base := VS_Output_Add (scanBody numAttri ds shader Y X st).base
          (scanBody numAttri ds shader Y X st).base pDdx numAttri }

/-- `Rasterizer::RasterizeScanline(xStart, xEnd, Y, pBaseVertex, pDdx)`
(Rasterizer.cpp:722-775) on the frame buffer `frame`. -/
def RasterizeScanline (numAttri : Nat) (ds : DepthStencilState) (shader : PixelShaderStage)
    (frame : FrameBuffer) (xStart xEnd Y : Int) (pBaseVertex pDdx : VS_Output) : ScanState :=
  scanLoop numAttri ds shader Y pDdx
    ((List.range (xEnd - xStart).toNat).map (fun (k : Nat) => xStart + (k : Int)))
    { frame := frame, base := pBaseVertex, writes := [] }

/-- Spec 4.6 and 8 for depth-compare "less", over a span: walking the pixels `X` of the list
from the vertex `v`, stepping by `pDdx`, a pixel is written exactly when the shader does not
discard it and its depth is strictly less than the depth `frame` stores at that pixel, `frame`
being the frame buffer as it is before the span. -/
def specLessWrites (numAttri : Nat) (mask : Bool) (shader : PixelShaderStage)
    (frame : FrameBuffer) (Y : Int) (pDdx : VS_Output) : List Int → VS_Output → List WriteCall
  | [], _ => []
  | X :: rest, v =>
    (match shader.Execute (VS_Output_Mul shader.InputSlot v (1 / v.Position.W) numAttri)
        v.Position.Z with
      | none => []
      | some (output, shaded) =>
        if shaded < frame.Depth X Y then [⟨X, Y, output, if mask then some shaded else none⟩]
        else [])
      ++ specLessWrites numAttri mask shader frame Y pDdx rest
          (VS_Output_Add v v pDdx numAttri)

/-! ## Further scenes -/

/-- A device whose primitive 0 has the vertex (0, 0, 0, 0), with w = 0, next to two vertices
at depth z = 1/2, w = 1: all three lie inside the near and the far plane. -/
def degenerateDevice : RenderDevice :=
  { FetchIndex := fun i => i
    FetchVertex := fun k =>
      if k = 0 then ⟨⟨0, 0, 0, 0⟩, []⟩
      else if k = 1 then ⟨⟨1, 0, 1 / 2, 1⟩, []⟩
      else ⟨⟨0, 1, 1 / 2, 1⟩, []⟩
    PolygonCullMode := CullMode.CM_None
    FrontCounterClockwise := true
    ViewportTransform := fun p => p }

/-- The rasterizer of the scene, on `degenerateDevice`. -/
def degenerateRasterizer : Rasterizer :=
  { sceneRasterizer with mDevice := degenerateDevice }

/-- The rasterizer of the scene with cull mode "front" and counter-clockwise front faces. -/
def cullFrontRasterizer : Rasterizer :=
  { sceneRasterizer with
    mDevice := { sceneDevice with PolygonCullMode := CullMode.CM_Front } }

/-- A pixel shader that never discards, outputs black and sets the depth of the pixels
x = 0, 1, 2, 3 to 0.3, 0.6, 0.5, 0.1 (and leaves it elsewhere). -/
def depthScenarioShader : PixelShaderStage :=
  { Execute := fun input depth =>
      some (⟨⟨0, 0, 0, 1⟩⟩,
        if input.Position.X = 0 then 3 / 10
        else if input.Position.X = 1 then 6 / 10
        else if input.Position.X = 2 then 5 / 10
        else if input.Position.X = 3 then 1 / 10
        else depth)
    InputSlot := ⟨⟨0, 0, 0, 0⟩, []⟩ }

/-- A pixel shader that never discards, outputs black and leaves the depth as it is. -/
def passThroughShader : PixelShaderStage :=
  { Execute := fun _ depth => some (⟨⟨0, 0, 0, 1⟩⟩, depth)
    InputSlot := ⟨⟨0, 0, 0, 0⟩, []⟩ }

/-- A pixel shader that discards every pixel. -/
def discardShader : PixelShaderStage :=
  { Execute := fun _ _ => none
    InputSlot := ⟨⟨0, 0, 0, 0⟩, []⟩ }

/-- A frame buffer that stores black and the depth `d` at every pixel. -/
def uniformFrame (d : ℚ) : FrameBuffer :=
  { Color := fun _ _ => ⟨⟨0, 0, 0, 0⟩⟩
    Depth := fun _ _ => d }

/-- The rasterizer of the scene with packages of one primitive. -/
def unitPackageRasterizer : Rasterizer :=
  { sceneRasterizer with SetupGeometryPackageSize := 1 }

/-! ## Triangle rasterization (Rasterizer.cpp:28-35, 55-83, 568-720) -/

/-- Modelled from the spec: `float4 - float4` of the math library (not part of the sources),
the componentwise difference. -/
def float4.sub (a b : float4) : float4 :=
  { X := a.X - b.X, Y := a.Y - b.Y, Z := a.Z - b.Z, W := a.W - b.W }

/-- `VS_Output_Sub(out, a, b, numAttri)` (Rasterizer.cpp:28-35). -/
def VS_Output_Sub (out a b : VS_Output) (numAttri : Nat) : VS_Output :=
  { Position := a.Position.sub b.Position
    ShaderOutputs :=
      attribLoop numAttri (fun _ i => a.ShaderOutputs.getD i 0 - b.ShaderOutputs.getD i 0)
        out.ShaderOutputs }

/-- `VS_Output_Difference(ddx, ddy, v01, v02, invArea, numAttri)` (Rasterizer.cpp:55-73): the
pair of the values left in `*ddx` and `*ddy`. -/
def VS_Output_Difference (ddx ddy v01 v02 : VS_Output) (invArea : ℚ) (numAttri : Nat) :
    VS_Output × VS_Output :=
  let v01XInvArea := v01.Position.X * invArea
  let v02XInvArea := v02.Position.X * invArea
  let v01YInvArea := v01.Position.Y * invArea
  let v02YInvArea := v02.Position.Y * invArea
  (⟨(v01.Position.scale v02YInvArea).sub (v02.Position.scale v01YInvArea),
      attribLoop numAttri
        (fun _ i => v01.ShaderOutputs.getD i 0 * v02YInvArea
          - v02.ShaderOutputs.getD i 0 * v01YInvArea) ddx.ShaderOutputs⟩,
    ⟨(v02.Position.scale v01XInvArea).sub (v01.Position.scale v02XInvArea),
      attribLoop numAttri
        (fun _ i => v02.ShaderOutputs.getD i 0 * v01XInvArea
          - v01.ShaderOutputs.getD i 0 * v02XInvArea) ddy.ShaderOutputs⟩)

/-- `VS_Output_BaryCentric(out, base, ddx, ddy, offsetX, offsetY, numAttri)`
(Rasterizer.cpp:75-83). -/
def VS_Output_BaryCentric (out base ddx ddy : VS_Output) (offsetX offsetY : ℚ)
    (numAttri : Nat) : VS_Output :=
  { Position :=
      (base.Position.add (ddx.Position.scale offsetX)).add (ddy.Position.scale offsetY)
    ShaderOutputs :=
      attribLoop numAttri
        (fun _ i => base.ShaderOutputs.getD i 0 + ddx.ShaderOutputs.getD i 0 * offsetX
          + ddy.ShaderOutputs.getD i 0 * offsetY) out.ShaderOutputs }

/-- Modelled from the spec: the viewport of the current frame buffer (`GetViewport()`, a class
that is not part of the sources), as read at Rasterizer.cpp:615-619. -/
structure Viewport where
  Left : Int
  Top : Int
  Width : Int
  Height : Int

/-- What `RasterizeTriangle` and `RasterizeScanline` read through `this` and `mDevice`:
`mCurrVSOutputCount`, the viewport, the depth-stencil state and the pixel shader. -/
structure RasterTarget where
  numAttri : Nat
  viewport : Viewport
  depthStencil : DepthStencilState
  shader : PixelShaderStage

/-- The indeterminate contents of the local `VS_Output` objects of `RasterizeTriangle` before
they are written (only the position and the first `mCurrVSOutputCount` attributes are). -/
structure TriangleLocals where
  vsOutput01 : VS_Output
  vsOutput02 : VS_Output
  ddxAttrib : VS_Output
  ddyAttrib : VS_Output
  VSOutput : VS_Output

/-- The gradients `(ddxAttrib, ddyAttrib)` as `RasterizeTriangle` computes them
(Rasterizer.cpp:578-589). `1.0f / area` is the quotient of rationals (0 for a zero area,
where the float is an infinity). -/
def triangleGradients (numAttri : Nat) (locals : TriangleLocals)
    (vsOut0 vsOut1 vsOut2 : VS_Output) : VS_Output × VS_Output :=
  let vsOutput01 := VS_Output_Sub locals.vsOutput01 vsOut1 vsOut0 numAttri
  let vsOutput02 := VS_Output_Sub locals.vsOutput02 vsOut2 vsOut0 numAttri
  let area := vsOutput01.Position.X * vsOutput02.Position.Y
    - vsOutput02.Position.X * vsOutput01.Position.Y
  let invArea := 1 / area
  VS_Output_Difference locals.ddxAttrib locals.ddyAttrib vsOutput01 vsOutput02 invArea
    numAttri

/-- The three conditional swaps that sort the vertices by y (Rasterizer.cpp:591-601), on the
positions, which is all that is read of the sorted vertices. -/
def sortByY (p0 p1 p2 : float4) : float4 × float4 × float4 :=
  let s1 : float4 × float4 × float4 := if p1.Y < p0.Y then (p1, p0, p2) else (p0, p1, p2)
  let s2 : float4 × float4 × float4 :=
    if s1.2.2.Y < s1.1.Y then (s1.2.2, s1.2.1, s1.1) else s1
  if s2.2.2.Y < s2.2.1.Y then (s2.1, s2.2.2, s2.2.1) else s2

/-- The slopes `fStepX[0..2]` of the edges A-B, A-C and B-C (Rasterizer.cpp:610-613). -/
def fStepX (vA vB vC : float4) : ℚ × ℚ × ℚ :=
  (if 0 < vB.Y - vA.Y then (vB.X - vA.X) / (vB.Y - vA.Y) else 0,
    if 0 < vC.Y - vA.Y then (vC.X - vA.X) / (vC.Y - vA.Y) else 0,
    if 0 < vC.Y - vB.Y then (vC.X - vB.X) / (vC.Y - vB.Y) else 0)

/-- One call `RasterizeScanline(xStart, xEnd, Y, &VSOutput, &ddxAttrib)` made by
`RasterizeTriangle`, with the value of `VSOutput` at the call. -/
structure ScanlineCall where
  xStart : Int
  xEnd : Int
  Y : Int
  pBaseVertex : VS_Output
deriving DecidableEq, Inhabited

/-- One pass through the body of the pixel loop of `RasterizeScanline`: the pixel and the
value of `*pBaseVertex` the body works on there. -/
structure PixelVisit where
  X : Int
  Y : Int
  vertex : VS_Output
deriving DecidableEq, Inhabited

/-- The passes through the body of the pixel loop (Rasterizer.cpp:728) for the values `X` of
the list: the body leaves `*pBaseVertex` as it is and the increment expression adds `*pDdx`
after every pass. -/
def scanVisits (numAttri : Nat) (Y : Int) (pDdx : VS_Output) :
    List Int → VS_Output → List PixelVisit
  | [], _ => []
  | X :: rest, v => ⟨X, Y, v⟩ :: scanVisits numAttri Y pDdx rest (VS_Output_Add v v pDdx numAttri)

/-- The passes through the pixel loop made by one call of `RasterizeScanline`. -/
def ScanlineCall.visits (numAttri : Nat) (pDdx : VS_Output) (c : ScanlineCall) :
    List PixelVisit :=
  scanVisits numAttri c.Y pDdx
    ((List.range (c.xEnd - c.xStart).toNat).map (fun (k : Nat) => c.xStart + (k : Int)))
    c.pBaseVertex

/-- What the scanline loops of `RasterizeTriangle` work on: the frame buffer, the
`WritePixel` calls and the `RasterizeScanline` calls made so far, and the edge positions
`fX[0]`, `fX[1]`. -/
structure TriangleState where
  frame : FrameBuffer
  writes : List WriteCall
  calls : List ScanlineCall
  fX0 : ℚ
  fX1 : ℚ

/-- The second horizontal clip, the call of `RasterizeScanline` and the step to the next
scanline (Rasterizer.cpp:707-717); `iX0`, `iX1` are `iX[0]`, `iX[1]` after the first clip. A
`continue` leaves `fX` as it is. -/
def scanlineEmit (T : RasterTarget) (pDdx VSOutput : VS_Output) (fDeltaX0 fDeltaX1 : ℚ)
    (Y iX0 iX1 : Int) (st : TriangleState) : TriangleState :=
  let MaxClipX := T.viewport.Left + T.viewport.Width
  if iX1 > MaxClipX ∧ iX0 > MaxClipX then st
  else
    let xEnd := if iX1 > MaxClipX then MaxClipX else iX1
    let r := RasterizeScanline T.numAttri T.depthStencil T.shader st.frame iX0 xEnd Y
      VSOutput pDdx
    { frame := r.frame
      writes := st.writes ++ r.writes
      calls := st.calls ++ [⟨iX0, xEnd, Y, VSOutput⟩]
      fX0 := st.fX0 + fDeltaX0
      fX1 := st.fX1 + fDeltaX1 }

/-- The body of the scanline loop for the scanline `Y` (Rasterizer.cpp:683-717). `slot` is
the indeterminate content of the local `VSOutput`; `(int32_t)ceilf(x)` is the ceiling. -/
def scanlineBody (T : RasterTarget) (slot pBaseVertex ddx ddy : VS_Output)
    (fDeltaX0 fDeltaX1 : ℚ) (Y : Int) (st : TriangleState) : TriangleState :=
  let MinClipX := T.viewport.Left
  let iX0 : Int := ⌈st.fX0⌉
  let iX1 : Int := ⌈st.fX1⌉
  let fOffsetX := (iX0 : ℚ) - pBaseVertex.Position.X
  let fOffsetY := (Y : ℚ) - pBaseVertex.Position.Y
  let VSOutput := VS_Output_BaryCentric slot pBaseVertex ddx ddy fOffsetX fOffsetY T.numAttri
  if iX0 < MinClipX then
    if iX1 < MinClipX then st
    else scanlineEmit T ddx VSOutput fDeltaX0 fDeltaX1 Y MinClipX iX1 st
  else scanlineEmit T ddx VSOutput fDeltaX0 fDeltaX1 Y iX0 iX1 st

/-- The scanline loop `for ( ; iY[0] < iY[1]; ++iY[0])` (Rasterizer.cpp:681) over the values
of `iY[0]` in the list. -/
def scanlineLoop (T : RasterTarget) (slot pBaseVertex ddx ddy : VS_Output)
    (fDeltaX0 fDeltaX1 : ℚ) : List Int → TriangleState → TriangleState
  | [], st => st
  | Y :: rest, st =>
    scanlineLoop T slot pBaseVertex ddx ddy fDeltaX0 fDeltaX1 rest
      (scanlineBody T slot pBaseVertex ddx ddy fDeltaX0 fDeltaX1 Y st)

/-- The values `lo, lo + 1, ..., hi - 1` a loop counter takes. -/
def yRange (lo hi : Int) : List Int :=
  (List.range (hi - lo).toNat).map (fun (k : Nat) => lo + (k : Int))

/-- The values of `iY[0]` for which the scanline loop runs its body in part 0
(Rasterizer.cpp:639-640, 681): from `max(MinClipY, ceil(vA.Y))` up to, not including,
`min(MaxClipY, ceil(vB.Y))`. -/
def part0Rows (T : RasterTarget) (vA vB : float4) : List Int :=
  yRange (max T.viewport.Top ⌈vA.Y⌉) (min (T.viewport.Top + T.viewport.Height) ⌈vB.Y⌉)

/-- The value of `iY[0]` when the scanline loop of part 0 has ended. -/
def part0End (T : RasterTarget) (vA vB : float4) : Int :=
  if max T.viewport.Top ⌈vA.Y⌉ < min (T.viewport.Top + T.viewport.Height) ⌈vB.Y⌉ then
    min (T.viewport.Top + T.viewport.Height) ⌈vB.Y⌉
  else max T.viewport.Top ⌈vA.Y⌉

/-- The values of `iY[0]` for which the scanline loop runs its body in part 1
(Rasterizer.cpp:660, 681): from the value `iY0` part 0 left up to, not including,
`min(MaxClipY, ceil(vC.Y))`. -/
def part1Rows (T : RasterTarget) (vC : float4) (iY0 : Int) : List Int :=
  yRange iY0 (min (T.viewport.Top + T.viewport.Height) ⌈vC.Y⌉)

/-- Part 0 of the walk, `case 0` and its scanline loop (Rasterizer.cpp:627-656, 681-718):
from the top vertex `vA` down to `vB`, started with `fX = { vA.X, vA.X }`. -/
def rasterizePart0 (T : RasterTarget) (slot pBaseVertex ddx ddy : VS_Output)
    (frame : FrameBuffer) (vA vB : float4) (step : ℚ × ℚ × ℚ) : TriangleState :=
  let MinClipY := T.viewport.Top
  let iY0 : Int := max MinClipY ⌈vA.Y⌉
  let d0 := if step.1 > step.2.1 then step.2.1 else step.1
  let d1 := if step.1 > step.2.1 then step.1 else step.2.1
  let fPreStepY := (iY0 : ℚ) - vA.Y
  scanlineLoop T slot pBaseVertex ddx ddy d0 d1 (part0Rows T vA vB)
    ⟨frame, [], [], vA.X + d0 * fPreStepY, vA.X + d1 * fPreStepY⟩

/-- Part 1 of the walk, `case 1` and its scanline loop (Rasterizer.cpp:658-678, 681-718):
from `vB` down to `vC`, entered with the state `st` and the value `iY0` of `iY[0]` that part
0 left. -/
def rasterizePart1 (T : RasterTarget) (slot pBaseVertex ddx ddy : VS_Output)
    (vB vC : float4) (step : ℚ × ℚ × ℚ) (iY0 : Int) (st : TriangleState) : TriangleState :=
  let fPreStepY := (iY0 : ℚ) - vB.Y
  if step.2.1 > step.2.2 then
    scanlineLoop T slot pBaseVertex ddx ddy step.2.1 step.2.2 (part1Rows T vC iY0)
      { st with fX1 := vB.X + step.2.2 * fPreStepY }
  else
    scanlineLoop T slot pBaseVertex ddx ddy step.2.2 step.2.1 (part1Rows T vC iY0)
      { st with fX0 := vB.X + step.2.2 * fPreStepY }

/-- The two parts of the walk (Rasterizer.cpp:627-719) for the sorted positions `vA`, `vB`,
`vC`. In part 1 `iY[0]` is read as part 0 left it (the array is declared in the body of the
part loop; the value read is the one the loop of part 0 ended with). -/
def rasterizeParts (T : RasterTarget) (slot pBaseVertex ddx ddy : VS_Output)
    (frame : FrameBuffer) (vA vB vC : float4) : TriangleState :=
  let step := fStepX vA vB vC
  rasterizePart1 T slot pBaseVertex ddx ddy vB vC step (part0End T vA vB)
    (rasterizePart0 T slot pBaseVertex ddx ddy frame vA vB step)

/-- `Rasterizer::RasterizeTriangle(vsOut0, vsOut1, vsOut2)` (Rasterizer.cpp:568-720) on the
frame buffer `frame`. -/
def RasterizeTriangle (T : RasterTarget) (locals : TriangleLocals) (frame : FrameBuffer)
    (vsOut0 vsOut1 vsOut2 : VS_Output) : TriangleState :=
  let g := triangleGradients T.numAttri locals vsOut0 vsOut1 vsOut2
  let s := sortByY vsOut0.Position vsOut1.Position vsOut2.Position
  rasterizeParts T locals.VSOutput vsOut0 g.1 g.2 frame s.1 s.2.1 s.2.2

/-- The passes through the pixel loop during `RasterizeTriangle`: every pass reads the frame
buffer once and executes the pixel shader once. -/
def RasterizeTriangle.visits (T : RasterTarget) (locals : TriangleLocals)
    (frame : FrameBuffer) (vsOut0 vsOut1 vsOut2 : VS_Output) : List PixelVisit :=
  ((RasterizeTriangle T locals frame vsOut0 vsOut1 vsOut2).calls.map
    (ScanlineCall.visits T.numAttri
      (triangleGradients T.numAttri locals vsOut0 vsOut1 vsOut2).1)).flatten

/-- A viewport of 8 x 8 pixels with its corner at (`left`, 0), depth function "always",
the pass-through shader and no attributes. -/
def sceneTarget (left : Int) : RasterTarget :=
  { numAttri := 0
    viewport := ⟨left, 0, 8, 8⟩
    depthStencil := ⟨CompareFunction.CF_AlwaysPass, true⟩
    shader := passThroughShader }

/-- Locals that hold zeros. -/
def zeroLocals : TriangleLocals :=
  ⟨⟨⟨0, 0, 0, 0⟩, []⟩, ⟨⟨0, 0, 0, 0⟩, []⟩, ⟨⟨0, 0, 0, 0⟩, []⟩, ⟨⟨0, 0, 0, 0⟩, []⟩,
    ⟨⟨0, 0, 0, 0⟩, []⟩⟩

/-- Locals whose attribute arrays hold one entry. -/
def oneAttribLocals : TriangleLocals :=
  ⟨⟨⟨0, 0, 0, 0⟩, [0]⟩, ⟨⟨0, 0, 0, 0⟩, [0]⟩, ⟨⟨0, 0, 0, 0⟩, [0]⟩, ⟨⟨0, 0, 0, 0⟩, [0]⟩,
    ⟨⟨0, 0, 0, 0⟩, [0]⟩⟩

/-- A state of the walk in which no pixel has been handed to the pixel pipeline: the frame
buffer is `frame` still, no `WritePixel` call was made and every `RasterizeScanline` call
had an empty span. -/
def TriangleState.Quiet (frame : FrameBuffer) (st : TriangleState) : Prop :=
  st.frame = frame ∧ st.writes = [] ∧ ∀ c ∈ st.calls, c.xEnd ≤ c.xStart

/-- A state of the walk in which every `RasterizeScanline` call made so far had its span
inside the columns and its row inside the rows of the viewport, and every `WritePixel` call
went to a pixel of the viewport rectangle. -/
def TriangleState.Inside (vp : Viewport) (st : TriangleState) : Prop :=
  (∀ c ∈ st.calls, vp.Left ≤ c.xStart ∧ c.xEnd ≤ vp.Left + vp.Width
      ∧ vp.Top ≤ c.Y ∧ c.Y < vp.Top + vp.Height)
    ∧ ∀ w ∈ st.writes, vp.Left ≤ w.X ∧ w.X < vp.Left + vp.Width
      ∧ vp.Top ≤ w.Y ∧ w.Y < vp.Top + vp.Height

/-! ## Blinn half-vector sampling (Purple, Reflection.cpp:212-231) -/

/-- Modelled from the spec: the math library's `float3` (its header is not part of the
sources), a 3-component value. -/
structure float3 where
  X : ℚ
  Y : ℚ
  Z : ℚ
deriving DecidableEq, Inhabited

/-- Modelled from the spec: `Dot(a, b)` on `float3` (the math library is not part of the
sources). -/
def Dot3 (a b : float3) : ℚ :=
  a.X * b.X + a.Y * b.Y + a.Z * b.Z

/-- Modelled from the spec: `float * float3` of the math library, componentwise. -/
def float3.scale (s : ℚ) (a : float3) : float3 :=
  { X := s * a.X, Y := s * a.Y, Z := s * a.Z }

/-- Modelled from the spec: `float3 - float3` of the math library, componentwise. -/
def float3.sub (a b : float3) : float3 :=
  { X := a.X - b.X, Y := a.Y - b.Y, Z := a.Z - b.Z }

/-- Modelled from the spec: unary minus on `float3`, componentwise. -/
def float3.neg (a : float3) : float3 :=
  { X := -a.X, Y := -a.Y, Z := -a.Z }

/-- The functions and constants `Blinn::Sample_f` calls that are declared outside the
sources: `powf`, `sqrtf`, `Mathf::TWO_PI`, `SphericalDirection`, `SameHemisphere` and
`AbsCosTheta`, as collaborators with float results taken as rationals. -/
structure SamplingMath where
  powf : ℚ → ℚ → ℚ
  sqrtf : ℚ → ℚ
  TWO_PI : ℚ
  SphericalDirection : ℚ → ℚ → ℚ → float3
  SameHemisphere : float3 → float3 → Bool
  AbsCosTheta : float3 → ℚ

/-- The half-vector `wh` of `Blinn::Sample_f` after the flip to the hemisphere of `wo`
(Reflection.cpp:214-220). -/
def Blinn.halfVector (M : SamplingMath) (mExponent : ℚ) (wo : float3) (u1 u2 : ℚ) : float3 :=
  let cosTheta := M.powf u1 (1 / (mExponent + 1))
  let sinTheta := M.sqrtf (max 0 (1 - cosTheta * cosTheta))
  let phi := M.TWO_PI * u2
  let wh := M.SphericalDirection cosTheta sinTheta phi
  if ¬ M.SameHemisphere wh wo then wh.neg else wh

/-- The value `blinPdf` of `Blinn::Sample_f` (Reflection.cpp:224-225). -/
def Blinn.blinPdf (M : SamplingMath) (mExponent : ℚ) (wo wh : float3) : ℚ :=
  (mExponent + 1) * M.powf (M.AbsCosTheta wh) mExponent / (M.TWO_PI * 4 * Dot3 wo wh)

/-- What `Blinn::Sample_f` leaves: the direction stored in `*wi` and the stores to `*pdf`,
in the order they are made. -/
structure SampleResult where
  wi : float3
  pdfWrites : List ℚ
deriving DecidableEq

/-- The value `*pdf` holds on return: the one written last. -/
def SampleResult.pdf (r : SampleResult) (before : ℚ) : ℚ :=
  r.pdfWrites.getLastD before

/-- `Blinn::Sample_f(wo, wi, u1, u2, pdf)` (Reflection.cpp:212-231): the store of 0 is
guarded by `Dot(wo, wh) <= 0`, the store of `blinPdf` that follows is not. -/
def Blinn.Sample_f (M : SamplingMath) (mExponent : ℚ) (wo : float3) (u1 u2 : ℚ) :
    SampleResult :=
  let wh := Blinn.halfVector M mExponent wo u1 u2
  let wi := (float3.scale (2 * Dot3 wo wh) wh).sub wo
  let blinPdf := Blinn.blinPdf M mExponent wo wh
  { wi := wi
    pdfWrites := (if Dot3 wo wh ≤ 0 then [0] else []) ++ [blinPdf] }

/-- `Blinn::Pdf(wo, wi)` (Reflection.cpp:233-242) for the half-vector `wh` it computes. -/
def Blinn.Pdf (M : SamplingMath) (mExponent : ℚ) (wo wh : float3) : ℚ :=
  if Dot3 wo wh ≤ 0 then 0
  else (mExponent + 1) * M.powf (M.AbsCosTheta wh) mExponent / (M.TWO_PI * 4 * Dot3 wo wh)

/-- A math library that is exact at the arguments the scene below uses: powers with the
exponents 0 and 1, the roots of 0 and 16/25, directions at the angle phi = 0, and the float
nearest to 2 pi. -/
def sceneMath : SamplingMath :=
  { powf := fun x e => if e = 0 then 1 else x
    sqrtf := fun x => if x = 16 / 25 then 4 / 5 else 0
    TWO_PI := 13176795 / 2097152
    SphericalDirection := fun cosTheta sinTheta _ => ⟨sinTheta, 0, cosTheta⟩
    SameHemisphere := fun w wp => decide (0 < w.Z * wp.Z)
    AbsCosTheta := fun w => |w.Z| }

/-! ## LRU cache (Cache.hpp:9-120) -/

/-- Abnormal ends of an `LRUCache` operation: a failed `assert`, and the use of an iterator
that designates no node of the list (undefined behaviour of `std::list::splice`). -/
inductive LRUFault where
  | assertion
  | invalidIterator
deriving DecidableEq, Inhabited

/-- An entry of `mKeyToValues`: the key, and the pair of the value and the stored
`key_tracker_type::iterator`. An iterator is the identity of the list node it designates;
`none` is a value-initialised iterator, which designates no node. -/
structure LRUEntry (V : Type) where
  key : Nat
  value : V
  position : Option Nat

/-- `LRUCache<uint32_t, V, MaxCount>` (Cache.hpp:9-120): the recency list `mkeyTracker` as
its nodes (identity, key) from front to back, the map `mKeyToValues` as its entries, and the
identity the next list node gets. `mValueGenFunc` and `Capacity` are passed to the
operations. -/
structure LRUCache (V : Type) where
  mkeyTracker : List (Nat × Nat)
  mKeyToValues : List (LRUEntry V)
  nextNode : Nat

/-- The constructor (Cache.hpp:19-23): list and map are empty. -/
def LRUCache.construct {V : Type} : LRUCache V :=
  { mkeyTracker := [], mKeyToValues := [], nextNode := 0 }

/-- `mKeyToValues.find(k)`: the entry with key `k`, `none` for `end()`. -/
def LRUCache.find {V : Type} (c : LRUCache V) (k : Nat) : Option (LRUEntry V) :=
  c.mKeyToValues.find? (fun e => decide (e.key = k))

/-- `LRUCache::evict()` (Cache.hpp:95-109). -/
def LRUCache.evict {V : Type} (c : LRUCache V) : Except LRUFault (LRUCache V) :=
  match c.mkeyTracker with
  | [] => .error LRUFault.assertion
  | front :: rest =>
    match c.find front.2 with
    | none => .error LRUFault.assertion
    | some _ =>
      .ok { c with
        mKeyToValues := c.mKeyToValues.eraseP (fun e => decide (e.key = front.2))
        mkeyTracker := rest }

/-- `LRUCache::insert(k, v)` (Cache.hpp:71-92); `std::unordered_map::insert` adds the entry
only when the key is absent. -/
def LRUCache.insert {V : Type} (Capacity : Nat) (c : LRUCache V) (k : Nat) (v : V) :
    Except LRUFault (LRUCache V) :=
  match c.find k with
  | some _ => .error LRUFault.assertion
  | none =>
    match (if c.mKeyToValues.length = Capacity then c.evict else .ok c) with
    | .error e => .error e
    | .ok c1 =>
      .ok { mkeyTracker := c1.mkeyTracker ++ [(c1.nextNode, k)]
            mKeyToValues :=
              (if (c1.find k).isSome then c1.mKeyToValues
                else c1.mKeyToValues ++ [⟨k, v, some c1.nextNode⟩])
            nextNode := c1.nextNode + 1 }

/-- `mkeyTracker.splice(mkeyTracker.end(), mkeyTracker, it)`: the node `it` designates is
moved to the back; `none` when `it` designates no node of the list. -/
def spliceToEnd (l : List (Nat × Nat)) (it : Option Nat) : Option (List (Nat × Nat)) :=
  match it with
  | none => none
  | some n =>
    match l.find? (fun nd => decide (nd.1 = n)) with
    | none => none
    | some nd => some (l.eraseP (fun x => decide (x.1 = n)) ++ [nd])

/-- What one fetch on an `LRUCache` yields: the value read through the returned reference,
the cache afterwards and the keys for which `mValueGenFunc` was invoked. -/
structure LRUFetched (V : Type) where
  value : V
  cache : LRUCache V
  invoked : List Nat

/-- `LRUCache::operator()` (Cache.hpp:47-67). On a miss the value is read back through
`mKeyToValues[key]`, which would add a value-initialised entry if the key were absent. -/
def LRUCache.call {V : Type} [Inhabited V] (mValueGenFunc : Nat → V) (Capacity : Nat)
    (c : LRUCache V) (key : Nat) : Except LRUFault (LRUFetched V) :=
  match c.find key with
  | none =>
    match c.insert Capacity key (mValueGenFunc key) with
    | .error e => .error e
    | .ok c1 =>
      match c1.find key with
      | some e => .ok ⟨e.value, c1, [key]⟩
      | none =>
        .ok ⟨default,
          { c1 with mKeyToValues := c1.mKeyToValues ++ [⟨key, default, none⟩] }, [key]⟩
  | some e =>
    match spliceToEnd c.mkeyTracker e.position with
    | none => .error LRUFault.invalidIterator
    | some t => .ok ⟨e.value, { c with mkeyTracker := t }, []⟩

/-- What a sequence of fetches yields: the values returned and the keys for which
`mValueGenFunc` was invoked, in order, and the cache afterwards. -/
structure LRURun (V : Type) where
  values : List V
  invoked : List Nat
  cache : LRUCache V

/-- A sequence of fetches on an `LRUCache`. -/
def LRUCache.fetchAll {V : Type} [Inhabited V] (mValueGenFunc : Nat → V) (Capacity : Nat) :
    LRUCache V → List Nat → Except LRUFault (LRURun V)
  | c, [] => .ok ⟨[], [], c⟩
  | c, k :: ks =>
    match c.call mValueGenFunc Capacity k with
    | .error e => .error e
    | .ok r =>
      match LRUCache.fetchAll mValueGenFunc Capacity r.cache ks with
      | .error e => .error e
      | .ok rest => .ok ⟨r.value :: rest.values, r.invoked ++ rest.invoked, rest.cache⟩

/-- The keys of the recency list, front (least recently used) first. -/
def LRUCache.trackedKeys {V : Type} (c : LRUCache V) : List Nat :=
  c.mkeyTracker.map Prod.snd

/-- In the words of C37, "the fetches since the last fetch of `k`": the part of the history
after the last occurrence of `k` (the whole history when `k` was never fetched). -/
def fetchedSince (history : List Nat) (k : Nat) : List Nat :=
  (history.reverse.takeWhile (fun x => decide (x ≠ k))).reverse

/-- In the words of C37, "the number of distinct other keys fetched since the last fetch
of `k`". -/
def othersSince (history : List Nat) (k : Nat) : Nat :=
  (fetchedSince history k).dedup.length

/-- In the words of C37, "the last fetch of `k`": the position in the history of the last
fetch of `k`. -/
def lastFetch (history : List Nat) (k : Nat) : Nat :=
  history.length - 1 - history.reverse.indexOf k

/-- The invariant of an `LRUCache` of capacity `Capacity` whose generator is `gen`: list and
map hold no key twice, the nodes have distinct identities below `nextNode`, every map entry
holds the generator's value for its key and the iterator of a node with its own key, every
key of the list is a key of the map, list and map have equally many entries, at most
`Capacity`. -/
def LRUCache.Valid {V : Type} (gen : Nat → V) (Capacity : Nat) (c : LRUCache V) : Prop :=
  c.trackedKeys.Nodup
    ∧ (c.mkeyTracker.map Prod.fst).Nodup
    ∧ (∀ nd ∈ c.mkeyTracker, nd.1 < c.nextNode)
    ∧ (c.mKeyToValues.map LRUEntry.key).Nodup
    ∧ (∀ e ∈ c.mKeyToValues,
        e.value = gen e.key ∧ ∃ n, e.position = some n ∧ (n, e.key) ∈ c.mkeyTracker)
    ∧ (∀ nd ∈ c.mkeyTracker, ∃ e ∈ c.mKeyToValues, e.key = nd.2)
    ∧ c.mkeyTracker.length = c.mKeyToValues.length
    ∧ c.mKeyToValues.length ≤ Capacity

/-- The keys an LRU policy of capacity `Capacity` holds after the fetches `history`, least
recently fetched first: the last `Capacity` of the distinct keys in the order of their last
fetch. -/
def recentKeys (Capacity : Nat) (history : List Nat) : List Nat :=
  history.dedup.drop (history.dedup.length - Capacity)

/-! ## Binary32 and int32 arithmetic

The definitions above take `float` values as exact rationals and `int32_t` values as
unbounded integers. The definitions of this section and of the next two model the rounding of
every `float` operation and the range of `int32_t`, for the statements that depend on them. -/

/-- Two to the power `e`. -/
def pow2 (e : Int) : ℚ :=
  if 0 ≤ e then ((2 ^ e.toNat : Nat) : ℚ) else 1 / ((2 ^ (-e).toNat : Nat) : ℚ)

/-- The number of binary digits of `n` (for `fuel` at least that number). -/
def bitLength : Nat → Nat → Nat
  | 0, _ => 0
  | fuel + 1, n => if n = 0 then 0 else bitLength fuel (n / 2) + 1

/-- The binary exponent of `x ≠ 0`: the `e` with `2 ^ e ≤ |x| < 2 ^ (e + 1)`. The difference
of the digit counts of numerator and denominator is `e` or `e + 1`. -/
def exponentOf (x : ℚ) : Int :=
  let e0 : Int := (bitLength x.num.natAbs x.num.natAbs : Int) - (bitLength x.den x.den : Int)
  if pow2 e0 ≤ |x| then e0 else e0 - 1

/-- The integer nearest to `x`, the even one of the two when `x` lies halfway. -/
def roundEven (x : ℚ) : Int :=
  if x - (⌊x⌋ : ℚ) < 1 / 2 then ⌊x⌋
  else if 1 / 2 < x - (⌊x⌋ : ℚ) then ⌊x⌋ + 1
  else if ⌊x⌋ % 2 = 0 then ⌊x⌋
  else ⌊x⌋ + 1

/-- The value a `float` operation delivers for the exact result `x`: the nearest binary32
number (24-bit significand, least exponent -126, gradual underflow), ties to even. Overflow
to infinity is not modelled: the scenes below stay far from the largest binary32 number. -/
def fl32 (x : ℚ) : ℚ :=
  if x = 0 then 0
  else (roundEven (x / pow2 (max (exponentOf x) (-126) - 23)) : ℚ)
    * pow2 (max (exponentOf x) (-126) - 23)

/-- The conversion `(int32_t)ceilf(x)`: the ceiling of `x` where an `int32_t` can hold it;
elsewhere the conversion is undefined and `indet x` is the value it happens to yield. -/
def int32Cast (indet : ℚ → Int) (x : ℚ) : Int :=
  if -2147483648 ≤ ⌈x⌉ ∧ ⌈x⌉ < 2147483648 then ⌈x⌉ else indet x

/-- The sum of two `int32_t`: the exact sum where an `int32_t` can hold it; elsewhere the
addition is undefined and `indet` gives the value it happens to yield. -/
def int32Add (indet : ℚ → Int) (a b : Int) : Int :=
  if -2147483648 ≤ a + b ∧ a + b < 2147483648 then a + b else indet ((a + b : Int) : ℚ)

/-- The value the conversion instruction of x86 (`cvttss2si`) yields for an operand out of
range, the "integer indefinite" value `-2 ^ 31`. -/
def x86Indefinite : ℚ → Int :=
  fun _ => -2147483648

/-! ## Clipper in binary32 (Rasterizer.cpp:93-100, 175-255) -/

/-- Modelled from the spec: `Dot(plane, position)` in binary32, the four products and the
three sums rounded one by one (the math library is not part of the sources). -/
def Binary32.Dot (a b : float4) : ℚ :=
  fl32 (fl32 (fl32 (fl32 (a.X * b.X) + fl32 (a.Y * b.Y)) + fl32 (a.Z * b.Z)) + fl32 (a.W * b.W))

/-- Modelled from the spec: `Lerp(a, b, t)` on scalars in binary32, written as
`a + (b - a) * t` (the math library is not part of the sources). -/
def Binary32.Lerp (a b t : ℚ) : ℚ :=
  fl32 (a + fl32 (fl32 (b - a) * t))

/-- Modelled from the spec: `Lerp(a, b, t)` on scalars in binary32, written as
`(1 - t) * a + t * b`, the other usual form of the linear interpolation. -/
def Binary32.LerpWeighted (a b t : ℚ) : ℚ :=
  fl32 (fl32 (fl32 (1 - t) * a) + fl32 (t * b))

/-- Modelled from the spec: `Lerp(a, b, t)` on `float4`, componentwise; `lerp` is the scalar
interpolation of the math library. -/
def Binary32.Lerp4 (lerp : ℚ → ℚ → ℚ → ℚ) (a b : float4) (t : ℚ) : float4 :=
  { X := lerp a.X b.X t, Y := lerp a.Y b.Y t, Z := lerp a.Z b.Z t, W := lerp a.W b.W t }

/-- `VS_Output_Interpolate(out, a, b, t, numAttri)` (Rasterizer.cpp:93-100) in binary32. -/
def Binary32.VS_Output_Interpolate (lerp : ℚ → ℚ → ℚ → ℚ) (out a b : VS_Output) (t : ℚ)
    (numAttri : Nat) : VS_Output :=
  { Position := Binary32.Lerp4 lerp a.Position b.Position t
    ShaderOutputs :=
      attribLoop numAttri
        (fun _ i => lerp (a.ShaderOutputs.getD i 0) (b.ShaderOutputs.getD i 0) t)
        out.ShaderOutputs }

/-- The pair `pool.malloc()` / `VS_Output_Interpolate(newVSOutput, a, b, t, N)` followed by the
store of the new vertex (Rasterizer.cpp:209-213 and 221-225), in binary32. -/
def Binary32.pushInterpolated (lerp : ℚ → ℚ → ℚ → ℚ) (st : ClipBuf) (a b : VS_Output) (t : ℚ)
    (numAttri : Nat) : Except Fault ClipBuf :=
  match st.pool with
  | [] => .error Fault.poolExhausted
  | slot :: rest =>
    pushVertex { st with pool := rest } (Binary32.VS_Output_Interpolate lerp slot a b t numAttri)

/-- The body of the edge loop for the edge `vi -> vj` (Rasterizer.cpp:198-227) in binary32:
the distances are binary32 dot products, the difference and the quotient of the
interpolation parameter are rounded. -/
def Binary32.clipEdge (lerp : ℚ → ℚ → ℚ → ℚ) (plane : float4) (numAttri : Nat)
    (vi vj : VS_Output) (st : ClipBuf) : Except Fault ClipBuf :=
  let di := Binary32.Dot plane vi.Position
  let dj := Binary32.Dot plane vj.Position
  if 0 ≤ di then
    match pushVertex st vi with
    | .error e => .error e
    | .ok st1 =>
      if dj < 0 then
        Binary32.pushInterpolated lerp st1 vi vj (fl32 (di / fl32 (di - dj))) numAttri
      else .ok st1
  else
    if 0 ≤ dj then
      Binary32.pushInterpolated lerp st vj vi (fl32 (dj / fl32 (dj - di))) numAttri
    else .ok st

/-- The edge loop `for (i = 0, j = 1; i < n; ++i, ++j)` with `j` wrapped to 0 at `n`
(Rasterizer.cpp:193-228) in binary32, run over the list of the remaining values of `i`. -/
def Binary32.clipEdges (lerp : ℚ → ℚ → ℚ → ℚ) (plane : float4) (numAttri : Nat)
    (src : List VS_Output) : List Nat → ClipBuf → Except Fault ClipBuf
  | [], st => .ok st
  | i :: rest, st =>
    let j := if i + 1 = src.length then 0 else i + 1
    match Binary32.clipEdge lerp plane numAttri (src.getD i default) (src.getD j default) st with
    | .error e => .error e
    | .ok st1 => Binary32.clipEdges lerp plane numAttri src rest st1

/-- The loop over the clip planes and the epilogue of `Clip` (Rasterizer.cpp:189-254) in
binary32. -/
def Binary32.clipPlanes (lerp : ℚ → ℚ → ℚ → ℚ) (numAttri : Nat) :
    List float4 → List VS_Output → List VS_Output → Except Fault (Nat × List VS_Output)
  | [], src, _ =>
    if ¬ src.length ≤ 5 then .error Fault.assertion
    else if src.length = 5 then .error Fault.assertion
    else .ok (src.length, src)
  | plane :: rest, src, pool =>
    match Binary32.clipEdges lerp plane numAttri src (List.range src.length) ⟨[], pool⟩ with
    | .error e => .error e
    | .ok st =>
      if st.dest.length < 3 then .ok (st.dest.length, [])
      else Binary32.clipPlanes lerp numAttri rest st.dest st.pool

/-- `Rasterizer::Clip(clipped, v0, v1, v2)` (Rasterizer.cpp:175-255) in binary32: the same
control flow as `Clip`, every `float` operation rounded. `lerp` is the scalar `Lerp` of the
math library. -/
def Binary32.Clip (lerp : ℚ → ℚ → ℚ → ℚ) (planes : List float4) (numAttri : Nat)
    (pool : List VS_Output) (v0 v1 v2 : VS_Output) : Except Fault (Nat × List VS_Output) :=
  Binary32.clipPlanes lerp numAttri planes [v0, v1, v2] pool

/-! ## The scanline walk in binary32 and int32 (Rasterizer.cpp:591-719) -/

/-- The slopes `fStepX[0..2]` (Rasterizer.cpp:610-613) in binary32: each difference and each
quotient is rounded. -/
def Binary32.fStepX (vA vB vC : float4) : ℚ × ℚ × ℚ :=
  (if 0 < fl32 (vB.Y - vA.Y) then fl32 (fl32 (vB.X - vA.X) / fl32 (vB.Y - vA.Y)) else 0,
    if 0 < fl32 (vC.Y - vA.Y) then fl32 (fl32 (vC.X - vA.X) / fl32 (vC.Y - vA.Y)) else 0,
    if 0 < fl32 (vC.Y - vB.Y) then fl32 (fl32 (vC.X - vB.X) / fl32 (vC.Y - vB.Y)) else 0)

/-- What the scanline loops of `RasterizeTriangle` decide: for every pass through the loop
body the part `iPart` and the row `iY[0]`, for every call of `RasterizeScanline` its
arguments `(xStart, xEnd, Y)`, and the edge positions `fX[0]`, `fX[1]`. The interpolated
vertex handed to `RasterizeScanline` has no part in these decisions and is left out. -/
structure Binary32.Walk where
  rows : List (Nat × Int)
  spans : List (Int × Int × Int)
  fX0 : ℚ
  fX1 : ℚ
deriving DecidableEq, Inhabited

/-- The body of the scanline loop for the row `Y` of part `iPart` (Rasterizer.cpp:683-717) in
binary32 and int32. A `continue` leaves `fX` as it is. -/
def Binary32.scanlineBody (vp : Viewport) (indet : ℚ → Int) (iPart : Nat)
    (fDeltaX0 fDeltaX1 : ℚ) (Y : Int) (st : Binary32.Walk) : Binary32.Walk :=
  let MinClipX := vp.Left
  let MaxClipX := int32Add indet vp.Left vp.Width
  let iX0 := int32Cast indet st.fX0
  let iX1 := int32Cast indet st.fX1
  let entered : Binary32.Walk := { st with rows := st.rows ++ [(iPart, Y)] }
  if iX0 < MinClipX ∧ iX1 < MinClipX then entered
  else
    let xStart := if iX0 < MinClipX then MinClipX else iX0
    if iX1 > MaxClipX ∧ xStart > MaxClipX then entered
    else
      let xEnd := if iX1 > MaxClipX then MaxClipX else iX1
      { rows := entered.rows
        spans := st.spans ++ [(xStart, xEnd, Y)]
        fX0 := fl32 (st.fX0 + fDeltaX0)
        fX1 := fl32 (st.fX1 + fDeltaX1) }

/-- The scanline loop `for ( ; iY[0] < iY[1]; ++iY[0])` (Rasterizer.cpp:681) over the values
of `iY[0]` in the list. -/
def Binary32.scanlineLoop (vp : Viewport) (indet : ℚ → Int) (iPart : Nat)
    (fDeltaX0 fDeltaX1 : ℚ) : List Int → Binary32.Walk → Binary32.Walk
  | [], st => st
  | Y :: rest, st =>
    Binary32.scanlineLoop vp indet iPart fDeltaX0 fDeltaX1 rest
      (Binary32.scanlineBody vp indet iPart fDeltaX0 fDeltaX1 Y st)

/-- Part 0 of the walk, `case 0` and its scanline loop (Rasterizer.cpp:627-656, 681-718), in
binary32 and int32, started with `fX = { vA.X, vA.X }`: the state after the loop and the
value of `iY[0]` the loop ended with. -/
def Binary32.rasterizePart0 (vp : Viewport) (indet : ℚ → Int) (vA vB : float4)
    (step : ℚ × ℚ × ℚ) : Binary32.Walk × Int :=
  let MinClipY := vp.Top
  let MaxClipY := int32Add indet vp.Top vp.Height
  let iY0 := max MinClipY (int32Cast indet vA.Y)
  let iY1 := min MaxClipY (int32Cast indet vB.Y)
  let d0 := if step.1 > step.2.1 then step.2.1 else step.1
  let d1 := if step.1 > step.2.1 then step.1 else step.2.1
  let fPreStepY := fl32 (fl32 (iY0 : ℚ) - vA.Y)
  (Binary32.scanlineLoop vp indet 0 d0 d1 (yRange iY0 iY1)
      ⟨[], [], fl32 (vA.X + fl32 (d0 * fPreStepY)), fl32 (vA.X + fl32 (d1 * fPreStepY))⟩,
    if iY0 < iY1 then iY1 else iY0)

/-- Part 1 of the walk, `case 1` and its scanline loop (Rasterizer.cpp:658-678, 681-718), in
binary32 and int32, entered with the state `st` and the value `iY0` of `iY[0]` that part 0
left. -/
def Binary32.rasterizePart1 (vp : Viewport) (indet : ℚ → Int) (vB vC : float4)
    (step : ℚ × ℚ × ℚ) (iY0 : Int) (st : Binary32.Walk) : Binary32.Walk :=
  let MaxClipY := int32Add indet vp.Top vp.Height
  let iY1 := min MaxClipY (int32Cast indet vC.Y)
  let fPreStepY := fl32 (fl32 (iY0 : ℚ) - vB.Y)
  if step.2.1 > step.2.2 then
    Binary32.scanlineLoop vp indet 1 step.2.1 step.2.2 (yRange iY0 iY1)
      { st with fX1 := fl32 (vB.X + fl32 (step.2.2 * fPreStepY)) }
  else
    Binary32.scanlineLoop vp indet 1 step.2.2 step.2.1 (yRange iY0 iY1)
      { st with fX0 := fl32 (vB.X + fl32 (step.2.2 * fPreStepY)) }

/-- `Rasterizer::RasterizeTriangle` (Rasterizer.cpp:591-719) in binary32 and int32, for the
screen-space positions `p0`, `p1`, `p2` of its three arguments: the sort by y, the slopes
and the two parts of the walk. -/
def Binary32.RasterizeTriangle (vp : Viewport) (indet : ℚ → Int) (p0 p1 p2 : float4) :
    Binary32.Walk :=
  let s := sortByY p0 p1 p2
  let step := Binary32.fStepX s.1 s.2.1 s.2.2
  let part0 := Binary32.rasterizePart0 vp indet s.1 s.2.1 step
  Binary32.rasterizePart1 vp indet s.2.1 s.2.2 step part0.2 part0.1

/-- The pixels for which the pixel loop `for (X = xStart; X < xEnd; ++X)` of
`RasterizeScanline` (Rasterizer.cpp:728) runs its body, over all the calls of the walk. -/
def Binary32.Walk.pixels (w : Binary32.Walk) : List (Int × Int) :=
  (w.spans.map (fun s => (yRange s.1 s.2.1).map (fun X => (X, s.2.2)))).flatten

/-! ## Cache invariants -/

/-- Every entry that no longer holds the initial key holds the value the underlying
function gives for its key. -/
def DirectMapCache.Valid {V : Type} (f : Nat → V) (c : DirectMapCache V) : Prop :=
  ∀ slot, (c.mValues slot).key ≠ UINT_MAX → (c.mValues slot).value = f (c.mValues slot).key

/-- The analogue of `DirectMapCache.Valid` for a worker's cache. -/
def WorkerCacheValid (g : Nat → VS_Output) (c : WorkerCache) : Prop :=
  ∀ slot, (c slot).Index ≠ UINT_MAX → (c slot).Vertex = g (c slot).Index

/-! ## Frames -/

/-- The lists `a` and `b` have the same length and hold the same element at every index
outside `P`: going from `b` to `a`, nothing outside `P` has been written. -/
def SameOutside {α : Type} (P : Nat → Prop) (a b : List α) : Prop :=
  a.length = b.length ∧ ∀ k, ¬ P k → a[k]? = b[k]?

/-- Every face record has room for the six indices of two triangles. -/
def FacesRoomy (faces : List RasterFaceInfo) : Prop :=
  ∀ f ∈ faces, 6 ≤ f.Indices.length

/-- The triangle count of the face record `faces[i]`, if there is one. -/
def triCountAt (faces : List RasterFaceInfo) (i : Nat) : Option Nat :=
  (faces[i]?).map RasterFaceInfo.TriCount

/-! ## Clipper: proofs -/

theorem clipEdge_inside (plane : float4) (numAttri : Nat) (vi vj : VS_Output) (st : ClipBuf)
    (hi : 0 ≤ Dot plane vi.Position) (hj : 0 ≤ Dot plane vj.Position)
    (hroom : st.dest.length < 5) :
    clipEdge plane numAttri vi vj st = .ok { st with dest := st.dest ++ [vi] } := by
  simp [clipEdge, pushVertex, hi, hroom, not_lt.mpr hj]

theorem clipEdges_triangle_inside (plane : float4) (numAttri : Nat) (v0 v1 v2 : VS_Output)
    (pool : List VS_Output)
    (h0 : 0 ≤ Dot plane v0.Position) (h1 : 0 ≤ Dot plane v1.Position)
    (h2 : 0 ≤ Dot plane v2.Position) :
    clipEdges plane numAttri [v0, v1, v2] (List.range 3) ⟨[], pool⟩
      = .ok ⟨[v0, v1, v2], pool⟩ := by
  have hr : List.range 3 = [0, 1, 2] := by decide
  rw [hr]
  simp [clipEdges, clipEdge_inside, h0, h1, h2]

theorem clipPlanes_triangle_inside (numAttri : Nat) (v0 v1 v2 : VS_Output) :
    ∀ (planes : List float4) (pool : List VS_Output),
      (∀ p ∈ planes, 0 ≤ Dot p v0.Position ∧ 0 ≤ Dot p v1.Position ∧ 0 ≤ Dot p v2.Position) →
      clipPlanes numAttri planes [v0, v1, v2] pool = .ok (3, [v0, v1, v2]) := by
  intro planes
  induction planes with
  | nil => intro pool _; simp [clipPlanes]
  | cons p ps ih =>
    intro pool h
    obtain ⟨h0, h1, h2⟩ := h p (List.mem_cons_self _ _)
    have hs := clipEdges_triangle_inside p numAttri v0 v1 v2 pool h0 h1 h2
    simp only [clipPlanes, List.length_cons, List.length_nil] at hs ⊢
    rw [hs]
    simp only [List.length_cons, List.length_nil]
    simpa using ih pool (fun q hq => h q (List.mem_cons_of_mem _ hq))

/-- C1: a triangle whose three vertices have non-negative signed distance to every clip
plane is returned unchanged: `Clip` returns 3 and writes `v0, v1, v2`, in this order, to
`clipped[0], clipped[1], clipped[2]`. -/
theorem Clip_inside_unchanged (planes : List float4) (numAttri : Nat) (pool : List VS_Output)
    (v0 v1 v2 : VS_Output)
    (h : ∀ p ∈ planes,
      0 ≤ Dot p v0.Position ∧ 0 ≤ Dot p v1.Position ∧ 0 ≤ Dot p v2.Position) :
    Clip planes numAttri pool v0 v1 v2 = .ok (3, [v0, v1, v2]) :=
  clipPlanes_triangle_inside numAttri v0 v1 v2 planes pool h

/-- Witness of `Clip_inside_unchanged`: a triangle at depth z = 1/2, w = 1, inside the near
and the far plane. -/
theorem Clip_inside_unchanged_witness :
    Clip mClipPlanes 1 [] ⟨⟨0, 0, 1 / 2, 1⟩, [3]⟩ ⟨⟨1, 0, 1 / 2, 1⟩, [4]⟩ ⟨⟨0, 1, 1 / 2, 1⟩, [5]⟩
      = .ok (3, [⟨⟨0, 0, 1 / 2, 1⟩, [3]⟩, ⟨⟨1, 0, 1 / 2, 1⟩, [4]⟩, ⟨⟨0, 1, 1 / 2, 1⟩, [5]⟩]) :=
  Clip_inside_unchanged mClipPlanes 1 [] _ _ _ (by decide!)

/-! ### Attribute loops and interpolation -/

theorem attribLoop_succ (n : Nat) (f : List ℚ → Nat → ℚ) (out : List ℚ) :
    attribLoop (n + 1) f out = (attribLoop n f out).set n (f (attribLoop n f out) n) := by
  simp [attribLoop, List.range_succ, List.foldl_append]

theorem attribLoop_length (n : Nat) (f : List ℚ → Nat → ℚ) (out : List ℚ) :
    (attribLoop n f out).length = out.length := by
  induction n with
  | zero => simp [attribLoop]
  | succ n ih => rw [attribLoop_succ, List.length_set, ih]

theorem attribLoop_getD_ge (n : Nat) (f : List ℚ → Nat → ℚ) (out : List ℚ) (k : Nat)
    (hk : n ≤ k) : (attribLoop n f out).getD k 0 = out.getD k 0 := by
  induction n with
  | zero => simp [attribLoop]
  | succ n ih =>
    rw [attribLoop_succ, List.getD_eq_getElem?_getD, List.getElem?_set_ne (by omega),
      ← List.getD_eq_getElem?_getD, ih (by omega)]

theorem attribLoop_getD_lt (n : Nat) (g : Nat → ℚ) (out : List ℚ) (k : Nat)
    (hk : k < n) (hlen : k < out.length) :
    (attribLoop n (fun _ i => g i) out).getD k 0 = g k := by
  induction n with
  | zero => omega
  | succ n ih =>
    rw [attribLoop_succ, List.getD_eq_getElem?_getD]
    by_cases h : k = n
    · subst h
      rw [List.getElem?_set_self (by rw [attribLoop_length]; exact hlen)]
      rfl
    · rw [List.getElem?_set_ne (fun e => h e.symm), ← List.getD_eq_getElem?_getD,
        ih (by omega)]

theorem Lerp_swap (a b di dj : ℚ) (h : di ≠ dj) :
    Lerp b a (dj / (dj - di)) = Lerp a b (di / (di - dj)) := by
  have h1 : dj - di ≠ 0 := sub_ne_zero.mpr (fun e => h e.symm)
  have h2 : di - dj ≠ 0 := sub_ne_zero.mpr h
  unfold Lerp
  field_simp
  ring

theorem Lerp4_swap (a b : float4) (di dj : ℚ) (h : di ≠ dj) :
    Lerp4 b a (dj / (dj - di)) = Lerp4 a b (di / (di - dj)) := by
  simp only [Lerp4, Lerp_swap _ _ di dj h]

/-- C3: for an edge `vi -> vj` that crosses the clip plane, in either direction, the vertex
the edge step of `Clip` synthesizes (the last one it appends) has its position and its first
`N` attributes equal to the linear interpolation `a_i + (a_j - a_i) * t` of the edge's
endpoints at the one parameter `t = di / (di - dj)`. -/
theorem clipEdge_synthesized_lerp (plane : float4) (numAttri : Nat) (vi vj : VS_Output)
    (st : ClipBuf) (slot : VS_Output) (rest : List VS_Output)
    (hpool : st.pool = slot :: rest) (hN : numAttri ≤ slot.ShaderOutputs.length)
    (hroom : st.dest.length + (if 0 ≤ Dot plane vi.Position then 2 else 1) ≤ 5)
    (hcross : (0 ≤ Dot plane vi.Position ∧ Dot plane vj.Position < 0)
      ∨ (Dot plane vi.Position < 0 ∧ 0 ≤ Dot plane vj.Position)) :
    ∃ nv : VS_Output,
      clipEdge plane numAttri vi vj st
          = .ok ⟨st.dest ++ (if 0 ≤ Dot plane vi.Position then [vi] else []) ++ [nv], rest⟩
        ∧ nv.Position = Lerp4 vi.Position vj.Position
            (Dot plane vi.Position / (Dot plane vi.Position - Dot plane vj.Position))
        ∧ ∀ k, k < numAttri →
            nv.ShaderOutputs.getD k 0
              = vi.ShaderOutputs.getD k 0
                + (vj.ShaderOutputs.getD k 0 - vi.ShaderOutputs.getD k 0)
                  * (Dot plane vi.Position / (Dot plane vi.Position - Dot plane vj.Position)) := by
  rcases hcross with ⟨hi, hj⟩ | ⟨hi, hj⟩
  · rw [if_pos hi] at hroom
    refine ⟨VS_Output_Interpolate slot vi vj
      (Dot plane vi.Position / (Dot plane vi.Position - Dot plane vj.Position)) numAttri,
      ?_, rfl, ?_⟩
    · have h1 : st.dest.length < 5 := by omega
      have h2 : st.dest.length + 1 < 5 := by omega
      simp [clipEdge, pushVertex, pushInterpolated, hi, hj, h1, h2, hpool]
    · intro k hk
      simp only [VS_Output_Interpolate]
      rw [attribLoop_getD_lt numAttri _ _ k hk (by omega)]
      rfl
  · have hni : ¬ 0 ≤ Dot plane vi.Position := not_le.mpr hi
    rw [if_neg hni] at hroom
    have hne : Dot plane vi.Position ≠ Dot plane vj.Position := by
      intro e; rw [e] at hi; exact absurd hj (not_le.mpr hi)
    refine ⟨VS_Output_Interpolate slot vj vi
      (Dot plane vj.Position / (Dot plane vj.Position - Dot plane vi.Position)) numAttri,
      ?_, ?_, ?_⟩
    · have h1 : st.dest.length < 5 := by omega
      simp [clipEdge, pushVertex, pushInterpolated, hni, hj, h1, hpool]
    · simp only [VS_Output_Interpolate]
      exact Lerp4_swap _ _ _ _ hne
    · intro k hk
      simp only [VS_Output_Interpolate]
      rw [attribLoop_getD_lt numAttri _ _ k hk (by omega)]
      exact Lerp_swap _ _ _ _ hne

/-- Witness of `clipEdge_synthesized_lerp`: the edge from z = -1 to z = 3 enters the near
half-space; the new vertex sits at t = 1/4. -/
theorem clipEdge_synthesized_lerp_witness :
    ∃ nv : VS_Output,
      clipEdge ⟨0, 0, 1, 0⟩ 1 ⟨⟨0, 0, -1, 10⟩, [8]⟩ ⟨⟨4, 0, 3, 2⟩, [0]⟩ ⟨[], [⟨⟨0, 0, 0, 0⟩, [9, 9]⟩]⟩
          = .ok ⟨[] ++ (if 0 ≤ Dot ⟨0, 0, 1, 0⟩ (⟨⟨0, 0, -1, 10⟩, [8]⟩ : VS_Output).Position
              then [⟨⟨0, 0, -1, 10⟩, [8]⟩] else []) ++ [nv], []⟩
        ∧ nv.Position = Lerp4 (⟨⟨0, 0, -1, 10⟩, [8]⟩ : VS_Output).Position
            (⟨⟨4, 0, 3, 2⟩, [0]⟩ : VS_Output).Position
            (Dot ⟨0, 0, 1, 0⟩ (⟨⟨0, 0, -1, 10⟩, [8]⟩ : VS_Output).Position
              / (Dot ⟨0, 0, 1, 0⟩ (⟨⟨0, 0, -1, 10⟩, [8]⟩ : VS_Output).Position
                - Dot ⟨0, 0, 1, 0⟩ (⟨⟨4, 0, 3, 2⟩, [0]⟩ : VS_Output).Position))
        ∧ ∀ k, k < 1 →
            nv.ShaderOutputs.getD k 0
              = (⟨⟨0, 0, -1, 10⟩, [8]⟩ : VS_Output).ShaderOutputs.getD k 0
                + ((⟨⟨4, 0, 3, 2⟩, [0]⟩ : VS_Output).ShaderOutputs.getD k 0
                    - (⟨⟨0, 0, -1, 10⟩, [8]⟩ : VS_Output).ShaderOutputs.getD k 0)
                  * (Dot ⟨0, 0, 1, 0⟩ (⟨⟨0, 0, -1, 10⟩, [8]⟩ : VS_Output).Position
                    / (Dot ⟨0, 0, 1, 0⟩ (⟨⟨0, 0, -1, 10⟩, [8]⟩ : VS_Output).Position
                      - Dot ⟨0, 0, 1, 0⟩ (⟨⟨4, 0, 3, 2⟩, [0]⟩ : VS_Output).Position)) :=
  clipEdge_synthesized_lerp ⟨0, 0, 1, 0⟩ 1 ⟨⟨0, 0, -1, 10⟩, [8]⟩ ⟨⟨4, 0, 3, 2⟩, [0]⟩
    ⟨[], [⟨⟨0, 0, 0, 0⟩, [9, 9]⟩]⟩ ⟨⟨0, 0, 0, 0⟩, [9, 9]⟩ [] rfl (by decide) (by decide!)
    (by decide!)

/-! ### The clip stages against the polygon of the spec -/

theorem getD_map_Position (src : List VS_Output) (i : Nat) :
    (src.getD i default).Position = (src.map VS_Output.Position).getD i default := by
  simp only [List.getD_eq_getElem?_getD, List.getElem?_map]
  cases src[i]? <;> rfl

theorem clipEdge_spec (plane : float4) (numAttri : Nat) (vi vj : VS_Output) (st : ClipBuf)
    (hroom : st.dest.length + (specClipEdge plane vi.Position vj.Position).length ≤ 5)
    (hpool : (if (0 ≤ Dot plane vi.Position ∧ Dot plane vj.Position < 0)
        ∨ (Dot plane vi.Position < 0 ∧ 0 ≤ Dot plane vj.Position) then 1 else 0)
      ≤ st.pool.length) :
    ∃ st1 : ClipBuf, clipEdge plane numAttri vi vj st = .ok st1
      ∧ st1.dest.map VS_Output.Position
          = st.dest.map VS_Output.Position ++ specClipEdge plane vi.Position vj.Position
      ∧ st1.pool = st.pool.drop
          (if (0 ≤ Dot plane vi.Position ∧ Dot plane vj.Position < 0)
            ∨ (Dot plane vi.Position < 0 ∧ 0 ≤ Dot plane vj.Position) then 1 else 0) := by
  unfold specClipEdge at hroom ⊢
  by_cases hi : 0 ≤ Dot plane vi.Position
  · have hni : ¬ Dot plane vi.Position < 0 := not_lt.mpr hi
    by_cases hj : Dot plane vj.Position < 0
    · simp only [hi, hj, hni, and_self, true_or, if_true, false_and, or_false, List.length_append,
        List.length_cons, List.length_nil] at hroom hpool ⊢
      obtain ⟨slot, rest, hs⟩ : ∃ slot rest, st.pool = slot :: rest := by
        cases hp : st.pool with
        | nil => rw [hp] at hpool; simp at hpool
        | cons a l => exact ⟨a, l, rfl⟩
      have h1 : st.dest.length < 5 := by omega
      have h2 : st.dest.length + 1 < 5 := by omega
      refine ⟨⟨st.dest ++ [vi] ++ [VS_Output_Interpolate slot vi vj
        (Dot plane vi.Position / (Dot plane vi.Position - Dot plane vj.Position)) numAttri],
        rest⟩, ?_, ?_, ?_⟩
      · simp [clipEdge, pushVertex, pushInterpolated, hi, hj, h1, h2, hs]
      · simp [VS_Output_Interpolate]
      · simp [hs]
    · simp only [hi, hj, hni, and_false, false_and, or_self, if_true, if_false,
        List.length_append, List.length_cons, List.length_nil, List.append_nil] at hroom hpool ⊢
      have h1 : st.dest.length < 5 := by omega
      refine ⟨⟨st.dest ++ [vi], st.pool⟩, ?_, ?_, ?_⟩
      · simp [clipEdge, pushVertex, hi, hj, h1]
      · simp
      · simp
  · have hlt : Dot plane vi.Position < 0 := not_le.mp hi
    by_cases hj : 0 ≤ Dot plane vj.Position
    · simp only [hi, hj, hlt, and_self, or_true, if_true, if_false, false_and, false_or,
        List.length_append, List.length_cons, List.length_nil, List.nil_append] at hroom hpool ⊢
      obtain ⟨slot, rest, hs⟩ : ∃ slot rest, st.pool = slot :: rest := by
        cases hp : st.pool with
        | nil => rw [hp] at hpool; simp at hpool
        | cons a l => exact ⟨a, l, rfl⟩
      have h1 : st.dest.length < 5 := by omega
      have hne : Dot plane vi.Position ≠ Dot plane vj.Position := by
        intro e; rw [e] at hlt; exact absurd hj (not_le.mpr hlt)
      refine ⟨⟨st.dest ++ [VS_Output_Interpolate slot vj vi
        (Dot plane vj.Position / (Dot plane vj.Position - Dot plane vi.Position)) numAttri],
        rest⟩, ?_, ?_, ?_⟩
      · simp [clipEdge, pushVertex, pushInterpolated, hi, hj, h1, hs]
      · simp [VS_Output_Interpolate, Lerp4_swap _ _ _ _ hne]
      · simp [hs]
    · simp only [hi, hj, hlt, and_false, false_and, or_self, if_false, List.append_nil,
        List.length_nil] at hroom hpool ⊢
      refine ⟨st, ?_, ?_, ?_⟩
      · simp [clipEdge, hi, hj]
      · simp
      · simp

theorem clipEdges_spec (plane : float4) (numAttri : Nat) (src : List VS_Output) :
    ∀ (is : List Nat) (st : ClipBuf),
      st.dest.length
          + (specClipWalk plane (src.map VS_Output.Position) is).length ≤ 5 →
      synthCount plane (src.map VS_Output.Position) is ≤ st.pool.length →
      ∃ st1 : ClipBuf, clipEdges plane numAttri src is st = .ok st1
        ∧ st1.dest.map VS_Output.Position
            = st.dest.map VS_Output.Position
              ++ specClipWalk plane (src.map VS_Output.Position) is
        ∧ st1.pool = st.pool.drop (synthCount plane (src.map VS_Output.Position) is) := by
  intro is
  induction is with
  | nil =>
    intro st _ _
    exact ⟨st, rfl, by simp [specClipWalk], by simp [synthCount]⟩
  | cons i rest ih =>
    intro st hroom hpool
    simp only [specClipWalk, synthCount, List.length_append, List.length_map] at hroom hpool
    rw [← getD_map_Position, ← getD_map_Position] at hroom hpool
    obtain ⟨st1, he, hd, hp⟩ := clipEdge_spec plane numAttri (src.getD i default)
      (src.getD (if i + 1 = src.length then 0 else i + 1) default) st (by omega) (by omega)
    have hlen : st1.dest.length
        = st.dest.length + (specClipEdge plane (src.getD i default).Position
            (src.getD (if i + 1 = src.length then 0 else i + 1) default).Position).length := by
      have := congrArg List.length hd
      simpa using this
    obtain ⟨st2, he2, hd2, hp2⟩ := ih st1 (by rw [hlen]; omega)
      (by rw [hp, List.length_drop]; omega)
    refine ⟨st2, ?_, ?_, ?_⟩
    · simp only [clipEdges, he, he2]
    · rw [hd2, hd]
      simp only [specClipWalk, List.length_map, ← getD_map_Position, List.append_assoc]
    · rw [hp2, hp, List.drop_drop]
      simp only [synthCount, List.length_map, ← getD_map_Position]

theorem synthCount_le (plane : float4) (poly : List float4) :
    ∀ is : List Nat, synthCount plane poly is ≤ is.length := by
  intro is
  induction is with
  | nil => simp [synthCount]
  | cons i rest ih =>
    simp only [synthCount, List.length_cons]
    split_ifs <;> omega

theorem clipStage_spec (plane : float4) (numAttri : Nat) (src pool : List VS_Output)
    (hroom : (specClipStage plane (src.map VS_Output.Position)).length ≤ 5)
    (hpool : synthCount plane (src.map VS_Output.Position) (List.range src.length)
      ≤ pool.length) :
    ∃ st1 : ClipBuf,
      clipEdges plane numAttri src (List.range src.length) ⟨[], pool⟩ = .ok st1
        ∧ st1.dest.map VS_Output.Position = specClipStage plane (src.map VS_Output.Position)
        ∧ st1.pool.length + synthCount plane (src.map VS_Output.Position)
            (List.range src.length) = pool.length := by
  have hroom2 := hroom
  simp only [specClipStage, List.length_map] at hroom2
  obtain ⟨st1, he, hd, hp⟩ := clipEdges_spec plane numAttri src (List.range src.length)
    ⟨[], pool⟩ (by simpa using hroom2) hpool
  refine ⟨st1, he, ?_, ?_⟩
  · simpa [specClipStage] using hd
  · rw [hp, List.length_drop]
    simp only at hpool ⊢
    omega

theorem triangle_stage_facts (plane p0 p1 p2 : float4) :
    synthCount plane [p0, p1, p2] (List.range 3) ≤ 2
      ∧ (specClipStage plane [p0, p1, p2]).length ≤ 4
      ∧ ((specClipStage plane [p0, p1, p2]).length < 3 → specClipStage plane [p0, p1, p2] = []) := by
  have hr : List.range 3 = [0, 1, 2] := by decide
  simp only [specClipStage, List.length_cons, List.length_nil, hr, specClipWalk, synthCount,
    specClipEdge]
  norm_num
  by_cases h0 : 0 ≤ Dot plane p0 <;> by_cases h1 : 0 ≤ Dot plane p1 <;>
    by_cases h2 : 0 ≤ Dot plane p2 <;>
    simp [h0, h1, h2, not_lt.mpr, not_le.mp, lt_of_not_ge]

theorem Clip_two_planes_spec (a b : float4) (numAttri : Nat) (pool : List VS_Output)
    (hpool : pool.length = 6) (v0 v1 v2 : VS_Output)
    (hlen : (specClip [a, b] [v0.Position, v1.Position, v2.Position]).length ≤ 5) :
    ((specClip [a, b] [v0.Position, v1.Position, v2.Position]).length = 5 →
        Clip [a, b] numAttri pool v0 v1 v2 = .error Fault.assertion)
      ∧ ((specClip [a, b] [v0.Position, v1.Position, v2.Position]).length ≤ 4 →
        ∃ vs : List VS_Output,
          Clip [a, b] numAttri pool v0 v1 v2
              = .ok ((specClip [a, b] [v0.Position, v1.Position, v2.Position]).length, vs)
            ∧ (((specClip [a, b] [v0.Position, v1.Position, v2.Position]).length < 3 ∧ vs = [])
              ∨ (3 ≤ (specClip [a, b] [v0.Position, v1.Position, v2.Position]).length
                ∧ vs.map VS_Output.Position
                  = specClip [a, b] [v0.Position, v1.Position, v2.Position]))) := by
  obtain ⟨hs1, hl1, hz1⟩ := triangle_stage_facts a v0.Position v1.Position v2.Position
  obtain ⟨st1, he1, hd1, hp1⟩ := clipStage_spec a numAttri [v0, v1, v2] pool
    (by simpa using le_trans hl1 (by decide)) (by simpa [hpool] using le_trans hs1 (by decide))
  simp only [List.map_cons, List.map_nil, List.length_cons, List.length_nil] at hd1 hp1 he1
  have hlen1 : st1.dest.length
      = (specClipStage a [v0.Position, v1.Position, v2.Position]).length := by
    rw [← hd1, List.length_map]
  simp only [specClip] at hlen ⊢
  simp only [Clip, clipPlanes, List.length_cons, List.length_nil, he1]
  by_cases hc : (specClipStage a [v0.Position, v1.Position, v2.Position]).length < 3
  · have hc2 : st1.dest.length < 3 := by rw [hlen1]; exact hc
    simp only [if_pos hc, if_pos hc2, hlen1]
    refine ⟨fun h => by omega, fun _ => ⟨[], rfl, Or.inl ⟨hc, rfl⟩⟩⟩
  · have hc2 : ¬ st1.dest.length < 3 := by rw [hlen1]; exact hc
    simp only [if_neg hc, if_neg hc2] at hlen ⊢
    have hpl : 4 ≤ st1.pool.length := by
      have h0 : (0 : Nat) + 1 + 1 + 1 = 3 := rfl
      rw [h0] at hp1
      omega
    have hsy := synthCount_le b (st1.dest.map VS_Output.Position) (List.range st1.dest.length)
    rw [List.length_range] at hsy
    have hd4 : st1.dest.length ≤ 4 := by rw [hlen1]; exact hl1
    have hstage2 : (specClipStage b (st1.dest.map VS_Output.Position)).length ≤ 5 := by
      rw [hd1]
      split_ifs at hlen <;> exact hlen
    obtain ⟨st2, he2, hd2, -⟩ := clipStage_spec b numAttri st1.dest st1.pool hstage2
      (by omega)
    rw [hd1] at hd2
    have hlen2 : st2.dest.length
        = (specClipStage b (specClipStage a [v0.Position, v1.Position, v2.Position])).length := by
      rw [← hd2, List.length_map]
    simp only [ite_self] at hlen ⊢
    simp only [he2, hlen2]
    by_cases hc3 : (specClipStage b
        (specClipStage a [v0.Position, v1.Position, v2.Position])).length < 3
    · simp only [if_pos hc3]
      refine ⟨fun h => by omega, fun _ => ⟨[], rfl, Or.inl ⟨hc3, rfl⟩⟩⟩
    · simp only [if_neg hc3, hlen2]
      refine ⟨fun h => by simp [h], fun h => ⟨st2.dest, ?_, Or.inr ⟨by omega, hd2⟩⟩⟩
      have h5 : ¬ (specClipStage b
          (specClipStage a [v0.Position, v1.Position, v2.Position])).length = 5 := by omega
      simp [h5, hlen]

/-! ### Triangles behind a plane -/

theorem Dot_Lerp4 (q a b : float4) (t : ℚ) :
    Dot q (Lerp4 a b t) = Dot q a + (Dot q b - Dot q a) * t := by
  simp only [Dot, Lerp4, Lerp]
  ring

theorem crossing_param_bounds (di dj : ℚ)
    (h : (0 ≤ di ∧ dj < 0) ∨ (di < 0 ∧ 0 ≤ dj)) :
    0 ≤ di / (di - dj) ∧ di / (di - dj) ≤ 1 := by
  rcases h with ⟨hi, hj⟩ | ⟨hi, hj⟩
  · have hpos : 0 < di - dj := by linarith
    exact ⟨div_nonneg hi hpos.le, (div_le_one hpos).mpr (by linarith)⟩
  · have hneg : di - dj < 0 := by linarith
    refine ⟨div_nonneg_of_nonpos hi.le hneg.le, ?_⟩
    rw [div_le_one_of_neg hneg]
    linarith

theorem lerp_neg (A B t : ℚ) (hA : A < 0) (hB : B < 0) (ht0 : 0 ≤ t) (ht1 : t ≤ 1) :
    A + (B - A) * t < 0 := by
  rcases le_total A B with hAB | hAB
  · nlinarith [mul_nonneg (sub_nonneg.mpr hAB) (sub_nonneg.mpr ht1)]
  · nlinarith [mul_nonneg (sub_nonneg.mpr hAB) ht0]

theorem mem_getD_of_lt (poly : List float4) (i : Nat) (h : i < poly.length) :
    poly.getD i default ∈ poly := by
  rw [List.getD_eq_getElem _ _ h]
  exact List.getElem_mem h

theorem next_index_lt (n i : Nat) (h : i < n) : (if i + 1 = n then 0 else i + 1) < n := by
  split_ifs <;> omega

theorem specClipEdge_behind (plane q pi pj : float4) (hi : Dot q pi < 0) (hj : Dot q pj < 0) :
    ∀ x ∈ specClipEdge plane pi pj, Dot q x < 0 := by
  intro x hx
  simp only [specClipEdge, List.mem_append] at hx
  rcases hx with hx | hx
  · split_ifs at hx
    · rw [List.mem_singleton.mp hx]; exact hi
    · exact absurd hx (List.not_mem_nil _)
  · split_ifs at hx with hc
    · rw [List.mem_singleton.mp hx, Dot_Lerp4]
      obtain ⟨ht0, ht1⟩ := crossing_param_bounds _ _ hc
      exact lerp_neg _ _ _ hi hj ht0 ht1
    · exact absurd hx (List.not_mem_nil _)

theorem specClipWalk_behind (plane q : float4) (poly : List float4)
    (hq : ∀ x ∈ poly, Dot q x < 0) :
    ∀ is : List Nat, (∀ i ∈ is, i < poly.length) →
      ∀ x ∈ specClipWalk plane poly is, Dot q x < 0 := by
  intro is
  induction is with
  | nil => intro _ x hx; exact absurd hx (List.not_mem_nil _)
  | cons i rest ih =>
    intro his x hx
    have hi : i < poly.length := his i (List.mem_cons_self _ _)
    simp only [specClipWalk, List.mem_append] at hx
    rcases hx with hx | hx
    · exact specClipEdge_behind plane q _ _ (hq _ (mem_getD_of_lt poly i hi))
        (hq _ (mem_getD_of_lt poly _ (next_index_lt _ _ hi))) x hx
    · exact ih (fun j hj => his j (List.mem_cons_of_mem _ hj)) x hx

theorem specClipWalk_all_behind (plane : float4) (poly : List float4)
    (hq : ∀ x ∈ poly, Dot plane x < 0) :
    ∀ is : List Nat, (∀ i ∈ is, i < poly.length) → specClipWalk plane poly is = [] := by
  intro is
  induction is with
  | nil => intro _; rfl
  | cons i rest ih =>
    intro his
    have hi : i < poly.length := his i (List.mem_cons_self _ _)
    have h1 := hq _ (mem_getD_of_lt poly i hi)
    have h2 := hq _ (mem_getD_of_lt poly _ (next_index_lt _ _ hi))
    simp only [specClipWalk, specClipEdge, ih (fun j hj => his j (List.mem_cons_of_mem _ hj)),
      List.append_nil, if_neg (not_le.mpr h1)]
    have hc : ¬ ((0 ≤ Dot plane (poly.getD i default)
          ∧ Dot plane (poly.getD (if i + 1 = poly.length then 0 else i + 1) default) < 0)
        ∨ (Dot plane (poly.getD i default) < 0
          ∧ 0 ≤ Dot plane (poly.getD (if i + 1 = poly.length then 0 else i + 1) default))) := by
      rintro (⟨h, -⟩ | ⟨-, h⟩)
      · exact absurd h (not_le.mpr h1)
      · exact absurd h (not_le.mpr h2)
    rw [if_neg hc]
    rfl

theorem specClipStage_behind (plane q : float4) (poly : List float4)
    (hq : ∀ x ∈ poly, Dot q x < 0) : ∀ x ∈ specClipStage plane poly, Dot q x < 0 :=
  specClipWalk_behind plane q poly hq _ (fun _ hi => List.mem_range.mp hi)

theorem specClipStage_all_behind (plane : float4) (poly : List float4)
    (hq : ∀ x ∈ poly, Dot plane x < 0) : specClipStage plane poly = [] :=
  specClipWalk_all_behind plane poly hq _ (fun _ hi => List.mem_range.mp hi)

theorem specClip_behind_plane (a b p0 p1 p2 : float4)
    (h : (Dot a p0 < 0 ∧ Dot a p1 < 0 ∧ Dot a p2 < 0)
      ∨ (Dot b p0 < 0 ∧ Dot b p1 < 0 ∧ Dot b p2 < 0)) :
    specClip [a, b] [p0, p1, p2] = [] := by
  have hmem : ∀ (q : float4), Dot q p0 < 0 ∧ Dot q p1 < 0 ∧ Dot q p2 < 0 →
      ∀ x ∈ [p0, p1, p2], Dot q x < 0 := by
    intro q hq x hx
    simp only [List.mem_cons, List.mem_singleton, List.not_mem_nil, or_false] at hx
    rcases hx with rfl | rfl | rfl
    · exact hq.1
    · exact hq.2.1
    · exact hq.2.2
  simp only [specClip]
  rcases h with h | h
  · rw [specClipStage_all_behind a _ (hmem a h)]
    simp
  · have h2 := specClipStage_all_behind b _
      (specClipStage_behind a b _ (hmem b h))
    rw [h2]
    simp only [List.length_nil, Nat.ofNat_pos, if_true, ite_self]
    split_ifs with hc
    · exact (triangle_stage_facts a p0 p1 p2).2.2 hc
    · rfl

theorem DirectMapCache.valid_construct {V : Type} (f : Nat → V) (indet : Nat → V) :
    (DirectMapCache.construct indet).Valid f := by
  intro slot h
  exact absurd rfl h

theorem DirectMapCache.call_value {V : Type} (f : Nat → V) (Capacity : Nat)
    (c : DirectMapCache V) (k : Nat) (hc : c.Valid f) (hk : k ≠ UINT_MAX) :
    (c.call f Capacity k).value = f k := by
  unfold DirectMapCache.call
  by_cases h : (c.mValues (k % Capacity)).key = k
  · have hv := hc (k % Capacity) (by rw [h]; exact hk)
    simp [h, hv]
  · simp [h]

theorem DirectMapCache.call_valid {V : Type} (f : Nat → V) (Capacity : Nat)
    (c : DirectMapCache V) (k : Nat) (hc : c.Valid f) :
    (c.call f Capacity k).cache.Valid f := by
  unfold DirectMapCache.call
  by_cases h : (c.mValues (k % Capacity)).key = k
  · simpa [h] using hc
  · intro slot hs
    by_cases hslot : slot = k % Capacity
    · subst hslot
      simp [h]
    · have hs2 : (c.mValues slot).key ≠ UINT_MAX := by simpa [h, hslot] using hs
      simpa [h, hslot] using hc slot hs2

theorem DirectMapCache.fetchAll_values {V : Type} (f : Nat → V) (Capacity : Nat) :
    ∀ (ks : List Nat) (c : DirectMapCache V), c.Valid f → (∀ k ∈ ks, k ≠ UINT_MAX) →
      (DirectMapCache.fetchAll f Capacity c ks).1 = ks.map f := by
  intro ks
  induction ks with
  | nil => intro c _ _; rfl
  | cons k ks ih =>
    intro c hc hks
    have hk : k ≠ UINT_MAX := hks k (List.mem_cons_self _ _)
    simp only [DirectMapCache.fetchAll, List.map_cons]
    rw [DirectMapCache.call_value f Capacity c k hc hk,
      ih _ (DirectMapCache.call_valid f Capacity c k hc)
        (fun q hq => hks q (List.mem_cons_of_mem _ hq))]

theorem workerCacheValid_PreDraw (g : Nat → VS_Output) (c : WorkerCache) :
    WorkerCacheValid g (PreDraw c) := by
  intro slot h
  exact absurd rfl h

theorem FetchVertex_value (g : Nat → VS_Output) (size : Nat) (c : WorkerCache) (k : Nat)
    (hc : WorkerCacheValid g c) (hk : k ≠ UINT_MAX) :
    (FetchVertex g size c k).value = g k := by
  unfold FetchVertex
  by_cases h : (c (k &&& (size - 1))).Index = k
  · have hv := hc (k &&& (size - 1)) (by rw [h]; exact hk)
    simp [h, hv]
  · simp [h]

theorem FetchVertex_valid (g : Nat → VS_Output) (size : Nat) (c : WorkerCache) (k : Nat)
    (hc : WorkerCacheValid g c) :
    WorkerCacheValid g (FetchVertex g size c k).cache := by
  unfold FetchVertex
  by_cases h : (c (k &&& (size - 1))).Index = k
  · simpa [h] using hc
  · intro slot hs
    by_cases hslot : slot = k &&& (size - 1)
    · subst hslot
      simp [h]
    · have hs2 : (c slot).Index ≠ UINT_MAX := by simpa [h, hslot] using hs
      simpa [h, hslot] using hc slot hs2

theorem FetchVertex_fetchAll_values (g : Nat → VS_Output) (size : Nat) :
    ∀ (ks : List Nat) (c : WorkerCache), WorkerCacheValid g c → (∀ k ∈ ks, k ≠ UINT_MAX) →
      (FetchVertex.fetchAll g size c ks).1 = ks.map g := by
  intro ks
  induction ks with
  | nil => intro c _ _; rfl
  | cons k ks ih =>
    intro c hc hks
    have hk : k ≠ UINT_MAX := hks k (List.mem_cons_self _ _)
    simp only [FetchVertex.fetchAll, List.map_cons]
    rw [FetchVertex_value g size c k hc hk,
      ih _ (FetchVertex_valid g size c k hc) (fun q hq => hks q (List.mem_cons_of_mem _ hq))]

theorem DirectMapCache.fetchAll_hits {V : Type} (f : Nat → V) (Capacity k : Nat) :
    ∀ (n : Nat) (c : DirectMapCache V), (c.mValues (k % Capacity)).key = k →
      (DirectMapCache.fetchAll f Capacity c (List.replicate n k)).2 = [] := by
  intro n
  induction n with
  | zero => intro c _; rfl
  | succ n ih =>
    intro c h
    have hcall : c.call f Capacity k
        = { slot := k % Capacity, value := (c.mValues (k % Capacity)).value, cache := c,
            invoked := [] } := by
      simp [DirectMapCache.call, h]
    simp only [List.replicate_succ, DirectMapCache.fetchAll, hcall]
    simpa using ih c h

theorem FetchVertex_fetchAll_hits (g : Nat → VS_Output) (size k : Nat) :
    ∀ (n : Nat) (c : WorkerCache), (c (k &&& (size - 1))).Index = k →
      (FetchVertex.fetchAll g size c (List.replicate n k)).2 = [] := by
  intro n
  induction n with
  | zero => intro c _; rfl
  | succ n ih =>
    intro c h
    have hcall : FetchVertex g size c k
        = { slot := k &&& (size - 1), value := (c (k &&& (size - 1))).Vertex, cache := c,
            invoked := [] } := by
      simp [FetchVertex, h]
    simp only [List.replicate_succ, FetchVertex.fetchAll, hcall]
    simpa using ih c h

/-- C5 (as stated, refuted): on a freshly constructed `DirectMapCache` the fetch of the
largest 32-bit index returns the slot's initial value, not what the underlying function
gives; the same holds for a worker cache just after `PreDraw`. -/
theorem fetch_UINT_MAX_returns_stale :
    (DirectMapCache.fetchAll (fun k => k + 1) 16 (DirectMapCache.construct (fun _ => 0))
        [UINT_MAX]).1 = [0]
      ∧ (DirectMapCache.fetchAll (fun k => k + 1) 16 (DirectMapCache.construct (fun _ => 0))
          [UINT_MAX]).1 ≠ [UINT_MAX].map (fun k => k + 1)
      ∧ (FetchVertex.fetchAll (fun _ => ⟨⟨1, 1, 1, 1⟩, []⟩) 16
          (PreDraw (fun _ => ⟨7, ⟨⟨0, 0, 0, 0⟩, []⟩⟩)) [UINT_MAX]).1
        ≠ [UINT_MAX].map (fun _ => (⟨⟨1, 1, 1, 1⟩, []⟩ : VS_Output)) := by
  decide!

/-- C5 (amended): for every sequence of fetches of indices other than the largest 32-bit
value `UINT_MAX`, on a freshly constructed `DirectMapCache` and on a worker cache just after
`PreDraw`, each fetch of `k` returns what the underlying function gives for `k`. -/
theorem fetch_returns_underlying {V : Type} (f : Nat → V) (Capacity : Nat) (indet : Nat → V)
    (g : Nat → VS_Output) (VertexCacheSize : Nat) (cache : WorkerCache) (ks : List Nat)
    (h : ∀ k ∈ ks, k ≠ UINT_MAX) :
    (DirectMapCache.fetchAll f Capacity (DirectMapCache.construct indet) ks).1 = ks.map f
      ∧ (FetchVertex.fetchAll g VertexCacheSize (PreDraw cache) ks).1 = ks.map g :=
  ⟨DirectMapCache.fetchAll_values f Capacity ks _ (DirectMapCache.valid_construct f indet) h,
    FetchVertex_fetchAll_values g VertexCacheSize ks _ (workerCacheValid_PreDraw g cache) h⟩

/-- Witness of `fetch_returns_underlying`: the fetches 3, 19, 3 (19 and 3 collide in a cache
of 16 entries). -/
theorem fetch_returns_underlying_witness :
    (DirectMapCache.fetchAll (fun k => k + 1) 16 (DirectMapCache.construct (fun _ => 0))
        [3, 19, 3]).1 = [3, 19, 3].map (fun k => k + 1)
      ∧ (FetchVertex.fetchAll (fun k => ⟨⟨k, 0, 0, 1⟩, []⟩) 16
          (PreDraw (fun _ => ⟨7, ⟨⟨0, 0, 0, 0⟩, []⟩⟩)) [3, 19, 3]).1
        = [3, 19, 3].map (fun k => (⟨⟨(k : ℚ), 0, 0, 1⟩, []⟩ : VS_Output)) :=
  fetch_returns_underlying (fun k => k + 1) 16 (fun _ => 0) (fun k => ⟨⟨k, 0, 0, 1⟩, []⟩) 16
    (fun _ => ⟨7, ⟨⟨0, 0, 0, 0⟩, []⟩⟩) [3, 19, 3] (by decide)

/-- C6 (as stated, refuted): on a freshly constructed cache a fetch of the largest 32-bit
index does not invoke the underlying function at all. -/
theorem fetch_UINT_MAX_never_invokes :
    (DirectMapCache.fetchAll (fun k => k + 1) 16 (DirectMapCache.construct (fun _ => 0))
        (List.replicate 1 UINT_MAX)).2 = []
      ∧ (FetchVertex.fetchAll (fun _ => ⟨⟨1, 1, 1, 1⟩, []⟩) 16
          (PreDraw (fun _ => ⟨7, ⟨⟨0, 0, 0, 0⟩, []⟩⟩)) (List.replicate 1 UINT_MAX)).2 = [] := by
  decide

/-- C6 (amended): on a freshly constructed `DirectMapCache`, and on a worker cache just
after `PreDraw`, for every index `k` other than `UINT_MAX` and every `N >= 1`, a run of `N`
fetches of `k` invokes the underlying function exactly once, on the first fetch. -/
theorem repeated_fetch_invokes_once {V : Type} (f : Nat → V) (Capacity : Nat)
    (indet : Nat → V) (g : Nat → VS_Output) (VertexCacheSize : Nat) (cache : WorkerCache)
    (k N : Nat) (hk : k ≠ UINT_MAX) (hN : 1 ≤ N) :
    ((DirectMapCache.construct indet).call f Capacity k).invoked = [k]
      ∧ (DirectMapCache.fetchAll f Capacity (DirectMapCache.construct indet)
          (List.replicate N k)).2 = [k]
      ∧ (FetchVertex g VertexCacheSize (PreDraw cache) k).invoked = [k]
      ∧ (FetchVertex.fetchAll g VertexCacheSize (PreDraw cache) (List.replicate N k)).2
          = [k] := by
  obtain ⟨n, rfl⟩ : ∃ n, N = n + 1 := ⟨N - 1, by omega⟩
  have hk2 : ¬ UINT_MAX = k := fun h => hk h.symm
  have h1 : (DirectMapCache.construct indet).call f Capacity k
      = { slot := k % Capacity, value := f k,
          cache := ⟨Function.update (DirectMapCache.construct indet).mValues (k % Capacity)
            ⟨k, f k⟩⟩,
          invoked := [k] } := by
    simp [DirectMapCache.call, DirectMapCache.construct, hk2]
  have h2 : FetchVertex g VertexCacheSize (PreDraw cache) k
      = { slot := k &&& (VertexCacheSize - 1), value := g k,
          cache := (Function.update (PreDraw cache) (k &&& (VertexCacheSize - 1))
            ⟨k, g k⟩),
          invoked := [k] } := by
    simp [FetchVertex, PreDraw, hk2]
  refine ⟨by rw [h1], ?_, by rw [h2], ?_⟩
  · simp only [List.replicate_succ, DirectMapCache.fetchAll, h1]
    rw [DirectMapCache.fetchAll_hits f Capacity k n _ (by simp)]
    rfl
  · simp only [List.replicate_succ, FetchVertex.fetchAll, h2]
    rw [FetchVertex_fetchAll_hits g VertexCacheSize k n _ (by simp)]
    rfl

/-- Witness of `repeated_fetch_invokes_once`: three fetches of index 5. -/
theorem repeated_fetch_invokes_once_witness :
    ((DirectMapCache.construct (fun _ => 0)).call (fun k => k + 1) 16 5).invoked = [5]
      ∧ (DirectMapCache.fetchAll (fun k => k + 1) 16 (DirectMapCache.construct (fun _ => 0))
          (List.replicate 3 5)).2 = [5]
      ∧ (FetchVertex (fun k => ⟨⟨k, 0, 0, 1⟩, []⟩) 16
          (PreDraw (fun _ => ⟨7, ⟨⟨0, 0, 0, 0⟩, []⟩⟩)) 5).invoked = [5]
      ∧ (FetchVertex.fetchAll (fun k => ⟨⟨k, 0, 0, 1⟩, []⟩) 16
          (PreDraw (fun _ => ⟨7, ⟨⟨0, 0, 0, 0⟩, []⟩⟩)) (List.replicate 3 5)).2 = [5] :=
  repeated_fetch_invokes_once (fun k => k + 1) 16 (fun _ => 0) (fun k => ⟨⟨k, 0, 0, 1⟩, []⟩) 16
    (fun _ => ⟨7, ⟨⟨0, 0, 0, 0⟩, []⟩⟩) 5 3 (by decide) (by decide)

/-! ## Work packages: proofs -/

theorem numPackages_eq (pc S : Nat) (hS : 1 ≤ S) (hno : pc + S - 1 < 2 ^ 32) :
    numPackages pc S = (pc + S - 1) / S := by
  unfold numPackages sub32 add32
  have h : ((pc + S) % 2 ^ 32 + 2 ^ 32 - 1 % 2 ^ 32) % 2 ^ 32 = pc + S - 1 := by
    have e : (2 : Nat) ^ 32 = 4294967296 := by norm_num
    have e1 : 1 % 4294967296 = 1 := by norm_num
    rw [e] at hno ⊢
    rw [e1]
    omega
  rw [h]

theorem claims_iff (pc S p i : Nat) (hS : 1 ≤ S) (hno : pc + S - 1 < 2 ^ 32) :
    claims pc S p i ↔ i < pc ∧ p = i / S := by
  have hS0 : 0 < S := hS
  unfold claims packageEnd packageStart
  rw [numPackages_eq pc S hS hno]
  rcases Nat.eq_zero_or_pos pc with hz | hpos
  · subst hz
    have h0 : (0 + S - 1) / S = 0 := Nat.div_eq_of_lt (by omega)
    rw [h0]
    constructor
    · rintro ⟨hp, -⟩
      exact absurd hp (Nat.not_lt_zero _)
    · rintro ⟨hi, -⟩
      exact absurd hi (Nat.not_lt_zero _)
  have hsplit : pc + S - 1 = pc - 1 + S := by omega
  rw [hsplit, Nat.add_div_right _ hS0]
  constructor
  · rintro ⟨hp, hlo, hhi⟩
    have hpS : p * S + S ≤ pc - 1 + S := by
      have h1 : p ≤ (pc - 1) / S := by omega
      have h2 : p * S ≤ (pc - 1) / S * S := Nat.mul_le_mul_right S h1
      have h3 : (pc - 1) / S * S ≤ pc - 1 := Nat.div_mul_le_self _ _
      omega
    have hm : mul32 p S = p * S := by
      unfold mul32; apply Nat.mod_eq_of_lt; omega
    have ha : add32 (p * S) S = p * S + S := by
      unfold add32; apply Nat.mod_eq_of_lt; omega
    rw [hm] at hlo hhi
    rw [ha] at hhi
    have hipc : i < pc := lt_of_lt_of_le hhi (min_le_left _ _)
    have hi2 : i < p * S + S := lt_of_lt_of_le hhi (min_le_right _ _)
    refine ⟨hipc, ?_⟩
    symm
    apply Nat.div_eq_of_lt_le
    · simpa [Nat.mul_comm] using hlo
    · simpa [Nat.succ_mul, Nat.mul_comm] using hi2
  · rintro ⟨hi, rfl⟩
    have h1 : i / S ≤ (pc - 1) / S := Nat.div_le_div_right (by omega)
    have h3 : (pc - 1) / S * S ≤ pc - 1 := Nat.div_mul_le_self _ _
    have h2 : i / S * S ≤ (pc - 1) / S * S := Nat.mul_le_mul_right S h1
    have h4 : i / S * S ≤ i := Nat.div_mul_le_self _ _
    have h5 : i < i / S * S + S := by
      have := Nat.lt_succ_iff.mpr (le_refl (i / S))
      have h6 := (Nat.div_lt_iff_lt_mul hS0).mp this
      simpa [Nat.succ_mul] using h6
    have hm : mul32 (i / S) S = i / S * S := by
      unfold mul32; apply Nat.mod_eq_of_lt; omega
    have ha : add32 (i / S * S) S = i / S * S + S := by
      unfold add32; apply Nat.mod_eq_of_lt; omega
    rw [hm, ha]
    refine ⟨by omega, h4, ?_⟩
    exact lt_min hi h5

/-- C7 (amended): for every package size `S >= 1` and every primitive count for which
`primitiveCount + S - 1` does not overflow 32 bits, the ranges `[p*S, min(primitiveCount,
p*S + S))` of the package indices `p < numPackages` cover every primitive index in
`[0, primitiveCount)` exactly once, and nothing else. -/
theorem packages_partition (primitiveCount packageSize : Nat) (hS : 1 ≤ packageSize)
    (hno : primitiveCount + packageSize - 1 < 2 ^ 32) :
    (∀ i, i < primitiveCount → ∃! p, claims primitiveCount packageSize p i)
      ∧ (∀ p i, claims primitiveCount packageSize p i → i < primitiveCount) := by
  constructor
  · intro i hi
    refine ⟨i / packageSize, (claims_iff _ _ _ _ hS hno).mpr ⟨hi, rfl⟩, ?_⟩
    intro q hq
    exact ((claims_iff _ _ _ _ hS hno).mp hq).2
  · intro p i h
    exact ((claims_iff _ _ _ _ hS hno).mp h).1

/-- Witness of `packages_partition`: 10 primitives in packages of 4. -/
theorem packages_partition_witness :
    (∀ i, i < 10 → ∃! p, claims 10 4 p i) ∧ (∀ p i, claims 10 4 p i → i < 10) :=
  packages_partition 10 4 (by decide) (by decide)

/-- C7 (as stated, refuted): with `primitiveCount = 2^32 - 1` and package size 2 the 32-bit
sum `primitiveCount + 2 - 1` wraps to 0, `numPackages` is 0, and no package claims
primitive 0. -/
theorem packages_overflow_miss :
    numPackages (2 ^ 32 - 1) 2 = 0 ∧ ¬ ∃ p, claims (2 ^ 32 - 1) 2 p 0 := by
  have h : numPackages (2 ^ 32 - 1) 2 = 0 := by decide
  refine ⟨h, ?_⟩
  rintro ⟨p, hp, -⟩
  rw [h] at hp
  exact Nat.not_lt_zero _ hp
/-! ## Geometry setup: proofs -/

theorem SameOutside.refl {α : Type} (P : Nat → Prop) (a : List α) : SameOutside P a a :=
  ⟨rfl, fun _ _ => rfl⟩

theorem SameOutside.trans {α : Type} {P : Nat → Prop} {a b c : List α}
    (h1 : SameOutside P a b) (h2 : SameOutside P b c) : SameOutside P a c :=
  ⟨h1.1.trans h2.1, fun k hk => (h1.2 k hk).trans (h2.2 k hk)⟩

theorem sameOutside_set {α : Type} (P : Nat → Prop) (b : List α) (i : Nat) (v : α)
    (h : P i) : SameOutside P (b.set i v) b := by
  refine ⟨List.length_set _ _ _, fun k hk => ?_⟩
  rw [List.getElem?_set_ne]
  rintro rfl
  exact hk h

theorem storeClipped_frame (P : Nat → Prop) (base : Nat) :
    ∀ (vs : List VS_Output) (i : Nat) (buf : List VS_Output),
      (∀ j, j < vs.length → P (base + i + j)) →
      SameOutside P (storeClipped base i vs buf).1 buf := by
  intro vs
  induction vs with
  | nil => intro i buf _; exact SameOutside.refl P buf
  | cons v vs ih =>
    intro i buf h
    simp only [storeClipped]
    split_ifs with hlt
    · refine SameOutside.trans (ih (i + 1) _ (fun j hj => ?_))
        (sameOutside_set P buf (base + i) v (h 0 (by simp)))
      have := h (j + 1) (by simpa using hj)
      rwa [show base + (i + 1) + j = base + i + (j + 1) by omega]
    · exact SameOutside.refl P buf

theorem storeClipped_ok (base : Nat) :
    ∀ (vs : List VS_Output) (i : Nat) (buf : List VS_Output),
      base + i + vs.length ≤ buf.length → (storeClipped base i vs buf).2 = true := by
  intro vs
  induction vs with
  | nil => intro i buf _; rfl
  | cons v vs ih =>
    intro i buf h
    simp only [List.length_cons] at h
    have hlt : base + i < buf.length := by omega
    simp only [storeClipped, if_pos hlt]
    exact ih (i + 1) _ (by rw [List.length_set]; omega)

theorem projectLoop_frame (R : Rasterizer) (P : Nat → Prop) (base : Nat) :
    ∀ (is : List Nat) (buf : List VS_Output),
      (∀ j ∈ is, P (add32 base j)) →
      SameOutside P (projectLoop R base is buf).1 buf := by
  intro is
  induction is with
  | nil => intro buf _; exact SameOutside.refl P buf
  | cons j rest ih =>
    intro buf h
    cases hget : buf[add32 base j]? with
    | none =>
      simp only [projectLoop, hget]
      exact SameOutside.refl P buf
    | some v =>
      simp only [projectLoop, hget]
      exact SameOutside.trans (ih _ (fun q hq => h q (List.mem_cons_of_mem _ hq)))
        (sameOutside_set P buf _ _ (h j (List.mem_cons_self _ _)))

theorem projectLoop_ok (R : Rasterizer) (base : Nat) :
    ∀ (is : List Nat) (buf : List VS_Output),
      (∀ j ∈ is, add32 base j < buf.length) → (projectLoop R base is buf).2 = true := by
  intro is
  induction is with
  | nil => intro buf _; rfl
  | cons j rest ih =>
    intro buf h
    have hj : add32 base j < buf.length := h j (List.mem_cons_self _ _)
    have hget : buf[add32 base j]? = some (buf[add32 base j]) := List.getElem?_eq_getElem hj
    simp only [projectLoop, hget]
    exact ih _ (fun q hq => by
      rw [List.length_set]; exact h q (List.mem_cons_of_mem _ hq))

theorem facesRoomy_set (faces : List RasterFaceInfo) (i : Nat) (f : RasterFaceInfo)
    (h : FacesRoomy faces) (hf : 6 ≤ f.Indices.length) : FacesRoomy (faces.set i f) := by
  intro g hg
  rcases List.mem_or_eq_of_mem_set hg with hm | rfl
  · exact h g hm
  · exact hf

theorem mem_of_getElem?_eq_some {α : Type} (l : List α) (i : Nat) (a : α)
    (h : l[i]? = some a) : a ∈ l := by
  obtain ⟨hi, rfl⟩ := List.getElem?_eq_some.mp h
  exact List.getElem_mem hi

theorem setTriCount_frame (faces : List RasterFaceInfo) (i n : Nat)
    (out : List RasterFaceInfo) (h : setTriCount faces i n = some out) :
    SameOutside (fun k => k = i) out faces ∧ (FacesRoomy faces → FacesRoomy out) := by
  unfold setTriCount at h
  cases hget : faces[i]? with
  | none => rw [hget] at h; exact absurd h (by simp)
  | some f =>
    rw [hget] at h
    simp only [Option.some.injEq] at h
    subst h
    refine ⟨sameOutside_set _ faces i _ rfl, fun hr => facesRoomy_set faces i _ hr ?_⟩
    exact hr f (mem_of_getElem?_eq_some _ _ _ hget)

theorem setTriCount_some (faces : List RasterFaceInfo) (i n : Nat) (h : i < faces.length) :
    ∃ out, setTriCount faces i n = some out := by
  unfold setTriCount
  rw [List.getElem?_eq_getElem h]
  exact ⟨_, rfl⟩

theorem setFaceIndex_frame (faces : List RasterFaceInfo) (i k val : Nat)
    (out : List RasterFaceInfo) (h : setFaceIndex faces i k val = some out) :
    SameOutside (fun q => q = i) out faces ∧ (FacesRoomy faces → FacesRoomy out) := by
  unfold setFaceIndex at h
  cases hget : faces[i]? with
  | none => rw [hget] at h; exact absurd h (by simp)
  | some f =>
    rw [hget] at h
    simp only at h
    split_ifs at h with hk
    simp only [Option.some.injEq] at h
    subst h
    refine ⟨sameOutside_set _ faces i _ rfl, fun hr => facesRoomy_set faces i _ hr ?_⟩
    simpa using hr f (mem_of_getElem?_eq_some _ _ _ hget)

theorem setFaceIndex_some (faces : List RasterFaceInfo) (i k val : Nat)
    (hi : i < faces.length) (hr : FacesRoomy faces) (hk : k < 6) :
    ∃ out, setFaceIndex faces i k val = some out := by
  unfold setFaceIndex
  rw [List.getElem?_eq_getElem hi]
  have := hr faces[i] (List.getElem_mem hi)
  simp only
  rw [if_pos (by omega)]
  exact ⟨_, rfl⟩

theorem indicesLoop_frame (baseVertex i : Nat) :
    ∀ (is : List Nat) (faces : List RasterFaceInfo),
      SameOutside (fun q => q = i) (indicesLoop baseVertex i is faces).1 faces := by
  intro is
  induction is with
  | nil => intro faces; exact SameOutside.refl _ faces
  | cons t rest ih =>
    intro faces
    simp only [indicesLoop]
    cases h0 : setFaceIndex faces i (add32 (mul32 t 3) 0)
        (add32 (add32 baseVertex (mul32 t 3)) 0) with
    | none => exact SameOutside.refl _ faces
    | some f0 =>
      have e0 := (setFaceIndex_frame _ _ _ _ _ h0).1
      simp only
      cases h1 : setFaceIndex f0 i (add32 (mul32 t 3) 1)
          (add32 (add32 baseVertex (mul32 t 3)) 1) with
      | none => exact e0
      | some f1 =>
        have e1 := (setFaceIndex_frame _ _ _ _ _ h1).1.trans e0
        simp only
        cases h2 : setFaceIndex f1 i (add32 (mul32 t 3) 2)
            (add32 (add32 baseVertex (mul32 t 3)) 2) with
        | none => exact e1
        | some f2 =>
          exact (ih f2).trans ((setFaceIndex_frame _ _ _ _ _ h2).1.trans e1)

theorem indicesLoop_ok (baseVertex i : Nat) :
    ∀ (is : List Nat) (faces : List RasterFaceInfo),
      (∀ t ∈ is, t < 2) → i < faces.length → FacesRoomy faces →
      (indicesLoop baseVertex i is faces).2 = true := by
  intro is
  induction is with
  | nil => intro faces _ _ _; rfl
  | cons t rest ih =>
    intro faces ht hi hr
    have ht2 : t < 2 := ht t (List.mem_cons_self _ _)
    have hk : ∀ c, c < 3 → add32 (mul32 t 3) c < 6 := by
      intro c hc
      interval_cases t <;> interval_cases c <;> decide
    obtain ⟨f0, h0⟩ := setFaceIndex_some faces i _
      (add32 (add32 baseVertex (mul32 t 3)) 0) hi hr (hk 0 (by decide))
    obtain ⟨e0, r0⟩ := setFaceIndex_frame _ _ _ _ _ h0
    obtain ⟨f1, h1⟩ := setFaceIndex_some f0 i _
      (add32 (add32 baseVertex (mul32 t 3)) 1) (by rw [e0.1]; exact hi) (r0 hr)
      (hk 1 (by decide))
    obtain ⟨e1, r1⟩ := setFaceIndex_frame _ _ _ _ _ h1
    obtain ⟨f2, h2⟩ := setFaceIndex_some f1 i _
      (add32 (add32 baseVertex (mul32 t 3)) 2) (by rw [e1.1, e0.1]; exact hi) (r1 (r0 hr))
      (hk 2 (by decide))
    obtain ⟨e2, r2⟩ := setFaceIndex_frame _ _ _ _ _ h2
    simp only [indicesLoop, h0, h1, h2]
    exact ih f2 (fun q hq => ht q (List.mem_cons_of_mem _ hq))
      (by rw [e2.1, e1.1, e0.1]; exact hi) (r2 (r1 (r0 hr)))

theorem clipPlanes_shape (numAttri : Nat) :
    ∀ (planes : List float4) (src pool : List VS_Output) (n : Nat) (vs : List VS_Output),
      3 ≤ src.length → clipPlanes numAttri planes src pool = .ok (n, vs) →
      (n < 3 ∧ vs = []) ∨ (3 ≤ n ∧ n ≤ 4 ∧ vs.length = n) := by
  intro planes
  induction planes with
  | nil =>
    intro src pool n vs hsrc h
    simp only [clipPlanes] at h
    split_ifs at h with h1 h2
    simp only [Except.ok.injEq, Prod.mk.injEq] at h
    obtain ⟨rfl, rfl⟩ := h
    exact Or.inr ⟨hsrc, by omega, rfl⟩
  | cons p ps ih =>
    intro src pool n vs hsrc h
    simp only [clipPlanes] at h
    cases he : clipEdges p numAttri src (List.range src.length) ⟨[], pool⟩ with
    | error e => rw [he] at h; exact absurd h (by simp)
    | ok st =>
      rw [he] at h
      simp only at h
      split_ifs at h with hlt
      · simp only [Except.ok.injEq, Prod.mk.injEq] at h
        obtain ⟨rfl, rfl⟩ := h
        exact Or.inl ⟨hlt, rfl⟩
      · exact ih st.dest st.pool n vs (by omega) h

theorem pushVertex_error (st : ClipBuf) (v : VS_Output) (e : Fault)
    (h : pushVertex st v = .error e) : e ≠ Fault.outOfBounds := by
  unfold pushVertex at h
  split_ifs at h
  simp only [Except.error.injEq] at h
  subst h
  decide

theorem pushInterpolated_error (st : ClipBuf) (a b : VS_Output) (t : ℚ) (numAttri : Nat)
    (e : Fault) (h : pushInterpolated st a b t numAttri = .error e) :
    e ≠ Fault.outOfBounds := by
  unfold pushInterpolated at h
  cases hp : st.pool with
  | nil =>
    rw [hp] at h
    simp only [Except.error.injEq] at h
    subst h
    decide
  | cons slot rest =>
    rw [hp] at h
    exact pushVertex_error _ _ e h

theorem clipEdge_error (plane : float4) (numAttri : Nat) (vi vj : VS_Output) (st : ClipBuf)
    (e : Fault) (h : clipEdge plane numAttri vi vj st = .error e) :
    e ≠ Fault.outOfBounds := by
  unfold clipEdge at h
  simp only at h
  split_ifs at h with h1 h2 h3
  · cases hp : pushVertex st vi with
    | error e2 =>
      rw [hp] at h
      simp only [Except.error.injEq] at h
      subst h
      exact pushVertex_error _ _ _ hp
    | ok st1 =>
      rw [hp] at h
      exact pushInterpolated_error _ _ _ _ _ e h
  · cases hp : pushVertex st vi with
    | error e2 =>
      rw [hp] at h
      simp only [Except.error.injEq] at h
      subst h
      exact pushVertex_error _ _ _ hp
    | ok st1 =>
      rw [hp] at h
      exact absurd h (by simp)
  · exact pushInterpolated_error _ _ _ _ _ e h

theorem clipEdges_error (plane : float4) (numAttri : Nat) (src : List VS_Output) (e : Fault) :
    ∀ (is : List Nat) (st : ClipBuf),
      clipEdges plane numAttri src is st = .error e → e ≠ Fault.outOfBounds := by
  intro is
  induction is with
  | nil => intro st h; exact absurd h (by simp [clipEdges])
  | cons i rest ih =>
    intro st h
    simp only [clipEdges] at h
    cases hc : clipEdge plane numAttri (src.getD i default)
        (src.getD (if i + 1 = src.length then 0 else i + 1) default) st with
    | error e2 =>
      rw [hc] at h
      simp only [Except.error.injEq] at h
      subst h
      exact clipEdge_error _ _ _ _ _ _ hc
    | ok st1 =>
      rw [hc] at h
      exact ih st1 h

theorem clipPlanes_error (numAttri : Nat) (e : Fault) :
    ∀ (planes : List float4) (src pool : List VS_Output),
      clipPlanes numAttri planes src pool = .error e → e ≠ Fault.outOfBounds := by
  intro planes
  induction planes with
  | nil =>
    intro src pool h
    simp only [clipPlanes] at h
    split_ifs at h <;> simp only [Except.error.injEq] at h <;> subst h <;> decide
  | cons p ps ih =>
    intro src pool h
    simp only [clipPlanes] at h
    cases he : clipEdges p numAttri src (List.range src.length) ⟨[], pool⟩ with
    | error e2 =>
      rw [he] at h
      simp only [Except.error.injEq] at h
      subst h
      exact clipEdges_error _ _ _ _ _ _ he
    | ok st =>
      rw [he] at h
      simp only at h
      split_ifs at h with hlt
      exact ih st.dest st.pool h

theorem triangulate_frame (baseVertex baseFace n : Nat) (faces : List RasterFaceInfo) :
    SameOutside (fun k => k = baseFace) (triangulate baseVertex baseFace n faces).1 faces := by
  unfold triangulate
  cases hs : setTriCount faces baseFace (triCountOf n) with
  | none => exact SameOutside.refl _ faces
  | some f =>
    exact (indicesLoop_frame baseVertex baseFace (List.range (triCountOf n)) f).trans
      (setTriCount_frame _ _ _ _ hs).1

theorem triCountOf_le (n : Nat) (hn : n ≤ 4) (h3 : ¬ n < 3) : triCountOf n ≤ 2 := by
  have h4 : n = 3 ∨ n = 4 := by omega
  rcases h4 with rfl | rfl <;> decide

theorem triangulate_ok (baseVertex baseFace n : Nat) (faces : List RasterFaceInfo)
    (hn : n ≤ 4) (h3 : ¬ n < 3) (hb : baseFace < faces.length) (hr : FacesRoomy faces) :
    (triangulate baseVertex baseFace n faces).2 = true := by
  unfold triangulate
  obtain ⟨f, hs⟩ := setTriCount_some faces baseFace (triCountOf n) hb
  obtain ⟨hff, hroom⟩ := setTriCount_frame _ _ _ _ hs
  rw [hs]
  exact indicesLoop_ok baseVertex baseFace (List.range (triCountOf n)) f
    (fun t ht => lt_of_lt_of_le (List.mem_range.mp ht) (triCountOf_le n hn h3))
    (by rw [hff.1]; exact hb) (hroom hr)

theorem afterClip_props (R : Rasterizer) (P : Nat → Prop) (base baseFace n : Nat)
    (st : GeomState) (hn : n ≤ 4) (hP : ∀ j, j < 4 → P (add32 base j)) :
    SameOutside P (afterClip R base baseFace n st).outVertices st.outVertices
      ∧ SameOutside (fun k => k = baseFace) (afterClip R base baseFace n st).outFaces
          st.outFaces
      ∧ ((∀ j, j < 4 → add32 base j < st.outVertices.length) →
          baseFace < st.outFaces.length → FacesRoomy st.outFaces →
          (afterClip R base baseFace n st).flow ≠ Flow.fault Fault.outOfBounds) := by
  have h5 : ¬ ¬ n ≤ 5 := by omega
  unfold afterClip
  rw [if_neg h5]
  by_cases h3 : n < 3
  · rw [if_pos h3]
    cases hs : setTriCount st.outFaces baseFace 0 with
    | none =>
      refine ⟨SameOutside.refl _ _, SameOutside.refl _ _, fun _ hb _ => ?_⟩
      obtain ⟨out, ho⟩ := setTriCount_some st.outFaces baseFace 0 hb
      rw [ho] at hs
      exact absurd hs (by simp)
    | some faces =>
      exact ⟨SameOutside.refl _ _, (setTriCount_frame _ _ _ _ hs).1, fun _ _ _ => by simp⟩
  · rw [if_neg h3]
    have hfr1 := projectLoop_frame R P base [0, 1, 2] st.outVertices
      (fun j hj => hP j (by
        simp only [List.mem_cons, List.mem_singleton, List.not_mem_nil, or_false] at hj
        omega))
    have hrange : ∀ j ∈ List.range' 3 (n - 3), j < 4 := by
      intro j hj
      rw [List.mem_range'_1] at hj
      omega
    cases hp1 : projectLoop R base [0, 1, 2] st.outVertices with
    | mk vertices ok1 =>
      rw [hp1] at hfr1
      have hok1 := projectLoop_ok R base [0, 1, 2] st.outVertices
      rw [hp1] at hok1
      cases ok1 with
      | false =>
        refine ⟨hfr1, SameOutside.refl _ _, fun hv _ _ => ?_⟩
        have := hok1 (fun j hj => hv j (by
          simp only [List.mem_cons, List.mem_singleton, List.not_mem_nil, or_false] at hj
          omega))
        exact absurd this (by simp)
      | true =>
        simp only
        split_ifs with hcull
        · cases hs : setTriCount st.outFaces baseFace 0 with
          | none =>
            refine ⟨hfr1, SameOutside.refl _ _, fun _ hb _ => ?_⟩
            obtain ⟨out, ho⟩ := setTriCount_some st.outFaces baseFace 0 hb
            rw [ho] at hs
            exact absurd hs (by simp)
          | some faces =>
            exact ⟨hfr1, (setTriCount_frame _ _ _ _ hs).1, fun _ _ _ => by simp⟩
        · have hfr2 := projectLoop_frame R P base (List.range' 3 (n - 3)) vertices
            (fun j hj => hP j (hrange j hj))
          have hok2 := projectLoop_ok R base (List.range' 3 (n - 3)) vertices
          cases hp2 : projectLoop R base (List.range' 3 (n - 3)) vertices with
          | mk projected ok2 =>
            rw [hp2] at hfr2 hok2
            cases ok2 with
            | false =>
              refine ⟨hfr2.trans hfr1, SameOutside.refl _ _, fun hv _ _ => ?_⟩
              have := hok2 (fun j hj => by rw [hfr1.1]; exact hv j (hrange j hj))
              exact absurd this (by simp)
            | true =>
              simp only
              have hft := triangulate_frame base baseFace n st.outFaces
              have hot := triangulate_ok base baseFace n st.outFaces hn h3
              cases htr : triangulate base baseFace n st.outFaces with
              | mk indexed ok3 =>
                rw [htr] at hft hot
                have hfv := hfr2.trans hfr1
                cases ok3 with
                | false =>
                  refine ⟨hfv, hft, fun _ hb hr => ?_⟩
                  have := hot hb hr
                  exact absurd this (by simp)
                | true =>
                  exact ⟨hfv, hft, fun _ _ _ => by simp⟩

theorem processPrimitive_props (R : Rasterizer) (P : Nat → Prop) (iPrim : Nat)
    (st : GeomState) (hP : ∀ j, j < 4 → P (mul32 iPrim 4 + j))
    (hadd : ∀ j, j < 4 → add32 (mul32 iPrim 4) j = mul32 iPrim 4 + j) :
    SameOutside P (processPrimitive R iPrim st).outVertices st.outVertices
      ∧ SameOutside (fun k => k = iPrim) (processPrimitive R iPrim st).outFaces st.outFaces
      ∧ (mul32 iPrim 4 + 4 ≤ st.outVertices.length →
          iPrim < st.outFaces.length → FacesRoomy st.outFaces →
          (processPrimitive R iPrim st).flow ≠ Flow.fault Fault.outOfBounds) := by
  unfold processPrimitive
  simp only
  generalize (DirectMapCache.call R.mDevice.FetchVertex R.VertexCacheSize
    (DirectMapCache.call R.mDevice.FetchVertex R.VertexCacheSize
      (DirectMapCache.call R.mDevice.FetchVertex R.VertexCacheSize st.vertexCache
        (R.mDevice.FetchIndex (add32 (mul32 iPrim 3) 0))).cache
      (R.mDevice.FetchIndex (add32 (mul32 iPrim 3) 1))).cache
    (R.mDevice.FetchIndex (add32 (mul32 iPrim 3) 2))).cache = cache
  generalize (cache.mValues (DirectMapCache.call R.mDevice.FetchVertex R.VertexCacheSize
    st.vertexCache (R.mDevice.FetchIndex (add32 (mul32 iPrim 3) 0))).slot).value = v0
  generalize (cache.mValues _).value = v1
  generalize (cache.mValues _).value = v2
  cases hc : Clip R.mClipPlanes R.mCurrVSOutputCount R.poolSlots v0 v1 v2 with
  | error e =>
    refine ⟨SameOutside.refl _ _, SameOutside.refl _ _, fun _ _ _ => ?_⟩
    simp only [ne_eq, Flow.fault.injEq]
    exact clipPlanes_error _ _ _ _ _ hc
  | ok res =>
    obtain ⟨n, written⟩ := res
    have hshape := clipPlanes_shape _ _ _ _ n written (by simp) hc
    have hwl : written.length ≤ 4 := by
      rcases hshape with ⟨-, rfl⟩ | ⟨-, h4, hl⟩
      · simp
      · omega
    have hn4 : n ≤ 4 := by
      rcases hshape with ⟨h, -⟩ | ⟨-, h4, -⟩ <;> omega
    have hfs := storeClipped_frame P (mul32 iPrim 4) written 0 st.outVertices
      (fun j hj => by simpa using hP j (by omega))
    have hos := storeClipped_ok (mul32 iPrim 4) written 0 st.outVertices
    simp only
    cases hsc : storeClipped (mul32 iPrim 4) 0 written st.outVertices with
    | mk vertices ok1 =>
      rw [hsc] at hfs hos
      cases ok1 with
      | false =>
        refine ⟨hfs, SameOutside.refl _ _, fun hv _ _ => ?_⟩
        have := hos (by omega)
        exact absurd this (by simp)
      | true =>
        simp only
        obtain ⟨a1, a2, a3⟩ := afterClip_props R P (mul32 iPrim 4) iPrim n
          { outVertices := vertices, outFaces := st.outFaces, vertexCache := cache,
            flow := Flow.next } hn4 (fun j hj => by rw [hadd j hj]; exact hP j hj)
        refine ⟨a1.trans hfs, a2, fun hv hb hr => a3 (fun j hj => ?_) hb hr⟩
        rw [hadd j hj]
        have := hfs.1
        simp only at this ⊢
        omega

theorem mul32_four (iPrim : Nat) (h : iPrim < 2 ^ 30) : mul32 iPrim 4 = 4 * iPrim := by
  unfold mul32
  have e : (2 : Nat) ^ 30 = 1073741824 := by norm_num
  have e2 : (2 : Nat) ^ 32 = 4294967296 := by norm_num
  rw [e] at h
  rw [e2]
  omega

theorem add32_small (iPrim j : Nat) (h : iPrim < 2 ^ 30) (hj : j < 4) :
    add32 (mul32 iPrim 4) j = mul32 iPrim 4 + j := by
  rw [mul32_four iPrim h]
  unfold add32
  have e : (2 : Nat) ^ 30 = 1073741824 := by norm_num
  have e2 : (2 : Nat) ^ 32 = 4294967296 := by norm_num
  rw [e] at h
  rw [e2]
  omega

/-- C10 (as stated, refuted): for `primitiveCount = 2^30` the 32-bit product
`primitiveCount * 4` that sizes the vertex buffer in `Draw` wraps to 0; processing a visible
primitive then stores its clipped vertices outside the buffer. -/
theorem processPrimitive_outside_wrapped_buffer :
    drawBufferSizes (2 ^ 30) = (0, 2 ^ 30)
    ∧ (processPrimitive sceneRasterizer 1
        { outVertices := List.replicate (drawBufferSizes (2 ^ 30)).1 ⟨⟨0, 0, 0, 0⟩, []⟩
          outFaces := List.replicate (drawBufferSizes (2 ^ 30)).2 staleFace
          vertexCache := DirectMapCache.construct sceneRasterizer.cacheSlots
          flow := Flow.next }).flow = Flow.fault Fault.outOfBounds := by
  decide!

/-- C10 (amended): when `primitiveCount < 2^30` (so that neither `primitiveCount * 4` nor
`iPrim * 4` wraps in 32 bits) and the buffers have the sizes `Draw` gives them, processing
primitive `iPrim` leaves every element of `outVertices` outside `[4 iPrim, 4 iPrim + 4)` and
every face record other than `outFaces[iPrim]` as they were, no store falls outside the two
buffers, the slice lies inside the vertex buffer, and the slices of two different primitives
are disjoint. -/
theorem processPrimitive_confined (R : Rasterizer) (primitiveCount iPrim : Nat)
    (st : GeomState) (hpc : primitiveCount < 2 ^ 30) (hi : iPrim < primitiveCount)
    (hv : st.outVertices.length = (drawBufferSizes primitiveCount).1)
    (hf : st.outFaces.length = (drawBufferSizes primitiveCount).2)
    (hroom : FacesRoomy st.outFaces) :
    SameOutside (fun k => 4 * iPrim ≤ k ∧ k < 4 * iPrim + 4)
        (processPrimitive R iPrim st).outVertices st.outVertices
      ∧ SameOutside (fun k => k = iPrim) (processPrimitive R iPrim st).outFaces st.outFaces
      ∧ (processPrimitive R iPrim st).flow ≠ Flow.fault Fault.outOfBounds
      ∧ (4 * iPrim + 4 ≤ st.outVertices.length ∧ iPrim < st.outFaces.length)
      ∧ (∀ j, j ≠ iPrim → ∀ k,
          ¬ ((4 * iPrim ≤ k ∧ k < 4 * iPrim + 4) ∧ (4 * j ≤ k ∧ k < 4 * j + 4))) := by
  have hip : iPrim < 2 ^ 30 := lt_trans hi hpc
  have hbase := mul32_four iPrim hip
  have hlenv : st.outVertices.length = 4 * primitiveCount := by
    rw [hv]; exact mul32_four primitiveCount hpc
  have hlenf : st.outFaces.length = primitiveCount := hf
  obtain ⟨h1, h2, h3⟩ := processPrimitive_props R
    (fun k => 4 * iPrim ≤ k ∧ k < 4 * iPrim + 4) iPrim st
    (fun j hj => by rw [hbase]; constructor <;> omega)
    (fun j hj => add32_small iPrim j hip hj)
  refine ⟨h1, h2, h3 (by rw [hbase, hlenv]; omega) (by rw [hlenf]; exact hi) hroom,
    ⟨by rw [hlenv]; omega, by rw [hlenf]; exact hi⟩, ?_⟩
  intro j hj k
  omega

/-- Witness of `processPrimitive_confined`: primitive 2 of the scene (clipped to a quad) in
buffers sized for 3 primitives. -/
theorem processPrimitive_confined_witness :
    SameOutside (fun k => 4 * 2 ≤ k ∧ k < 4 * 2 + 4)
        (processPrimitive sceneRasterizer 2 (sceneState 3)).outVertices
        (sceneState 3).outVertices
      ∧ SameOutside (fun k => k = 2) (processPrimitive sceneRasterizer 2 (sceneState 3)).outFaces
          (sceneState 3).outFaces
      ∧ (processPrimitive sceneRasterizer 2 (sceneState 3)).flow
          ≠ Flow.fault Fault.outOfBounds
      ∧ (4 * 2 + 4 ≤ (sceneState 3).outVertices.length ∧ 2 < (sceneState 3).outFaces.length)
      ∧ (∀ j, j ≠ 2 → ∀ k,
          ¬ ((4 * 2 ≤ k ∧ k < 4 * 2 + 4) ∧ (4 * j ≤ k ∧ k < 4 * j + 4))) :=
  processPrimitive_confined sceneRasterizer 3 2 (sceneState 3) (by decide) (by decide)
    (by decide) (by decide)
    (by intro f hf; rw [List.eq_of_mem_replicate hf]; decide)

/-- C8 (evaluation at the failing input): two primitives, the first behind the near plane,
the second visible. `SetupGeometry`, run by a single worker, returns right after marking
primitive 0: the face record of primitive 1 still holds its stale count 9, although
processing primitive 1 would give it one triangle. -/
theorem SetupGeometry_returns_at_first_culled :
    (SetupGeometry sceneRasterizer (sceneState 2).outVertices (sceneState 2).outFaces 0 2 8).map
        (fun r => (r.flow, r.outFaces.map RasterFaceInfo.TriCount))
      = some (Flow.returned, [0, 9])
    ∧ (processPrimitive sceneRasterizer 1 (sceneState 2)).outFaces.map RasterFaceInfo.TriCount
      = [9, 1] := by
  decide!

/-- C9 (evaluation at the failing input): primitive 2 of the scene is clipped to a quad
(`n = 4`), its slice starts at `base = 8`. The face gets 2 triangles, the second of which
references the slots 11, 12, 13, not the fan triangle 8, 10, 11. -/
theorem SetupGeometry_quad_indices_not_fan :
    (processPrimitive sceneRasterizer 2 (sceneState 3)).outFaces.getD 2 default
      = { TriCount := 2, Indices := [8, 9, 10, 11, 12, 13] }
    ∧ [8, 9, 10, 11, 12, 13] ≠ [8, 8 + 1, 8 + 2, 8, 8 + 2, 8 + 3] := by
  decide!

/-! ## Draw walk, culling and projection: proofs -/

/-- C11 (evaluation at the failing input): the face record that geometry setup produces for
the quad of the scene (primitive 2) has triangle count 2, and the walk of `Draw` makes no
`RasterizeTriangle` call at all for it; a face with count 1 gets its one call. -/
theorem rasterizeWalk_skips_two_triangle_face :
    ((processPrimitive sceneRasterizer 2 (sceneState 3)).outFaces.getD 2 default).TriCount = 2
      ∧ faceCalls (processPrimitive sceneRasterizer 2 (sceneState 3)).outVertices
          ((processPrimitive sceneRasterizer 2 (sceneState 3)).outFaces.getD 2 default) = []
      ∧ rasterizeWalk [⟨⟨0, 0, 0, 1⟩, []⟩, ⟨⟨1, 0, 0, 1⟩, []⟩, ⟨⟨0, 1, 0, 1⟩, []⟩,
            ⟨⟨1, 1, 0, 1⟩, []⟩]
          [{ TriCount := 2, Indices := [0, 1, 2, 0, 2, 3] }] = []
      ∧ (rasterizeWalk [⟨⟨0, 0, 0, 1⟩, []⟩, ⟨⟨1, 0, 0, 1⟩, []⟩, ⟨⟨0, 1, 0, 1⟩, []⟩,
            ⟨⟨1, 1, 0, 1⟩, []⟩]
          [{ TriCount := 1, Indices := [0, 1, 2, 0, 0, 0] }]).length = 1 := by
  decide!

theorem BackFaceCulling_none (R : Rasterizer)
    (hmode : R.mDevice.PolygonCullMode = CullMode.CM_None) (v0 v1 v2 : VS_Output) :
    BackFaceCulling R v0 v1 v2 = false := by
  unfold BackFaceCulling
  rw [if_pos hmode]

/-- C12 (evaluation at the failing input): for the counter-clockwise triangle (0,0), (1,0),
(0,1), of signed area 1, with cull mode "front" and counter-clockwise front faces,
`BackFaceCulling` returns `false`: the triangle is kept. -/
theorem BackFaceCulling_front_ccw_keeps :
    cullFrontRasterizer.mDevice.PolygonCullMode = CullMode.CM_Front
      ∧ cullFrontRasterizer.mDevice.FrontCounterClockwise = true
      ∧ ((1 : ℚ) - 0) * (1 - 0) - (0 - 0) * (0 - 0) = 1
      ∧ BackFaceCulling cullFrontRasterizer ⟨⟨0, 0, 0, 1⟩, []⟩ ⟨⟨1, 0, 0, 1⟩, []⟩
          ⟨⟨0, 1, 0, 1⟩, []⟩ = false := by
  decide!

/-- C13: for every screen-space triangle with positive signed area, `BackFaceCulling`
returns `false` (the triangle is kept) when the cull mode is "none", and when the cull mode
is "back" with counter-clockwise front faces. -/
theorem BackFaceCulling_keeps_ccw (R : Rasterizer) (v0 v1 v2 : VS_Output)
    (harea : 0 < (v1.Position.X - v0.Position.X) * (v2.Position.Y - v0.Position.Y)
      - (v1.Position.Y - v0.Position.Y) * (v2.Position.X - v0.Position.X))
    (hmode : R.mDevice.PolygonCullMode = CullMode.CM_None
      ∨ (R.mDevice.PolygonCullMode = CullMode.CM_Back
        ∧ R.mDevice.FrontCounterClockwise = true)) :
    BackFaceCulling R v0 v1 v2 = false := by
  unfold BackFaceCulling
  rcases hmode with hnone | ⟨hback, hccw⟩
  · rw [if_pos hnone]
  · have hne : ¬ R.mDevice.PolygonCullMode = CullMode.CM_None := by
      rw [hback]; decide
    rw [if_neg hne]

/-- Witness of `BackFaceCulling_keeps_ccw`: the triangle (0,0), (1,0), (0,1) under cull mode
"none". -/
theorem BackFaceCulling_keeps_ccw_witness :
    BackFaceCulling sceneRasterizer ⟨⟨0, 0, 0, 1⟩, []⟩ ⟨⟨1, 0, 0, 1⟩, []⟩ ⟨⟨0, 1, 0, 1⟩, []⟩
      = false :=
  BackFaceCulling_keeps_ccw sceneRasterizer ⟨⟨0, 0, 0, 1⟩, []⟩ ⟨⟨1, 0, 0, 1⟩, []⟩
    ⟨⟨0, 1, 0, 1⟩, []⟩ (by decide!) (Or.inl rfl)

/-- C14: for every vertex whose w is below the float epsilon (w = 0 and negative w
included), `ProjectVertex` leaves the vertex, position and attributes, as it is, and
executes no division. -/
theorem ProjectVertex_degenerate_unchanged (R : Rasterizer) (vertex : VS_Output)
    (hw : vertex.Position.W < epsilon) :
    ProjectVertex R vertex = vertex ∧ ProjectVertex.divisors vertex = [] := by
  unfold ProjectVertex ProjectVertex.divisors
  rw [if_pos hw, if_pos hw]
  exact ⟨rfl, rfl⟩

/-- Witness of `ProjectVertex_degenerate_unchanged`: a vertex with w = 0. -/
theorem ProjectVertex_degenerate_unchanged_witness :
    ProjectVertex sceneRasterizer ⟨⟨3, 4, 5, 0⟩, [7]⟩ = ⟨⟨3, 4, 5, 0⟩, [7]⟩
      ∧ ProjectVertex.divisors ⟨⟨3, 4, 5, 0⟩, [7]⟩ = [] :=
  ProjectVertex_degenerate_unchanged sceneRasterizer ⟨⟨3, 4, 5, 0⟩, [7]⟩ (by decide!)

theorem attribLoop_scale_getD_lt (n : Nat) (val : ℚ) (out : List ℚ) (k : Nat)
    (hk : k < n) (hlen : k < out.length) :
    (attribLoop n (fun so i => so.getD i 0 * val) out).getD k 0 = out.getD k 0 * val := by
  induction n with
  | zero => omega
  | succ n ih =>
    rw [attribLoop_succ, List.getD_eq_getElem?_getD]
    by_cases h : k = n
    · subst h
      rw [List.getElem?_set_self (by rw [attribLoop_length]; exact hlen)]
      simp only [Option.getD_some]
      rw [attribLoop_getD_ge k _ out k (le_refl k)]
    · rw [List.getElem?_set_ne (fun e => h e.symm), ← List.getD_eq_getElem?_getD,
        ih (by omega)]

/-- C16: for every vertex with `w >= epsilon`, `ProjectVertex` stores `invW = 1/w` in the
position's w slot, sets x, y, z to those of the viewport transform of `position * invW`,
replaces each of the first `N` attributes `a_i` by `a_i * invW` and leaves the attributes
from index `N` on (and the length of the attribute array) unchanged; the one division it
executes has the divisor `w`. -/
theorem ProjectVertex_projects (R : Rasterizer) (vertex : VS_Output)
    (hw : epsilon ≤ vertex.Position.W)
    (hN : R.mCurrVSOutputCount ≤ vertex.ShaderOutputs.length) :
    (ProjectVertex R vertex).Position.W = 1 / vertex.Position.W
      ∧ (ProjectVertex R vertex).Position.X
          = (R.mDevice.ViewportTransform
              (vertex.Position.scale (1 / vertex.Position.W))).X
      ∧ (ProjectVertex R vertex).Position.Y
          = (R.mDevice.ViewportTransform
              (vertex.Position.scale (1 / vertex.Position.W))).Y
      ∧ (ProjectVertex R vertex).Position.Z
          = (R.mDevice.ViewportTransform
              (vertex.Position.scale (1 / vertex.Position.W))).Z
      ∧ (∀ i, i < R.mCurrVSOutputCount →
          (ProjectVertex R vertex).ShaderOutputs.getD i 0
            = vertex.ShaderOutputs.getD i 0 * (1 / vertex.Position.W))
      ∧ (∀ i, R.mCurrVSOutputCount ≤ i →
          (ProjectVertex R vertex).ShaderOutputs.getD i 0 = vertex.ShaderOutputs.getD i 0)
      ∧ (ProjectVertex R vertex).ShaderOutputs.length = vertex.ShaderOutputs.length
      ∧ ProjectVertex.divisors vertex = [vertex.Position.W] := by
  have hnot : ¬ vertex.Position.W < epsilon := not_lt.mpr hw
  unfold ProjectVertex ProjectVertex.divisors
  rw [if_neg hnot, if_neg hnot]
  simp only [VS_Output_ProjectAttrib]
  refine ⟨trivial, trivial, trivial, trivial, ?_, ?_, ?_, trivial⟩
  · intro i hi
    exact attribLoop_scale_getD_lt _ _ _ i hi (by omega)
  · intro i hi
    exact attribLoop_getD_ge _ _ _ i hi
  · exact attribLoop_length _ _ _

/-- Witness of `ProjectVertex_projects`: a vertex with w = 2 and two attributes, one in
use. -/
theorem ProjectVertex_projects_witness :
    (ProjectVertex { sceneRasterizer with mCurrVSOutputCount := 1 }
        ⟨⟨4, 6, 1, 2⟩, [8, 9]⟩) = ⟨⟨2, 3, 1 / 2, 1 / 2⟩, [4, 9]⟩
      ∧ (ProjectVertex { sceneRasterizer with mCurrVSOutputCount := 1 }
          ⟨⟨4, 6, 1, 2⟩, [8, 9]⟩).Position.W = 1 / (⟨⟨4, 6, 1, 2⟩, [8, 9]⟩ : VS_Output).Position.W :=
  ⟨by decide!,
    (ProjectVertex_projects { sceneRasterizer with mCurrVSOutputCount := 1 }
      ⟨⟨4, 6, 1, 2⟩, [8, 9]⟩ (by decide!) (by decide)).1⟩

/-! ## Pixel pipeline: proofs -/

theorem scanBody_discard (numAttri : Nat) (ds : DepthStencilState) (shader : PixelShaderStage)
    (Y X : Int) (st : ScanState)
    (h : shader.Execute
        (VS_Output_Mul shader.InputSlot st.base (1 / st.base.Position.W) numAttri)
        st.base.Position.Z = none) :
    scanBody numAttri ds shader Y X st = st := by
  unfold scanBody
  simp only [h]

theorem scanBody_shaded (numAttri : Nat) (ds : DepthStencilState) (shader : PixelShaderStage)
    (Y X : Int) (st : ScanState) (output : PS_Output) (shaded : ℚ)
    (h : shader.Execute
        (VS_Output_Mul shader.InputSlot st.base (1 / st.base.Position.W) numAttri)
        st.base.Position.Z = some (output, shaded)) :
    scanBody numAttri ds shader Y X st
      = if depthTest ds.DepthFunc shaded (st.frame.ReadPixel X Y) then
          { st with
            frame := st.frame.WritePixel X Y output
              (if ds.DepthWriteMask then some shaded else none)
            writes := st.writes
              ++ [⟨X, Y, output, if ds.DepthWriteMask then some shaded else none⟩] }
        else st := by
  unfold scanBody
  simp only [h]

theorem scanBody_base (numAttri : Nat) (ds : DepthStencilState) (shader : PixelShaderStage)
    (Y X : Int) (st : ScanState) : (scanBody numAttri ds shader Y X st).base = st.base := by
  unfold scanBody
  simp only
  split
  · rfl
  · split_ifs <;> rfl

theorem scanBody_depth_other (numAttri : Nat) (ds : DepthStencilState)
    (shader : PixelShaderStage) (Y X x : Int) (st : ScanState) (hx : x ≠ X) :
    (scanBody numAttri ds shader Y X st).frame.Depth x Y = st.frame.Depth x Y := by
  unfold scanBody
  simp only
  split
  · rfl
  · split_ifs <;> simp [FrameBuffer.WritePixel, hx]

theorem scanBody_less_writes (numAttri : Nat) (mask : Bool) (shader : PixelShaderStage)
    (Y X : Int) (st : ScanState) :
    (scanBody numAttri ⟨CompareFunction.CF_Less, mask⟩ shader Y X st).writes
      = st.writes
        ++ (match shader.Execute
              (VS_Output_Mul shader.InputSlot st.base (1 / st.base.Position.W) numAttri)
              st.base.Position.Z with
            | none => []
            | some (output, shaded) =>
              if shaded < st.frame.Depth X Y then
                [⟨X, Y, output, if mask then some shaded else none⟩]
              else []) := by
  cases h : shader.Execute
      (VS_Output_Mul shader.InputSlot st.base (1 / st.base.Position.W) numAttri)
      st.base.Position.Z with
  | none =>
    rw [scanBody_discard numAttri _ shader Y X st h]
    simp
  | some res =>
    obtain ⟨output, shaded⟩ := res
    rw [scanBody_shaded numAttri _ shader Y X st output shaded h]
    simp only [depthTest, FrameBuffer.ReadPixel, decide_eq_true_eq]
    split_ifs <;> simp

theorem specLessWrites_congr (numAttri : Nat) (mask : Bool) (shader : PixelShaderStage)
    (f1 f2 : FrameBuffer) (Y : Int) (pDdx : VS_Output) :
    ∀ (xs : List Int) (v : VS_Output), (∀ x ∈ xs, f1.Depth x Y = f2.Depth x Y) →
      specLessWrites numAttri mask shader f1 Y pDdx xs v
        = specLessWrites numAttri mask shader f2 Y pDdx xs v := by
  intro xs
  induction xs with
  | nil => intro v _; rfl
  | cons X rest ih =>
    intro v h
    simp only [specLessWrites]
    rw [h X (List.mem_cons_self _ _), ih _ (fun x hx => h x (List.mem_cons_of_mem _ hx))]

theorem scanLoop_less_writes (numAttri : Nat) (mask : Bool) (shader : PixelShaderStage)
    (Y : Int) (pDdx : VS_Output) :
    ∀ (xs : List Int) (st : ScanState), xs.Nodup →
      (scanLoop numAttri ⟨CompareFunction.CF_Less, mask⟩ shader Y pDdx xs st).writes
        = st.writes ++ specLessWrites numAttri mask shader st.frame Y pDdx xs st.base := by
  intro xs
  induction xs with
  | nil => intro st _; simp [scanLoop, specLessWrites]
  | cons X rest ih =>
    intro st hnd
    obtain ⟨hX, hrest⟩ := List.nodup_cons.mp hnd
    simp only [scanLoop, specLessWrites]
    rw [ih _ hrest]
    simp only [scanBody_base, scanBody_less_writes, List.append_assoc]
    congr 2
    apply specLessWrites_congr
    intro x hx
    exact scanBody_depth_other numAttri _ shader Y X x st (fun e => hX (e ▸ hx))

/-- C17: with depth-compare "less", the `WritePixel` calls of `RasterizeScanline` over a
span are exactly those of the pixels that the shader does not discard and whose depth, as
left by the shader, is strictly less than the depth stored at that pixel before the span;
the same holds for the loop body at one pixel and the depth stored there at that moment; in
the span of 4 pixels with stored depths 0.5 and incoming depths 0.3, 0.6, 0.5, 0.1, with
depth-write enabled, exactly the pixels 0 and 3 are written. -/
theorem RasterizeScanline_less (numAttri : Nat) (mask : Bool) (shader : PixelShaderStage)
    (frame : FrameBuffer) (xStart xEnd Y X : Int) (pBaseVertex pDdx : VS_Output)
    (st : ScanState) :
    (RasterizeScanline numAttri ⟨CompareFunction.CF_Less, mask⟩ shader frame xStart xEnd Y
          pBaseVertex pDdx).writes
        = specLessWrites numAttri mask shader frame Y pDdx
            ((List.range (xEnd - xStart).toNat).map (fun (k : Nat) => xStart + (k : Int))) pBaseVertex
      ∧ (scanBody numAttri ⟨CompareFunction.CF_Less, mask⟩ shader Y X st).writes
        = st.writes
          ++ (match shader.Execute
                (VS_Output_Mul shader.InputSlot st.base (1 / st.base.Position.W) numAttri)
                st.base.Position.Z with
              | none => []
              | some (output, shaded) =>
                if shaded < st.frame.Depth X Y then
                  [⟨X, Y, output, if mask then some shaded else none⟩]
                else [])
      ∧ (RasterizeScanline 0 ⟨CompareFunction.CF_Less, true⟩ depthScenarioShader
            (uniformFrame (1 / 2)) 0 4 0 ⟨⟨0, 0, 0, 1⟩, []⟩ ⟨⟨1, 0, 0, 0⟩, []⟩).writes
          = [⟨0, 0, ⟨⟨0, 0, 0, 1⟩⟩, some (3 / 10)⟩, ⟨3, 0, ⟨⟨0, 0, 0, 1⟩⟩, some (1 / 10)⟩]
      ∧ [0, 1, 2, 3].map (fun x =>
            (RasterizeScanline 0 ⟨CompareFunction.CF_Less, true⟩ depthScenarioShader
              (uniformFrame (1 / 2)) 0 4 0 ⟨⟨0, 0, 0, 1⟩, []⟩ ⟨⟨1, 0, 0, 0⟩, []⟩).frame.Depth x 0)
          = [3 / 10, 1 / 2, 1 / 2, 1 / 10] := by
  refine ⟨?_, scanBody_less_writes numAttri mask shader Y X st, by decide!, by decide!⟩
  unfold RasterizeScanline
  rw [scanLoop_less_writes numAttri mask shader Y pDdx _ _
    ((List.nodup_range _).map (fun a b hab => by simpa using hab))]
  rfl

/-- C19: if the pixel shader returns `false` (discard) for a pixel, the loop body makes no
`WritePixel` call and leaves the frame buffer as it is, whatever the depth function, and
the walk goes on with the next pixel of the span from the stepped vertex. -/
theorem RasterizeScanline_discard (numAttri : Nat) (ds : DepthStencilState)
    (shader : PixelShaderStage) (Y X : Int) (pDdx : VS_Output) (rest : List Int)
    (st : ScanState)
    (h : shader.Execute
        (VS_Output_Mul shader.InputSlot st.base (1 / st.base.Position.W) numAttri)
        st.base.Position.Z = none) :
    (scanBody numAttri ds shader Y X st).writes = st.writes
      ∧ (scanBody numAttri ds shader Y X st).frame = st.frame
      ∧ scanLoop numAttri ds shader Y pDdx (X :: rest) st
        = scanLoop numAttri ds shader Y pDdx rest
            { st with base := VS_Output_Add st.base st.base pDdx numAttri } := by
  have hb := scanBody_discard numAttri ds shader Y X st h
  refine ⟨by rw [hb], by rw [hb], ?_⟩
  simp only [scanLoop, hb]

/-- Witness of `RasterizeScanline_discard`: a discarding shader under "always-pass". -/
theorem RasterizeScanline_discard_witness :
    (scanBody 0 ⟨CompareFunction.CF_AlwaysPass, true⟩ discardShader 0 5
          ⟨uniformFrame (1 / 2), ⟨⟨0, 0, 3 / 10, 1⟩, []⟩, []⟩).writes = []
      ∧ (scanBody 0 ⟨CompareFunction.CF_AlwaysPass, true⟩ discardShader 0 5
          ⟨uniformFrame (1 / 2), ⟨⟨0, 0, 3 / 10, 1⟩, []⟩, []⟩).frame = uniformFrame (1 / 2)
      ∧ scanLoop 0 ⟨CompareFunction.CF_AlwaysPass, true⟩ discardShader 0 ⟨⟨1, 0, 0, 0⟩, []⟩
          (5 :: [6]) ⟨uniformFrame (1 / 2), ⟨⟨0, 0, 3 / 10, 1⟩, []⟩, []⟩
        = scanLoop 0 ⟨CompareFunction.CF_AlwaysPass, true⟩ discardShader 0 ⟨⟨1, 0, 0, 0⟩, []⟩
            [6]
            { (⟨uniformFrame (1 / 2), ⟨⟨0, 0, 3 / 10, 1⟩, []⟩, []⟩ : ScanState) with
              base := VS_Output_Add ⟨⟨0, 0, 3 / 10, 1⟩, []⟩ ⟨⟨0, 0, 3 / 10, 1⟩, []⟩
                ⟨⟨1, 0, 0, 0⟩, []⟩ 0 } :=
  RasterizeScanline_discard 0 ⟨CompareFunction.CF_AlwaysPass, true⟩ discardShader 0 5
    ⟨⟨1, 0, 0, 0⟩, []⟩ [6] ⟨uniformFrame (1 / 2), ⟨⟨0, 0, 3 / 10, 1⟩, []⟩, []⟩ rfl

/-- C20: when a pixel passes the depth test, the loop body makes one `WritePixel` call with
the shader's colour output; the depth it passes is the pixel's depth as left by the shader
when depth-write is enabled, and none when it is disabled, in which case every stored depth
stays as it was. -/
theorem RasterizeScanline_pass_writes (numAttri : Nat) (ds : DepthStencilState)
    (shader : PixelShaderStage) (Y X : Int) (st : ScanState) (output : PS_Output)
    (shaded : ℚ)
    (h : shader.Execute
        (VS_Output_Mul shader.InputSlot st.base (1 / st.base.Position.W) numAttri)
        st.base.Position.Z = some (output, shaded))
    (hpass : depthTest ds.DepthFunc shaded (st.frame.ReadPixel X Y) = true) :
    (scanBody numAttri ds shader Y X st).writes
        = st.writes ++ [⟨X, Y, output, if ds.DepthWriteMask then some shaded else none⟩]
      ∧ (scanBody numAttri ds shader Y X st).frame
        = st.frame.WritePixel X Y output (if ds.DepthWriteMask then some shaded else none)
      ∧ (scanBody numAttri ds shader Y X st).frame.Color X Y = output
      ∧ (ds.DepthWriteMask = false →
          (scanBody numAttri ds shader Y X st).frame.Depth = st.frame.Depth)
      ∧ (ds.DepthWriteMask = true →
          (scanBody numAttri ds shader Y X st).frame.Depth X Y = shaded) := by
  rw [scanBody_shaded numAttri ds shader Y X st output shaded h, if_pos hpass]
  refine ⟨rfl, rfl, ?_, ?_, ?_⟩
  · simp [FrameBuffer.WritePixel]
  · intro hm
    simp [FrameBuffer.WritePixel, hm]
  · intro hm
    simp [FrameBuffer.WritePixel, hm]

/-- Witness of `RasterizeScanline_pass_writes`: a pixel of depth 0.3 under "less" over the
stored depth 0.5, depth-write disabled. -/
theorem RasterizeScanline_pass_writes_witness :
    (scanBody 0 ⟨CompareFunction.CF_Less, false⟩ passThroughShader 0 0
          ⟨uniformFrame (1 / 2), ⟨⟨0, 0, 3 / 10, 1⟩, []⟩, []⟩).writes
        = [] ++ [⟨0, 0, ⟨⟨0, 0, 0, 1⟩⟩, if false then some (3 / 10) else none⟩]
      ∧ (scanBody 0 ⟨CompareFunction.CF_Less, false⟩ passThroughShader 0 0
          ⟨uniformFrame (1 / 2), ⟨⟨0, 0, 3 / 10, 1⟩, []⟩, []⟩).frame
        = (uniformFrame (1 / 2)).WritePixel 0 0 ⟨⟨0, 0, 0, 1⟩⟩
            (if false then some (3 / 10) else none)
      ∧ (scanBody 0 ⟨CompareFunction.CF_Less, false⟩ passThroughShader 0 0
          ⟨uniformFrame (1 / 2), ⟨⟨0, 0, 3 / 10, 1⟩, []⟩, []⟩).frame.Color 0 0
        = ⟨⟨0, 0, 0, 1⟩⟩
      ∧ (false = false →
          (scanBody 0 ⟨CompareFunction.CF_Less, false⟩ passThroughShader 0 0
            ⟨uniformFrame (1 / 2), ⟨⟨0, 0, 3 / 10, 1⟩, []⟩, []⟩).frame.Depth
          = (uniformFrame (1 / 2)).Depth)
      ∧ (false = true →
          (scanBody 0 ⟨CompareFunction.CF_Less, false⟩ passThroughShader 0 0
            ⟨uniformFrame (1 / 2), ⟨⟨0, 0, 3 / 10, 1⟩, []⟩, []⟩).frame.Depth 0 0 = 3 / 10) :=
  RasterizeScanline_pass_writes 0 ⟨CompareFunction.CF_Less, false⟩ passThroughShader 0 0
    ⟨uniformFrame (1 / 2), ⟨⟨0, 0, 3 / 10, 1⟩, []⟩, []⟩ ⟨⟨0, 0, 0, 1⟩⟩ (3 / 10) (by decide!)
    (by decide!)

/-! ## Triangle counts after geometry setup: proofs -/

theorem setTriCount_triCountAt (faces : List RasterFaceInfo) (i n : Nat)
    (out : List RasterFaceInfo) (h : setTriCount faces i n = some out) :
    triCountAt out i = some n := by
  unfold setTriCount at h
  cases hget : faces[i]? with
  | none => rw [hget] at h; exact absurd h (by simp)
  | some f =>
    rw [hget] at h
    simp only [Option.some.injEq] at h
    subst h
    obtain ⟨hi, -⟩ := List.getElem?_eq_some.mp hget
    unfold triCountAt
    rw [List.getElem?_set_self hi]
    rfl

theorem setFaceIndex_triCountAt (faces : List RasterFaceInfo) (i k val : Nat)
    (out : List RasterFaceInfo) (h : setFaceIndex faces i k val = some out) :
    triCountAt out i = triCountAt faces i := by
  unfold setFaceIndex at h
  cases hget : faces[i]? with
  | none => rw [hget] at h; exact absurd h (by simp)
  | some f =>
    rw [hget] at h
    simp only at h
    split_ifs at h with hk
    simp only [Option.some.injEq] at h
    subst h
    obtain ⟨hi, -⟩ := List.getElem?_eq_some.mp hget
    unfold triCountAt
    rw [List.getElem?_set_self hi, hget]
    rfl

theorem indicesLoop_triCountAt (baseVertex i : Nat) :
    ∀ (is : List Nat) (faces : List RasterFaceInfo),
      triCountAt (indicesLoop baseVertex i is faces).1 i = triCountAt faces i := by
  intro is
  induction is with
  | nil => intro faces; rfl
  | cons t rest ih =>
    intro faces
    simp only [indicesLoop]
    cases h0 : setFaceIndex faces i (add32 (mul32 t 3) 0)
        (add32 (add32 baseVertex (mul32 t 3)) 0) with
    | none => rfl
    | some f0 =>
      have e0 := setFaceIndex_triCountAt _ _ _ _ _ h0
      simp only
      cases h1 : setFaceIndex f0 i (add32 (mul32 t 3) 1)
          (add32 (add32 baseVertex (mul32 t 3)) 1) with
      | none => exact e0
      | some f1 =>
        have e1 := (setFaceIndex_triCountAt _ _ _ _ _ h1).trans e0
        simp only
        cases h2 : setFaceIndex f1 i (add32 (mul32 t 3) 2)
            (add32 (add32 baseVertex (mul32 t 3)) 2) with
        | none => exact e1
        | some f2 =>
          exact (ih f2).trans ((setFaceIndex_triCountAt _ _ _ _ _ h2).trans e1)

theorem triangulate_triCountAt (baseVertex baseFace n : Nat) (faces : List RasterFaceInfo)
    (hb : baseFace < faces.length) :
    triCountAt (triangulate baseVertex baseFace n faces).1 baseFace = some (triCountOf n) := by
  unfold triangulate
  obtain ⟨f, hs⟩ := setTriCount_some faces baseFace (triCountOf n) hb
  rw [hs]
  exact (indicesLoop_triCountAt baseVertex baseFace (List.range (triCountOf n)) f).trans
    (setTriCount_triCountAt _ _ _ _ hs)

theorem afterClip_triCountAt (R : Rasterizer) (base baseFace n : Nat) (st : GeomState)
    (hmode : R.mDevice.PolygonCullMode = CullMode.CM_None)
    (hn : n ≤ 4) (hv : ∀ j, j < 4 → add32 base j < st.outVertices.length)
    (hb : baseFace < st.outFaces.length) :
    triCountAt (afterClip R base baseFace n st).outFaces baseFace = some (triCountOf n) := by
  have h5 : ¬ ¬ n ≤ 5 := by omega
  unfold afterClip
  rw [if_neg h5]
  by_cases h3 : n < 3
  · rw [if_pos h3]
    obtain ⟨out, ho⟩ := setTriCount_some st.outFaces baseFace 0 hb
    rw [ho]
    have h0 : triCountOf n = 0 := by unfold triCountOf; rw [if_pos h3]
    rw [h0]
    exact setTriCount_triCountAt _ _ _ _ ho
  · rw [if_neg h3]
    have hrange : ∀ j ∈ List.range' 3 (n - 3), j < 4 := by
      intro j hj
      rw [List.mem_range'_1] at hj
      omega
    have hfr1 := projectLoop_frame R (fun _ => True) base [0, 1, 2] st.outVertices
      (fun _ _ => trivial)
    have hok1 := projectLoop_ok R base [0, 1, 2] st.outVertices
      (fun j hj => hv j (by
        simp only [List.mem_cons, List.mem_singleton, List.not_mem_nil, or_false] at hj
        omega))
    cases hp1 : projectLoop R base [0, 1, 2] st.outVertices with
    | mk vertices ok1 =>
      rw [hp1] at hfr1 hok1
      simp only at hok1
      subst hok1
      simp only [BackFaceCulling_none R hmode, Bool.false_eq_true, if_false]
      have hok2 := projectLoop_ok R base (List.range' 3 (n - 3)) vertices
        (fun j hj => by rw [hfr1.1]; exact hv j (hrange j hj))
      cases hp2 : projectLoop R base (List.range' 3 (n - 3)) vertices with
      | mk projected ok2 =>
        rw [hp2] at hok2
        simp only at hok2
        subst hok2
        simp only
        have ht := triangulate_triCountAt base baseFace n st.outFaces hb
        cases htr : triangulate base baseFace n st.outFaces with
        | mk indexed ok3 =>
          rw [htr] at ht
          cases ok3 <;> exact ht

theorem triCountOf_eq (n : Nat) (h3 : 3 ≤ n) (hn : n ≤ 4) : triCountOf n = n - 2 := by
  have h4 : n = 3 ∨ n = 4 := by omega
  rcases h4 with rfl | rfl <;> decide

theorem processPrimitive_triCountAt (R : Rasterizer) (iPrim : Nat) (st : GeomState)
    (n : Nat) (vs : List VS_Output)
    (hmode : R.mDevice.PolygonCullMode = CullMode.CM_None) (hi : iPrim < 2 ^ 30)
    (hv : 4 * iPrim + 4 ≤ st.outVertices.length) (hf : iPrim < st.outFaces.length)
    (hclip : Clip R.mClipPlanes R.mCurrVSOutputCount R.poolSlots
        (primitiveVertices R iPrim st.vertexCache).1
        (primitiveVertices R iPrim st.vertexCache).2.1
        (primitiveVertices R iPrim st.vertexCache).2.2 = .ok (n, vs)) :
    triCountAt (processPrimitive R iPrim st).outFaces iPrim = some (triCountOf n)
      ∧ n ≤ 4 := by
  have hshape := clipPlanes_shape _ _ _ _ n vs (by simp) hclip
  have hwl : vs.length ≤ 4 := by
    rcases hshape with ⟨-, rfl⟩ | ⟨-, h4, hl⟩
    · simp
    · omega
  have hn4 : n ≤ 4 := by
    rcases hshape with ⟨h, -⟩ | ⟨-, h4, -⟩ <;> omega
  refine ⟨?_, hn4⟩
  have hbase := mul32_four iPrim hi
  unfold primitiveVertices at hclip
  simp only at hclip
  unfold processPrimitive
  simp only [hclip]
  have hfs := storeClipped_frame (fun _ => True) (mul32 iPrim 4) vs 0 st.outVertices
    (fun _ _ => trivial)
  have hos := storeClipped_ok (mul32 iPrim 4) vs 0 st.outVertices (by rw [hbase]; omega)
  cases hsc : storeClipped (mul32 iPrim 4) 0 vs st.outVertices with
  | mk vertices ok1 =>
    rw [hsc] at hfs hos
    simp only at hos
    subst hos
    simp only
    exact afterClip_triCountAt R (mul32 iPrim 4) iPrim n _ hmode hn4
      (fun j hj => by
        rw [add32_small iPrim j hi hj, hbase]
        have := hfs.1
        simp only at this ⊢
        omega)
      hf

/-- C15 (as stated, refuted): the primitive (0, 0, 0, 0), (1, 0, 1/2, 1), (0, 1, 1/2, 1) has
a vertex with w = 0, yet geometry setup gives its face record the triangle count 1, the
vertex stays as it was, and the walk of `Draw` makes one `RasterizeTriangle` call for it. -/
theorem degenerate_w_primitive_is_rasterized :
    (degenerateRasterizer.mDevice.FetchVertex 0).Position.W = 0
      ∧ triCountAt (processPrimitive degenerateRasterizer 0 (sceneState 1)).outFaces 0 = some 1
      ∧ (processPrimitive degenerateRasterizer 0 (sceneState 1)).outVertices.getD 0 default
        = ⟨⟨0, 0, 0, 0⟩, []⟩
      ∧ (rasterizeWalk (processPrimitive degenerateRasterizer 0 (sceneState 1)).outVertices
          (processPrimitive degenerateRasterizer 0 (sceneState 1)).outFaces).length = 1 := by
  decide!

/-- C15 (amended): with back-face culling off (cull mode "none") a primitive that contains a
vertex with w = 0 is treated like every other primitive: its face record gets the triangle
count 0, and the walk of `Draw` then makes no `RasterizeTriangle` call for it, when `Clip`
returns fewer than 3 vertices for it; when `Clip` returns `n >= 3` vertices the face record
gets the triangle count `n - 2 >= 1`. -/
theorem processPrimitive_count_cull_none (R : Rasterizer) (iPrim : Nat) (st : GeomState)
    (n : Nat) (vs : List VS_Output)
    (hmode : R.mDevice.PolygonCullMode = CullMode.CM_None) (hi : iPrim < 2 ^ 30)
    (hv : 4 * iPrim + 4 ≤ st.outVertices.length) (hf : iPrim < st.outFaces.length)
    (hclip : Clip R.mClipPlanes R.mCurrVSOutputCount R.poolSlots
        (primitiveVertices R iPrim st.vertexCache).1
        (primitiveVertices R iPrim st.vertexCache).2.1
        (primitiveVertices R iPrim st.vertexCache).2.2 = .ok (n, vs)) :
    (n < 3 →
        triCountAt (processPrimitive R iPrim st).outFaces iPrim = some 0
          ∧ ∀ face, (processPrimitive R iPrim st).outFaces[iPrim]? = some face →
              faceCalls (processPrimitive R iPrim st).outVertices face = [])
      ∧ (3 ≤ n →
        triCountAt (processPrimitive R iPrim st).outFaces iPrim = some (n - 2)
          ∧ 1 ≤ n - 2) := by
  obtain ⟨ht, hn4⟩ := processPrimitive_triCountAt R iPrim st n vs hmode hi hv hf hclip
  constructor
  · intro h3
    have h0 : triCountOf n = 0 := by unfold triCountOf; rw [if_pos h3]
    rw [h0] at ht
    refine ⟨ht, fun face hface => ?_⟩
    unfold triCountAt at ht
    rw [hface] at ht
    simp only [Option.map_some', Option.some.injEq] at ht
    unfold faceCalls
    rw [if_neg (by rw [ht]; decide)]
  · intro h3
    rw [triCountOf_eq n h3 hn4] at ht
    exact ⟨ht, by omega⟩

/-- Witness of `processPrimitive_count_cull_none`: the primitive (0, 0, 0, 0),
(1, 0, 1/2, 1), (0, 1, 1/2, 1), whose first vertex has w = 0, with cull mode "none": `Clip`
returns its 3 vertices and the face record gets the triangle count 1. -/
theorem processPrimitive_count_cull_none_witness :
    (degenerateRasterizer.mDevice.FetchVertex 0).Position.W = 0
      ∧ degenerateRasterizer.mDevice.PolygonCullMode = CullMode.CM_None
      ∧ triCountAt (processPrimitive degenerateRasterizer 0 (sceneState 1)).outFaces 0
          = some (3 - 2)
      ∧ 1 ≤ 3 - 2 :=
  ⟨by decide!, by decide,
    (processPrimitive_count_cull_none degenerateRasterizer 0 (sceneState 1) 3
      [⟨⟨0, 0, 0, 0⟩, []⟩, ⟨⟨1, 0, 1 / 2, 1⟩, []⟩, ⟨⟨0, 1, 1 / 2, 1⟩, []⟩]
      (by decide) (by decide) (by decide) (by decide) (by decide!)).2 (by decide)⟩

/-! ## Clip planes, interpolation parameter, face indices and scheduling: proofs -/

/-- C26 (as stated, refuted): the vertex (0, 0, -1, 1) has w >= 0 but lies behind the near
plane, and the vertex (0, 0, 0, 2) has 1 - w < 0 but lies on the kept side of the far
plane. -/
theorem default_planes_do_not_test_w :
    mClipPlanes = [⟨0, 0, 1, 0⟩, ⟨0, 0, -1, 1⟩]
      ∧ (0 : ℚ) ≤ (⟨0, 0, -1, 1⟩ : float4).W
      ∧ Dot ⟨0, 0, 1, 0⟩ ⟨0, 0, -1, 1⟩ < 0
      ∧ (1 : ℚ) - (⟨0, 0, 0, 2⟩ : float4).W < 0
      ∧ 0 ≤ Dot ⟨0, 0, -1, 1⟩ ⟨0, 0, 0, 2⟩ := by
  decide!

/-- C26 (amended): with the clip planes installed by the constructor, a clip-space vertex is
on the kept side of the near plane exactly when its z >= 0, and on the kept side of the far
plane exactly when w - z >= 0. -/
theorem default_planes_kept_side (p : float4) :
    mClipPlanes = [⟨0, 0, 1, 0⟩, ⟨0, 0, -1, 1⟩]
      ∧ (0 ≤ Dot ⟨0, 0, 1, 0⟩ p ↔ 0 ≤ p.Z)
      ∧ (0 ≤ Dot ⟨0, 0, -1, 1⟩ p ↔ 0 ≤ p.W - p.Z) := by
  refine ⟨rfl, ?_, ?_⟩
  · simp [Dot]
  · have h : Dot ⟨0, 0, -1, 1⟩ p = p.W - p.Z := by
      simp only [Dot]
      ring
    rw [h]

/-- C25: whenever the edge step of `Clip` synthesizes a vertex, the divisor of the
interpolation parameter (`di - dj` on a leaving edge, `dj - di` on an entering one) is
non-zero and the parameter handed to the interpolation lies in [0, 1]. -/
theorem clipEdge_parameter_in_unit_interval (plane : float4) (numAttri : Nat)
    (vi vj : VS_Output) (st : ClipBuf)
    (hcross : (0 ≤ Dot plane vi.Position ∧ Dot plane vj.Position < 0)
      ∨ (Dot plane vi.Position < 0 ∧ 0 ≤ Dot plane vj.Position)) :
    (0 ≤ Dot plane vi.Position →
        Dot plane vi.Position - Dot plane vj.Position ≠ 0
          ∧ 0 ≤ Dot plane vi.Position / (Dot plane vi.Position - Dot plane vj.Position)
          ∧ Dot plane vi.Position / (Dot plane vi.Position - Dot plane vj.Position) ≤ 1
          ∧ clipEdge plane numAttri vi vj st
            = (match pushVertex st vi with
              | .error e => .error e
              | .ok st1 =>
                pushInterpolated st1 vi vj
                  (Dot plane vi.Position / (Dot plane vi.Position - Dot plane vj.Position))
                  numAttri))
      ∧ (Dot plane vi.Position < 0 →
        Dot plane vj.Position - Dot plane vi.Position ≠ 0
          ∧ 0 ≤ Dot plane vj.Position / (Dot plane vj.Position - Dot plane vi.Position)
          ∧ Dot plane vj.Position / (Dot plane vj.Position - Dot plane vi.Position) ≤ 1
          ∧ clipEdge plane numAttri vi vj st
            = pushInterpolated st vj vi
                (Dot plane vj.Position / (Dot plane vj.Position - Dot plane vi.Position))
                numAttri) := by
  constructor
  · intro hi
    have hj : Dot plane vj.Position < 0 := by
      rcases hcross with ⟨_, h⟩ | ⟨h, _⟩
      · exact h
      · exact absurd hi (not_le.mpr h)
    have hpos : 0 < Dot plane vi.Position - Dot plane vj.Position := by linarith
    refine ⟨ne_of_gt hpos, div_nonneg hi hpos.le, (div_le_one hpos).mpr (by linarith), ?_⟩
    simp only [clipEdge, if_pos hi, if_pos hj]
  · intro hi
    have hj : 0 ≤ Dot plane vj.Position := by
      rcases hcross with ⟨h, _⟩ | ⟨_, h⟩
      · exact absurd hi (not_lt.mpr h)
      · exact h
    have hpos : 0 < Dot plane vj.Position - Dot plane vi.Position := by linarith
    refine ⟨ne_of_gt hpos, div_nonneg hj hpos.le, (div_le_one hpos).mpr (by linarith), ?_⟩
    simp only [clipEdge, if_neg (not_le.mpr hi), if_pos hj]

/-- Witness of `clipEdge_parameter_in_unit_interval`: the edge from z = 1 to z = -3 leaves
the near half-space; the divisor is 4 and the parameter 1/4. -/
theorem clipEdge_parameter_in_unit_interval_witness :
    Dot ⟨0, 0, 1, 0⟩ (⟨⟨0, 0, 1, 1⟩, []⟩ : VS_Output).Position
        - Dot ⟨0, 0, 1, 0⟩ (⟨⟨0, 0, -3, 1⟩, []⟩ : VS_Output).Position ≠ 0
      ∧ 0 ≤ Dot ⟨0, 0, 1, 0⟩ (⟨⟨0, 0, 1, 1⟩, []⟩ : VS_Output).Position
          / (Dot ⟨0, 0, 1, 0⟩ (⟨⟨0, 0, 1, 1⟩, []⟩ : VS_Output).Position
            - Dot ⟨0, 0, 1, 0⟩ (⟨⟨0, 0, -3, 1⟩, []⟩ : VS_Output).Position)
      ∧ Dot ⟨0, 0, 1, 0⟩ (⟨⟨0, 0, 1, 1⟩, []⟩ : VS_Output).Position
          / (Dot ⟨0, 0, 1, 0⟩ (⟨⟨0, 0, 1, 1⟩, []⟩ : VS_Output).Position
            - Dot ⟨0, 0, 1, 0⟩ (⟨⟨0, 0, -3, 1⟩, []⟩ : VS_Output).Position) ≤ 1 := by
  have h := (clipEdge_parameter_in_unit_interval ⟨0, 0, 1, 0⟩ 0 ⟨⟨0, 0, 1, 1⟩, []⟩
    ⟨⟨0, 0, -3, 1⟩, []⟩ ⟨[], [⟨⟨0, 0, 0, 0⟩, []⟩]⟩ (Or.inl (by decide!))).1 (by decide!)
  exact ⟨h.1, h.2.1, h.2.2.1⟩

/-- C27 (evaluation at the failing input): for primitive 2 of the scene `Clip` returns
n = 4 vertices, written to the slots 8..11 (base = 8); the face record references the slots
8..13, of which 12 and 13 lie outside [base, base + n): they are the first slots of
primitive 3. -/
theorem face_indices_leave_slice :
    Except.map Prod.fst
        (Clip sceneRasterizer.mClipPlanes sceneRasterizer.mCurrVSOutputCount
          sceneRasterizer.poolSlots
          (primitiveVertices sceneRasterizer 2 (sceneState 4).vertexCache).1
          (primitiveVertices sceneRasterizer 2 (sceneState 4).vertexCache).2.1
          (primitiveVertices sceneRasterizer 2 (sceneState 4).vertexCache).2.2) = .ok 4
      ∧ mul32 2 4 = 8
      ∧ ((processPrimitive sceneRasterizer 2 (sceneState 4)).outFaces.getD 2 default).Indices
        = [8, 9, 10, 11, 12, 13]
      ∧ ¬ (12 < 8 + 4) ∧ mul32 3 4 = 12 := by
  decide!

/-- C22 (evaluation at the failing input): two primitives in packages of one, the first
behind the near plane, the second visible. One worker alone leaves the face counts 0 and 9
(stale); two workers, the second starting when the first has returned, leave 0 and 1: the
final buffers depend on the number of workers. -/
theorem SetupGeometry_depends_on_worker_count :
    (SetupGeometry unitPackageRasterizer (sceneState 2).outVertices (sceneState 2).outFaces
          0 2 8).map (fun r => r.outFaces.map RasterFaceInfo.TriCount) = some [0, 9]
      ∧ ((SetupGeometry unitPackageRasterizer (sceneState 2).outVertices
            (sceneState 2).outFaces 0 2 8).bind
          (fun r1 => SetupGeometry unitPackageRasterizer r1.outVertices r1.outFaces
            r1.workingPackage 2 8)).map (fun r => r.outFaces.map RasterFaceInfo.TriCount)
        = some [0, 1] := by
  decide!

/-! ## Clipped vertices and the clip planes: proofs -/

theorem lerp_nonneg (A B t : ℚ) (hA : 0 ≤ A) (hB : 0 ≤ B) (ht0 : 0 ≤ t) (ht1 : t ≤ 1) :
    0 ≤ A + (B - A) * t := by
  nlinarith [mul_nonneg hA (sub_nonneg.mpr ht1), mul_nonneg hB ht0]

theorem Dot_Lerp4_nonneg (q a b : float4) (t : ℚ) (ha : 0 ≤ Dot q a) (hb : 0 ≤ Dot q b)
    (ht0 : 0 ≤ t) (ht1 : t ≤ 1) : 0 ≤ Dot q (Lerp4 a b t) := by
  rw [Dot_Lerp4]
  exact lerp_nonneg _ _ _ ha hb ht0 ht1

theorem Dot_Lerp4_neg (q a b : float4) (t : ℚ) (ha : Dot q a < 0) (hb : Dot q b < 0)
    (ht0 : 0 ≤ t) (ht1 : t ≤ 1) : Dot q (Lerp4 a b t) < 0 := by
  rw [Dot_Lerp4]
  exact lerp_neg _ _ _ ha hb ht0 ht1

theorem Dot_Lerp4_crossing (q a b : float4) (h : Dot q a ≠ Dot q b) :
    Dot q (Lerp4 a b (Dot q a / (Dot q a - Dot q b))) = 0 := by
  have h2 : Dot q a - Dot q b ≠ 0 := sub_ne_zero.mpr h
  rw [Dot_Lerp4]
  field_simp
  ring

theorem pushVertex_ok (st st1 : ClipBuf) (v : VS_Output) (h : pushVertex st v = .ok st1) :
    st1.dest = st.dest ++ [v] ∧ st1.pool = st.pool := by
  unfold pushVertex at h
  split_ifs at h
  cases h
  exact ⟨rfl, rfl⟩

theorem pushInterpolated_ok (st st1 : ClipBuf) (a b : VS_Output) (t : ℚ) (numAttri : Nat)
    (h : pushInterpolated st a b t numAttri = .ok st1) :
    ∃ slot : VS_Output, st1.dest = st.dest ++ [VS_Output_Interpolate slot a b t numAttri] := by
  cases hp : st.pool with
  | nil =>
    simp only [pushInterpolated, hp] at h
    cases h
  | cons slot rest =>
    simp only [pushInterpolated, hp] at h
    exact ⟨slot, (pushVertex_ok _ _ _ h).1⟩

theorem clipEdge_appended (plane : float4) (numAttri : Nat) (vi vj : VS_Output)
    (st st1 : ClipBuf) (h : clipEdge plane numAttri vi vj st = .ok st1) :
    ∃ synth : List VS_Output,
      st1.dest = st.dest ++ (if 0 ≤ Dot plane vi.Position then [vi] else []) ++ synth
        ∧ ∀ s ∈ synth, Dot plane s.Position = 0
          ∧ ∃ t : ℚ, 0 ≤ t ∧ t ≤ 1
            ∧ (s.Position = Lerp4 vi.Position vj.Position t
              ∨ s.Position = Lerp4 vj.Position vi.Position t) := by
  by_cases hi : 0 ≤ Dot plane vi.Position
  · simp only [clipEdge, if_pos hi] at h
    cases hp : pushVertex st vi with
    | error e =>
      rw [hp] at h
      cases h
    | ok st2 =>
      rw [hp] at h
      obtain ⟨hd2, -⟩ := pushVertex_ok _ _ _ hp
      by_cases hj : Dot plane vj.Position < 0
      · simp only [if_pos hj] at h
        obtain ⟨slot, hd⟩ := pushInterpolated_ok _ _ _ _ _ _ h
        refine ⟨[VS_Output_Interpolate slot vi vj
          (Dot plane vi.Position / (Dot plane vi.Position - Dot plane vj.Position)) numAttri],
          ?_, ?_⟩
        · rw [hd, hd2, if_pos hi]
        · intro s hs
          rw [List.mem_singleton.mp hs]
          have hne : Dot plane vi.Position ≠ Dot plane vj.Position := by
            intro e; rw [e] at hi; exact absurd hi (not_le.mpr hj)
          obtain ⟨ht0, ht1⟩ := crossing_param_bounds _ _ (Or.inl ⟨hi, hj⟩)
          exact ⟨Dot_Lerp4_crossing _ _ _ hne, _, ht0, ht1, Or.inl rfl⟩
      · simp only [if_neg hj] at h
        cases h
        refine ⟨[], ?_, ?_⟩
        · rw [hd2, if_pos hi, List.append_nil]
        · intro s hs
          exact absurd hs (List.not_mem_nil _)
  · simp only [clipEdge, if_neg hi] at h
    have hlt : Dot plane vi.Position < 0 := not_le.mp hi
    by_cases hj : 0 ≤ Dot plane vj.Position
    · simp only [if_pos hj] at h
      obtain ⟨slot, hd⟩ := pushInterpolated_ok _ _ _ _ _ _ h
      refine ⟨[VS_Output_Interpolate slot vj vi
        (Dot plane vj.Position / (Dot plane vj.Position - Dot plane vi.Position)) numAttri],
        ?_, ?_⟩
      · rw [hd, if_neg hi, List.append_nil]
      · intro s hs
        rw [List.mem_singleton.mp hs]
        have hne : Dot plane vj.Position ≠ Dot plane vi.Position := by
          intro e; rw [e] at hj; exact absurd hj (not_le.mpr hlt)
        obtain ⟨ht0, ht1⟩ := crossing_param_bounds _ _ (Or.inl ⟨hj, hlt⟩)
        exact ⟨Dot_Lerp4_crossing _ _ _ hne, _, ht0, ht1, Or.inr rfl⟩
    · simp only [if_neg hj] at h
      cases h
      refine ⟨[], ?_, ?_⟩
      · rw [if_neg hi, List.append_nil, List.append_nil]
      · intro s hs
        exact absurd hs (List.not_mem_nil _)

theorem clipEdge_kept (plane : float4) (done : List float4) (numAttri : Nat)
    (vi vj : VS_Output) (st st1 : ClipBuf)
    (hvi : ∀ q ∈ done, 0 ≤ Dot q vi.Position) (hvj : ∀ q ∈ done, 0 ≤ Dot q vj.Position)
    (hst : ∀ v ∈ st.dest, ∀ q ∈ plane :: done, 0 ≤ Dot q v.Position)
    (h : clipEdge plane numAttri vi vj st = .ok st1) :
    ∀ v ∈ st1.dest, ∀ q ∈ plane :: done, 0 ≤ Dot q v.Position := by
  obtain ⟨synth, hd, hsyn⟩ := clipEdge_appended plane numAttri vi vj st st1 h
  intro v hv q hq
  rw [hd, List.mem_append, List.mem_append] at hv
  rcases hv with (hv | hv) | hv
  · exact hst v hv q hq
  · split_ifs at hv with hi
    · rw [List.mem_singleton.mp hv]
      rcases List.mem_cons.mp hq with rfl | hq
      · exact hi
      · exact hvi q hq
    · exact absurd hv (List.not_mem_nil _)
  · obtain ⟨hzero, t, ht0, ht1, hpos⟩ := hsyn v hv
    rcases List.mem_cons.mp hq with rfl | hq
    · exact hzero.ge
    · rcases hpos with e | e
      · rw [e]
        exact Dot_Lerp4_nonneg _ _ _ _ (hvi q hq) (hvj q hq) ht0 ht1
      · rw [e]
        exact Dot_Lerp4_nonneg _ _ _ _ (hvj q hq) (hvi q hq) ht0 ht1

theorem mem_getD_vertex (src : List VS_Output) (i : Nat) (h : i < src.length) :
    src.getD i default ∈ src := by
  rw [List.getD_eq_getElem _ _ h]
  exact List.getElem_mem h

theorem clipEdges_kept (plane : float4) (done : List float4) (numAttri : Nat)
    (src : List VS_Output) (hsrc : ∀ v ∈ src, ∀ q ∈ done, 0 ≤ Dot q v.Position) :
    ∀ (is : List Nat) (st st1 : ClipBuf), (∀ i ∈ is, i < src.length) →
      (∀ v ∈ st.dest, ∀ q ∈ plane :: done, 0 ≤ Dot q v.Position) →
      clipEdges plane numAttri src is st = .ok st1 →
      ∀ v ∈ st1.dest, ∀ q ∈ plane :: done, 0 ≤ Dot q v.Position := by
  intro is
  induction is with
  | nil =>
    intro st st1 _ hst h
    simp only [clipEdges] at h
    cases h
    exact hst
  | cons i rest ih =>
    intro st st1 his hst h
    have hi : i < src.length := his i (List.mem_cons_self _ _)
    simp only [clipEdges] at h
    cases he : clipEdge plane numAttri (src.getD i default)
        (src.getD (if i + 1 = src.length then 0 else i + 1) default) st with
    | error e =>
      rw [he] at h
      cases h
    | ok st2 =>
      rw [he] at h
      exact ih st2 st1 (fun j hj => his j (List.mem_cons_of_mem _ hj))
        (clipEdge_kept plane done numAttri _ _ st st2
          (hsrc _ (mem_getD_vertex src i hi))
          (hsrc _ (mem_getD_vertex src _ (next_index_lt _ _ hi))) hst he) h

theorem clipPlanes_kept (numAttri : Nat) :
    ∀ (planes done : List float4) (src pool : List VS_Output) (n : Nat)
      (vs : List VS_Output),
      (∀ v ∈ src, ∀ q ∈ done, 0 ≤ Dot q v.Position) →
      clipPlanes numAttri planes src pool = .ok (n, vs) →
      (3 ≤ n → vs.length = n)
        ∧ ∀ v ∈ vs, ∀ q : float4, q ∈ done ∨ q ∈ planes → 0 ≤ Dot q v.Position := by
  intro planes
  induction planes with
  | nil =>
    intro done src pool n vs hsrc h
    simp only [clipPlanes] at h
    split_ifs at h
    cases h
    refine ⟨fun _ => rfl, ?_⟩
    intro v hv q hq
    rcases hq with hq | hq
    · exact hsrc v hv q hq
    · exact absurd hq (List.not_mem_nil _)
  | cons plane rest ih =>
    intro done src pool n vs hsrc h
    simp only [clipPlanes] at h
    cases he : clipEdges plane numAttri src (List.range src.length) ⟨[], pool⟩ with
    | error e =>
      rw [he] at h
      cases h
    | ok st =>
      rw [he] at h
      simp only at h
      have hst := clipEdges_kept plane done numAttri src hsrc (List.range src.length)
        ⟨[], pool⟩ st (fun _ hi => List.mem_range.mp hi)
        (fun v hv => absurd hv (List.not_mem_nil _)) he
      split_ifs at h with hc
      · cases h
        exact ⟨fun h3 => absurd hc (by omega), fun v hv => absurd hv (List.not_mem_nil _)⟩
      · obtain ⟨hlen, hall⟩ := ih (plane :: done) st.dest st.pool n vs hst h
        refine ⟨hlen, ?_⟩
        intro v hv q hq
        apply hall v hv q
        rcases hq with hq | hq
        · exact Or.inl (List.mem_cons_of_mem _ hq)
        · rcases List.mem_cons.mp hq with rfl | hq
          · exact Or.inl (List.mem_cons_self _ _)
          · exact Or.inr hq

/-- C23: for every triangle for which `Clip` returns n >= 3 vertices, it writes n vertices
and each of them has non-negative signed distance to every clip plane, the planes clipped
against earlier included; and every vertex the edge step synthesizes has signed distance
exactly 0 to the plane it is clipped against (exact arithmetic). -/
theorem Clip_output_inside_all_planes (planes : List float4) (numAttri : Nat)
    (pool : List VS_Output) (v0 v1 v2 : VS_Output) (n : Nat) (vs : List VS_Output)
    (h : Clip planes numAttri pool v0 v1 v2 = .ok (n, vs)) (hn : 3 ≤ n) :
    vs.length = n
      ∧ (∀ v ∈ vs, ∀ q ∈ planes, 0 ≤ Dot q v.Position)
      ∧ ∀ (plane : float4) (vi vj : VS_Output) (st st1 : ClipBuf),
          clipEdge plane numAttri vi vj st = .ok st1 →
          ∃ synth : List VS_Output,
            st1.dest = st.dest ++ (if 0 ≤ Dot plane vi.Position then [vi] else []) ++ synth
              ∧ ∀ s ∈ synth, Dot plane s.Position = 0 := by
  obtain ⟨hlen, hall⟩ := clipPlanes_kept numAttri planes [] [v0, v1, v2] pool n vs
    (fun _ _ q hq => absurd hq (List.not_mem_nil _)) h
  refine ⟨hlen hn, fun v hv q hq => hall v hv q (Or.inr hq), ?_⟩
  intro plane vi vj st st1 he
  obtain ⟨synth, hd, hsyn⟩ := clipEdge_appended plane numAttri vi vj st st1 he
  exact ⟨synth, hd, fun s hs => (hsyn s hs).1⟩

/-- Witness of `Clip_output_inside_all_planes`: the triangle with z = -1, 1, 2 and w = 10 is
cut by the near plane into a quad with two synthesized vertices at z = 0; the synthesized
vertex (0, 1/3, 0, 10) is on the kept side of the far plane. -/
theorem Clip_output_inside_all_planes_witness :
    ([⟨⟨1 / 2, 0, 0, 10⟩, []⟩, ⟨⟨1, 0, 1, 10⟩, []⟩, ⟨⟨0, 1, 2, 10⟩, []⟩,
        ⟨⟨0, 1 / 3, 0, 10⟩, []⟩] : List VS_Output).length = 4
      ∧ 0 ≤ Dot ⟨0, 0, -1, 1⟩ (⟨⟨0, 1 / 3, 0, 10⟩, []⟩ : VS_Output).Position :=
  ⟨(Clip_output_inside_all_planes mClipPlanes 0 (List.replicate 6 ⟨⟨0, 0, 0, 0⟩, []⟩)
      ⟨⟨0, 0, -1, 10⟩, []⟩ ⟨⟨1, 0, 1, 10⟩, []⟩ ⟨⟨0, 1, 2, 10⟩, []⟩ 4
      [⟨⟨1 / 2, 0, 0, 10⟩, []⟩, ⟨⟨1, 0, 1, 10⟩, []⟩, ⟨⟨0, 1, 2, 10⟩, []⟩,
        ⟨⟨0, 1 / 3, 0, 10⟩, []⟩] (by decide!) (by decide)).1,
    (Clip_output_inside_all_planes mClipPlanes 0 (List.replicate 6 ⟨⟨0, 0, 0, 0⟩, []⟩)
      ⟨⟨0, 0, -1, 10⟩, []⟩ ⟨⟨1, 0, 1, 10⟩, []⟩ ⟨⟨0, 1, 2, 10⟩, []⟩ 4
      [⟨⟨1 / 2, 0, 0, 10⟩, []⟩, ⟨⟨1, 0, 1, 10⟩, []⟩, ⟨⟨0, 1, 2, 10⟩, []⟩,
        ⟨⟨0, 1 / 3, 0, 10⟩, []⟩] (by decide!) (by decide)).2.1
      ⟨⟨0, 1 / 3, 0, 10⟩, []⟩ (by simp) ⟨0, 0, -1, 1⟩ (by simp [mClipPlanes])⟩

/-! ## Sizes of the clip stages: proofs -/

theorem specClipStage_triangle (plane p0 p1 p2 : float4) :
    specClipStage plane [p0, p1, p2]
      = specClipEdge plane p0 p1 ++ (specClipEdge plane p1 p2 ++ specClipEdge plane p2 p0) := by
  have hr : List.range 3 = [0, 1, 2] := by decide
  simp only [specClipStage, List.length_cons, List.length_nil, hr, specClipWalk]
  norm_num

theorem specClipStage_quad (plane q0 q1 q2 q3 : float4) :
    specClipStage plane [q0, q1, q2, q3]
      = specClipEdge plane q0 q1 ++ (specClipEdge plane q1 q2
          ++ (specClipEdge plane q2 q3 ++ specClipEdge plane q3 q0)) := by
  have hr : List.range 4 = [0, 1, 2, 3] := by decide
  simp only [specClipStage, List.length_cons, List.length_nil, hr, specClipWalk]
  norm_num

theorem quad_stage_facts (b q0 q1 q2 q3 : float4)
    (h1 : ¬ (0 ≤ Dot b q0 ∧ Dot b q1 < 0 ∧ 0 ≤ Dot b q2 ∧ Dot b q3 < 0))
    (h2 : ¬ (Dot b q0 < 0 ∧ 0 ≤ Dot b q1 ∧ Dot b q2 < 0 ∧ 0 ≤ Dot b q3)) :
    synthCount b [q0, q1, q2, q3] (List.range 4) ≤ 2
      ∧ (specClipStage b [q0, q1, q2, q3]).length ≤ 5 := by
  have hr : List.range 4 = [0, 1, 2, 3] := by decide
  rw [specClipStage_quad]
  simp only [List.length_cons, List.length_nil, hr, synthCount, specClipEdge]
  norm_num
  by_cases c0 : 0 ≤ Dot b q0 <;> by_cases c1 : 0 ≤ Dot b q1 <;>
    by_cases c2 : 0 ≤ Dot b q2 <;> by_cases c3 : 0 ≤ Dot b q3 <;>
    simp [c0, c1, c2, c3, not_lt.mpr, not_le.mp, lt_of_not_ge] at h1 h2 ⊢

theorem quad_not_alternating (b X U V : float4) (tU tV : ℚ) (sU sV : float4)
    (hU : sU = Lerp4 X U tU ∨ sU = Lerp4 U X tU) (hV : sV = Lerp4 X V tV ∨ sV = Lerp4 V X tV)
    (htU : 0 ≤ tU ∧ tU ≤ 1) (htV : 0 ≤ tV ∧ tV ≤ 1) :
    ¬ (0 ≤ Dot b sU ∧ Dot b U < 0 ∧ 0 ≤ Dot b V ∧ Dot b sV < 0)
      ∧ ¬ (Dot b sU < 0 ∧ 0 ≤ Dot b U ∧ Dot b V < 0 ∧ 0 ≤ Dot b sV) := by
  have hUneg : Dot b X < 0 → Dot b U < 0 → Dot b sU < 0 := by
    intro hx hu
    rcases hU with e | e <;> rw [e]
    · exact Dot_Lerp4_neg _ _ _ _ hx hu htU.1 htU.2
    · exact Dot_Lerp4_neg _ _ _ _ hu hx htU.1 htU.2
  have hUpos : 0 ≤ Dot b X → 0 ≤ Dot b U → 0 ≤ Dot b sU := by
    intro hx hu
    rcases hU with e | e <;> rw [e]
    · exact Dot_Lerp4_nonneg _ _ _ _ hx hu htU.1 htU.2
    · exact Dot_Lerp4_nonneg _ _ _ _ hu hx htU.1 htU.2
  have hVneg : Dot b X < 0 → Dot b V < 0 → Dot b sV < 0 := by
    intro hx hv
    rcases hV with e | e <;> rw [e]
    · exact Dot_Lerp4_neg _ _ _ _ hx hv htV.1 htV.2
    · exact Dot_Lerp4_neg _ _ _ _ hv hx htV.1 htV.2
  have hVpos : 0 ≤ Dot b X → 0 ≤ Dot b V → 0 ≤ Dot b sV := by
    intro hx hv
    rcases hV with e | e <;> rw [e]
    · exact Dot_Lerp4_nonneg _ _ _ _ hx hv htV.1 htV.2
    · exact Dot_Lerp4_nonneg _ _ _ _ hv hx htV.1 htV.2
  constructor
  · rintro ⟨h1, h2, h3, h4⟩
    by_cases hx : 0 ≤ Dot b X
    · exact absurd (hVpos hx h3) (not_le.mpr h4)
    · exact absurd h1 (not_le.mpr (hUneg (not_le.mp hx) h2))
  · rintro ⟨h1, h2, h3, h4⟩
    by_cases hx : 0 ≤ Dot b X
    · exact absurd (hUpos hx h2) (not_le.mpr h1)
    · exact absurd h4 (not_le.mpr (hVneg (not_le.mp hx) h3))

theorem triangle_second_facts (b q0 q1 q2 : float4) :
    synthCount b [q0, q1, q2] (List.range [q0, q1, q2].length) ≤ 2
      ∧ (specClipStage b [q0, q1, q2]).length ≤ 5 :=
  ⟨(triangle_stage_facts b q0 q1 q2).1,
    le_trans (triangle_stage_facts b q0 q1 q2).2.1 (by decide)⟩

theorem second_stage_facts (a b p0 p1 p2 : float4) :
    synthCount b (specClipStage a [p0, p1, p2])
        (List.range (specClipStage a [p0, p1, p2]).length) ≤ 2
      ∧ (specClipStage b (specClipStage a [p0, p1, p2])).length ≤ 5 := by
  rw [specClipStage_triangle]
  by_cases c0 : 0 ≤ Dot a p0 <;> by_cases c1 : 0 ≤ Dot a p1 <;> by_cases c2 : 0 ≤ Dot a p2
  · have e : specClipEdge a p0 p1 ++ (specClipEdge a p1 p2 ++ specClipEdge a p2 p0)
        = [p0, p1, p2] := by
      simp [specClipEdge, c0, c1, c2, not_lt.mpr]
    rw [e]
    exact triangle_second_facts b _ _ _
  · have n2 : Dot a p2 < 0 := not_le.mp c2
    have e : specClipEdge a p0 p1 ++ (specClipEdge a p1 p2 ++ specClipEdge a p2 p0)
        = [p0, p1, Lerp4 p1 p2 (Dot a p1 / (Dot a p1 - Dot a p2)),
            Lerp4 p2 p0 (Dot a p2 / (Dot a p2 - Dot a p0))] := by
      simp [specClipEdge, c0, c1, c2, n2, not_lt.mpr]
    rw [e]
    obtain ⟨k1, k2⟩ := quad_not_alternating b p2 p0 p1
      (Dot a p2 / (Dot a p2 - Dot a p0)) (Dot a p1 / (Dot a p1 - Dot a p2)) _ _
      (Or.inl rfl) (Or.inr rfl) (crossing_param_bounds _ _ (Or.inr ⟨n2, c0⟩))
      (crossing_param_bounds _ _ (Or.inl ⟨c1, n2⟩))
    exact quad_stage_facts b _ _ _ _ (fun ⟨h0, h1, h2, h3⟩ => k2 ⟨h3, h0, h1, h2⟩)
      (fun ⟨h0, h1, h2, h3⟩ => k1 ⟨h3, h0, h1, h2⟩)
  · have n1 : Dot a p1 < 0 := not_le.mp c1
    have e : specClipEdge a p0 p1 ++ (specClipEdge a p1 p2 ++ specClipEdge a p2 p0)
        = [p0, Lerp4 p0 p1 (Dot a p0 / (Dot a p0 - Dot a p1)),
            Lerp4 p1 p2 (Dot a p1 / (Dot a p1 - Dot a p2)), p2] := by
      simp [specClipEdge, c0, c1, c2, n1, not_lt.mpr]
    rw [e]
    obtain ⟨k1, k2⟩ := quad_not_alternating b p1 p2 p0
      (Dot a p1 / (Dot a p1 - Dot a p2)) (Dot a p0 / (Dot a p0 - Dot a p1)) _ _
      (Or.inl rfl) (Or.inr rfl) (crossing_param_bounds _ _ (Or.inr ⟨n1, c2⟩))
      (crossing_param_bounds _ _ (Or.inl ⟨c0, n1⟩))
    exact quad_stage_facts b _ _ _ _ (fun ⟨h0, h1, h2, h3⟩ => k1 ⟨h2, h3, h0, h1⟩)
      (fun ⟨h0, h1, h2, h3⟩ => k2 ⟨h2, h3, h0, h1⟩)
  · have n1 : Dot a p1 < 0 := not_le.mp c1
    have n2 : Dot a p2 < 0 := not_le.mp c2
    have e : specClipEdge a p0 p1 ++ (specClipEdge a p1 p2 ++ specClipEdge a p2 p0)
        = [p0, Lerp4 p0 p1 (Dot a p0 / (Dot a p0 - Dot a p1)),
            Lerp4 p2 p0 (Dot a p2 / (Dot a p2 - Dot a p0))] := by
      simp [specClipEdge, c0, c1, c2, n1, n2, not_lt.mpr]
    rw [e]
    exact triangle_second_facts b _ _ _
  · have n0 : Dot a p0 < 0 := not_le.mp c0
    have e : specClipEdge a p0 p1 ++ (specClipEdge a p1 p2 ++ specClipEdge a p2 p0)
        = [Lerp4 p0 p1 (Dot a p0 / (Dot a p0 - Dot a p1)), p1, p2,
            Lerp4 p2 p0 (Dot a p2 / (Dot a p2 - Dot a p0))] := by
      simp [specClipEdge, c0, c1, c2, n0, not_lt.mpr]
    rw [e]
    obtain ⟨k1, k2⟩ := quad_not_alternating b p0 p1 p2
      (Dot a p0 / (Dot a p0 - Dot a p1)) (Dot a p2 / (Dot a p2 - Dot a p0)) _ _
      (Or.inl rfl) (Or.inr rfl) (crossing_param_bounds _ _ (Or.inr ⟨n0, c1⟩))
      (crossing_param_bounds _ _ (Or.inl ⟨c2, n0⟩))
    exact quad_stage_facts b _ _ _ _ k1 k2
  · have n0 : Dot a p0 < 0 := not_le.mp c0
    have n2 : Dot a p2 < 0 := not_le.mp c2
    have e : specClipEdge a p0 p1 ++ (specClipEdge a p1 p2 ++ specClipEdge a p2 p0)
        = [Lerp4 p0 p1 (Dot a p0 / (Dot a p0 - Dot a p1)), p1,
            Lerp4 p1 p2 (Dot a p1 / (Dot a p1 - Dot a p2))] := by
      simp [specClipEdge, c0, c1, c2, n0, n2, not_lt.mpr]
    rw [e]
    exact triangle_second_facts b _ _ _
  · have n0 : Dot a p0 < 0 := not_le.mp c0
    have n1 : Dot a p1 < 0 := not_le.mp c1
    have e : specClipEdge a p0 p1 ++ (specClipEdge a p1 p2 ++ specClipEdge a p2 p0)
        = [Lerp4 p1 p2 (Dot a p1 / (Dot a p1 - Dot a p2)), p2,
            Lerp4 p2 p0 (Dot a p2 / (Dot a p2 - Dot a p0))] := by
      simp [specClipEdge, c0, c1, c2, n0, n1, not_lt.mpr]
    rw [e]
    exact triangle_second_facts b _ _ _
  · have n0 : Dot a p0 < 0 := not_le.mp c0
    have n1 : Dot a p1 < 0 := not_le.mp c1
    have n2 : Dot a p2 < 0 := not_le.mp c2
    have e : specClipEdge a p0 p1 ++ (specClipEdge a p1 p2 ++ specClipEdge a p2 p0)
        = [] := by
      simp [specClipEdge, c0, c1, c2, n0, n1, n2, not_lt.mpr]
    rw [e]
    simp [synthCount, specClipStage, specClipWalk]

/-- C24: for every triangle and two clip planes (exact arithmetic), with the 6-slot scratch
pool, the edge loop of the first plane ends normally with at most 4 vertices in its stage,
the edge loop of the second plane ends normally with at most 5, so no store goes past the
last entry of a 5-entry stage; at least 2 of the 6 pool slots are left, so at most 4 are
taken; and `Clip` then returns, or stops at the `ASSERT(false)` of the 5-vertex case:
`ASSERT(resultNumVertices <= 5)` holds. -/
theorem Clip_stages_within_bounds (a b : float4) (numAttri : Nat) (pool : List VS_Output)
    (hpool : pool.length = 6) (v0 v1 v2 : VS_Output) :
    ∃ st1 st2 : ClipBuf,
      clipEdges a numAttri [v0, v1, v2] (List.range 3) ⟨[], pool⟩ = .ok st1
        ∧ st1.dest.length ≤ 4
        ∧ clipEdges b numAttri st1.dest (List.range st1.dest.length) ⟨[], st1.pool⟩ = .ok st2
        ∧ st2.dest.length ≤ 5
        ∧ 2 ≤ st2.pool.length
        ∧ Clip [a, b] numAttri pool v0 v1 v2
          = (if st1.dest.length < 3 then .ok (st1.dest.length, [])
            else if st2.dest.length < 3 then .ok (st2.dest.length, [])
            else if st2.dest.length = 5 then .error Fault.assertion
            else .ok (st2.dest.length, st2.dest)) := by
  obtain ⟨hs1, hl1, -⟩ := triangle_stage_facts a v0.Position v1.Position v2.Position
  obtain ⟨hs2, hl2⟩ := second_stage_facts a b v0.Position v1.Position v2.Position
  obtain ⟨st1, he1, hd1, hp1⟩ := clipStage_spec a numAttri [v0, v1, v2] pool
    (by simpa using le_trans hl1 (by decide)) (by simpa [hpool] using le_trans hs1 (by decide))
  simp only [List.map_cons, List.map_nil, List.length_cons, List.length_nil] at hd1 hp1 he1
  have h3 : (0 : Nat) + 1 + 1 + 1 = 3 := rfl
  rw [h3] at hp1 he1
  have hlen1 : st1.dest.length
      = (specClipStage a [v0.Position, v1.Position, v2.Position]).length := by
    rw [← hd1, List.length_map]
  rw [← hd1, List.length_map] at hs2
  rw [← hd1] at hl2
  obtain ⟨st2, he2, hd2, hp2⟩ := clipStage_spec b numAttri st1.dest st1.pool hl2
    (by omega)
  have hlen2 : st2.dest.length = (specClipStage b (st1.dest.map VS_Output.Position)).length := by
    rw [← hd2, List.length_map]
  have hl5 : st2.dest.length ≤ 5 := by rw [hlen2]; exact hl2
  refine ⟨st1, st2, he1, by rw [hlen1]; exact hl1, he2, hl5, by omega, ?_⟩
  simp only [Clip, clipPlanes, List.length_cons, List.length_nil, h3, he1, he2]
  by_cases c1 : st1.dest.length < 3
  · simp only [if_pos c1]
  · simp only [if_neg c1]
    by_cases c2 : st2.dest.length < 3
    · simp only [if_pos c2]
    · simp only [if_neg c2]
      rw [if_neg (not_not.mpr hl5)]

/-- Witness of `Clip_stages_within_bounds`: the default planes, a pool of six slots and the
triangle with (z, w) = (-1, 10), (3, 0), (1, 10), whose clipped polygon has 5 vertices. -/
theorem Clip_stages_within_bounds_witness :
    ∃ st1 st2 : ClipBuf,
      clipEdges ⟨0, 0, 1, 0⟩ 0 [⟨⟨0, 0, -1, 10⟩, []⟩, ⟨⟨0, 0, 3, 0⟩, []⟩, ⟨⟨0, 0, 1, 10⟩, []⟩]
          (List.range 3) ⟨[], List.replicate 6 ⟨⟨0, 0, 0, 0⟩, []⟩⟩ = .ok st1
        ∧ st1.dest.length ≤ 4
        ∧ clipEdges ⟨0, 0, -1, 1⟩ 0 st1.dest (List.range st1.dest.length) ⟨[], st1.pool⟩
          = .ok st2
        ∧ st2.dest.length ≤ 5
        ∧ 2 ≤ st2.pool.length
        ∧ Clip [⟨0, 0, 1, 0⟩, ⟨0, 0, -1, 1⟩] 0 (List.replicate 6 ⟨⟨0, 0, 0, 0⟩, []⟩)
            ⟨⟨0, 0, -1, 10⟩, []⟩ ⟨⟨0, 0, 3, 0⟩, []⟩ ⟨⟨0, 0, 1, 10⟩, []⟩
          = (if st1.dest.length < 3 then .ok (st1.dest.length, [])
            else if st2.dest.length < 3 then .ok (st2.dest.length, [])
            else if st2.dest.length = 5 then .error Fault.assertion
            else .ok (st2.dest.length, st2.dest)) :=
  Clip_stages_within_bounds ⟨0, 0, 1, 0⟩ ⟨0, 0, -1, 1⟩ 0
    (List.replicate 6 ⟨⟨0, 0, 0, 0⟩, []⟩) (by decide)
    ⟨⟨0, 0, -1, 10⟩, []⟩ ⟨⟨0, 0, 3, 0⟩, []⟩ ⟨⟨0, 0, 1, 10⟩, []⟩


/-! ## Triangle rasterization: proofs -/

theorem attribLoop_getD_const (n : Nat) (g : Nat → ℚ) (out : List ℚ) (k : Nat)
    (hk : k < n) (hlen : n ≤ out.length) :
    (attribLoop n (fun _ i => g i) out).getD k 0 = g k :=
  attribLoop_getD_lt n g out k hk (by omega)

/-- C28: for a triangle with non-zero signed area, the gradients `ddx`, `ddy` that
`RasterizeTriangle` gets from `VS_Output_Difference` reproduce the vertices: the
interpolation `v0 + ddx * (vk.x - v0.x) + ddy * (vk.y - v0.y)` of `VS_Output_BaryCentric`
equals `vk` in position and in each of the first `N` attributes, for k = 1 and k = 2 (exact
arithmetic; the attribute arrays of the locals hold at least `N` entries). -/
theorem gradients_reproduce_vertices (numAttri : Nat) (locals : TriangleLocals)
    (slot v0 v1 v2 : VS_Output)
    (harea : (v1.Position.X - v0.Position.X) * (v2.Position.Y - v0.Position.Y)
      - (v2.Position.X - v0.Position.X) * (v1.Position.Y - v0.Position.Y) ≠ 0)
    (h01 : numAttri ≤ locals.vsOutput01.ShaderOutputs.length)
    (h02 : numAttri ≤ locals.vsOutput02.ShaderOutputs.length)
    (hdx : numAttri ≤ locals.ddxAttrib.ShaderOutputs.length)
    (hdy : numAttri ≤ locals.ddyAttrib.ShaderOutputs.length)
    (hslot : numAttri ≤ slot.ShaderOutputs.length) :
    ((VS_Output_BaryCentric slot v0 (triangleGradients numAttri locals v0 v1 v2).1
          (triangleGradients numAttri locals v0 v1 v2).2
          (v1.Position.X - v0.Position.X) (v1.Position.Y - v0.Position.Y) numAttri).Position
        = v1.Position
      ∧ ∀ i, i < numAttri →
        (VS_Output_BaryCentric slot v0 (triangleGradients numAttri locals v0 v1 v2).1
            (triangleGradients numAttri locals v0 v1 v2).2
            (v1.Position.X - v0.Position.X) (v1.Position.Y - v0.Position.Y)
            numAttri).ShaderOutputs.getD i 0 = v1.ShaderOutputs.getD i 0)
      ∧ ((VS_Output_BaryCentric slot v0 (triangleGradients numAttri locals v0 v1 v2).1
          (triangleGradients numAttri locals v0 v1 v2).2
          (v2.Position.X - v0.Position.X) (v2.Position.Y - v0.Position.Y) numAttri).Position
        = v2.Position
      ∧ ∀ i, i < numAttri →
        (VS_Output_BaryCentric slot v0 (triangleGradients numAttri locals v0 v1 v2).1
            (triangleGradients numAttri locals v0 v1 v2).2
            (v2.Position.X - v0.Position.X) (v2.Position.Y - v0.Position.Y)
            numAttri).ShaderOutputs.getD i 0 = v2.ShaderOutputs.getD i 0) := by
  obtain ⟨inv, hinvdef, hinv⟩ : ∃ inv : ℚ,
      1 / ((v1.Position.X - v0.Position.X) * (v2.Position.Y - v0.Position.Y)
        - (v2.Position.X - v0.Position.X) * (v1.Position.Y - v0.Position.Y)) = inv
      ∧ ((v1.Position.X - v0.Position.X) * (v2.Position.Y - v0.Position.Y)
        - (v2.Position.X - v0.Position.X) * (v1.Position.Y - v0.Position.Y)) * inv = 1 :=
    ⟨_, rfl, mul_one_div_cancel harea⟩
  simp only [VS_Output_BaryCentric, triangleGradients, VS_Output_Difference, VS_Output_Sub,
    float4.add, float4.sub, float4.scale, hinvdef]
  refine ⟨⟨?_, ?_⟩, ⟨?_, ?_⟩⟩
  · rcases v1 with ⟨⟨x1, y1, z1, w1⟩, s1⟩
    simp only [float4.mk.injEq] at hinv ⊢
    refine ⟨?_, ?_, ?_, ?_⟩
    · linear_combination (x1 - v0.Position.X) * hinv
    · linear_combination (y1 - v0.Position.Y) * hinv
    · linear_combination (z1 - v0.Position.Z) * hinv
    · linear_combination (w1 - v0.Position.W) * hinv
  · intro i hi
    rw [attribLoop_getD_const _ _ _ _ hi hslot, attribLoop_getD_const _ _ _ _ hi hdx,
      attribLoop_getD_const _ _ _ _ hi hdy, attribLoop_getD_const _ _ _ _ hi h01,
      attribLoop_getD_const _ _ _ _ hi h02]
    linear_combination (v1.ShaderOutputs.getD i 0 - v0.ShaderOutputs.getD i 0) * hinv
  · rcases v2 with ⟨⟨x2, y2, z2, w2⟩, s2⟩
    simp only [float4.mk.injEq] at hinv ⊢
    refine ⟨?_, ?_, ?_, ?_⟩
    · linear_combination (x2 - v0.Position.X) * hinv
    · linear_combination (y2 - v0.Position.Y) * hinv
    · linear_combination (z2 - v0.Position.Z) * hinv
    · linear_combination (w2 - v0.Position.W) * hinv
  · intro i hi
    rw [attribLoop_getD_const _ _ _ _ hi hslot, attribLoop_getD_const _ _ _ _ hi hdx,
      attribLoop_getD_const _ _ _ _ hi hdy, attribLoop_getD_const _ _ _ _ hi h01,
      attribLoop_getD_const _ _ _ _ hi h02]
    linear_combination (v2.ShaderOutputs.getD i 0 - v0.ShaderOutputs.getD i 0) * hinv


/-- Witness of `gradients_reproduce_vertices`: the triangle (0, 0), (4, 0), (0, 4) with one
attribute of values 1, 5, 9; the interpolation at the offsets of vertex 1 gives the position
and the attribute of vertex 1. -/
theorem gradients_reproduce_vertices_witness :
    (VS_Output_BaryCentric ⟨⟨0, 0, 0, 0⟩, [7]⟩ ⟨⟨0, 0, 1 / 2, 1⟩, [1]⟩
          (triangleGradients 1 oneAttribLocals ⟨⟨0, 0, 1 / 2, 1⟩, [1]⟩ ⟨⟨4, 0, 1 / 4, 1⟩, [5]⟩
            ⟨⟨0, 4, 1, 2⟩, [9]⟩).1
          (triangleGradients 1 oneAttribLocals ⟨⟨0, 0, 1 / 2, 1⟩, [1]⟩ ⟨⟨4, 0, 1 / 4, 1⟩, [5]⟩
            ⟨⟨0, 4, 1, 2⟩, [9]⟩).2
          ((⟨⟨4, 0, 1 / 4, 1⟩, [5]⟩ : VS_Output).Position.X
            - (⟨⟨0, 0, 1 / 2, 1⟩, [1]⟩ : VS_Output).Position.X)
          ((⟨⟨4, 0, 1 / 4, 1⟩, [5]⟩ : VS_Output).Position.Y
            - (⟨⟨0, 0, 1 / 2, 1⟩, [1]⟩ : VS_Output).Position.Y) 1).Position
        = (⟨⟨4, 0, 1 / 4, 1⟩, [5]⟩ : VS_Output).Position
      ∧ (VS_Output_BaryCentric ⟨⟨0, 0, 0, 0⟩, [7]⟩ ⟨⟨0, 0, 1 / 2, 1⟩, [1]⟩
            (triangleGradients 1 oneAttribLocals ⟨⟨0, 0, 1 / 2, 1⟩, [1]⟩
              ⟨⟨4, 0, 1 / 4, 1⟩, [5]⟩ ⟨⟨0, 4, 1, 2⟩, [9]⟩).1
            (triangleGradients 1 oneAttribLocals ⟨⟨0, 0, 1 / 2, 1⟩, [1]⟩
              ⟨⟨4, 0, 1 / 4, 1⟩, [5]⟩ ⟨⟨0, 4, 1, 2⟩, [9]⟩).2
            ((⟨⟨4, 0, 1 / 4, 1⟩, [5]⟩ : VS_Output).Position.X
              - (⟨⟨0, 0, 1 / 2, 1⟩, [1]⟩ : VS_Output).Position.X)
            ((⟨⟨4, 0, 1 / 4, 1⟩, [5]⟩ : VS_Output).Position.Y
              - (⟨⟨0, 0, 1 / 2, 1⟩, [1]⟩ : VS_Output).Position.Y) 1).ShaderOutputs.getD 0 0
          = (⟨⟨4, 0, 1 / 4, 1⟩, [5]⟩ : VS_Output).ShaderOutputs.getD 0 0 := by
  have h := (gradients_reproduce_vertices 1 oneAttribLocals ⟨⟨0, 0, 0, 0⟩, [7]⟩
    ⟨⟨0, 0, 1 / 2, 1⟩, [1]⟩ ⟨⟨4, 0, 1 / 4, 1⟩, [5]⟩ ⟨⟨0, 4, 1, 2⟩, [9]⟩ (by decide!)
    (by decide) (by decide) (by decide) (by decide) (by decide)).1
  exact ⟨h.1, h.2 0 (by decide)⟩

/-- C29 (evaluation at the failing input): viewport with left edge 2, triangle (3, 0),
(0, 3), (6, 6). On the scanline Y = 2 the left edge is at x = 1, the span start is clamped to
2, and the pixel loop runs for X = 2, 3 with vertices interpolated at x = 1, 2: the vertex
used for the pixel (2, 2) has position (1, 2), where `v0 + ddx * (2 - v0.x) + ddy *
(2 - v0.y)` has position (2, 2). The same shift shows on the scanline Y = 3. -/
theorem left_clamped_span_keeps_unclamped_vertex :
    (RasterizeTriangle.visits (sceneTarget 2) zeroLocals (uniformFrame 1)
        ⟨⟨3, 0, 0, 1⟩, []⟩ ⟨⟨0, 3, 0, 1⟩, []⟩ ⟨⟨6, 6, 0, 1⟩, []⟩).map
        (fun p => (p.X, p.Y, p.vertex.Position.X, p.vertex.Position.Y))
      = [(2, 1, 2, 1), (3, 1, 3, 1), (2, 2, 1, 2), (3, 2, 2, 2), (2, 3, 0, 3), (3, 3, 1, 3),
          (4, 3, 2, 3), (2, 4, 2, 4), (3, 4, 3, 4), (4, 4, 4, 4), (4, 5, 4, 5), (5, 5, 5, 5)]
      ∧ (VS_Output_BaryCentric zeroLocals.VSOutput ⟨⟨3, 0, 0, 1⟩, []⟩
          (triangleGradients 0 zeroLocals ⟨⟨3, 0, 0, 1⟩, []⟩ ⟨⟨0, 3, 0, 1⟩, []⟩
            ⟨⟨6, 6, 0, 1⟩, []⟩).1
          (triangleGradients 0 zeroLocals ⟨⟨3, 0, 0, 1⟩, []⟩ ⟨⟨0, 3, 0, 1⟩, []⟩
            ⟨⟨6, 6, 0, 1⟩, []⟩).2 (2 - 3) (2 - 0) 0).Position = ⟨2, 2, 0, 1⟩ := by
  decide!

/-- C30 (evaluation at the failing input): the triangle (0, 1/2), (4, 1/2), (2, 9/2) with a
horizontal top edge, inside the viewport. The spans handed to `RasterizeScanline` are
[0, 4), [1, 4), [1, 3), [2, 3) on Y = 1..4; the left edge crosses y = 1 at x = 1/4 and y = 3
at x = 5/4, so the spans of Y = 1 and Y = 3 should start at 1 and 2. -/
theorem flat_top_span_starts_left_of_edge :
    (RasterizeTriangle (sceneTarget 0) zeroLocals (uniformFrame 1)
        ⟨⟨0, 1 / 2, 0, 1⟩, []⟩ ⟨⟨4, 1 / 2, 0, 1⟩, []⟩ ⟨⟨2, 9 / 2, 0, 1⟩, []⟩).calls.map
        (fun c => (c.xStart, c.xEnd, c.Y))
      = [(0, 4, 1), (1, 4, 2), (1, 3, 3), (2, 3, 4)]
      ∧ (0 : ℚ) + (2 - 0) / (9 / 2 - 1 / 2) * (1 - 1 / 2) = 1 / 4
      ∧ ⌈(1 / 4 : ℚ)⌉ = 1
      ∧ (0 : ℚ) + (2 - 0) / (9 / 2 - 1 / 2) * (3 - 1 / 2) = 5 / 4
      ∧ ⌈(5 / 4 : ℚ)⌉ = 2 := by
  decide!


/-! ### Triangles left of the viewport -/

theorem RasterizeScanline_empty (numAttri : Nat) (ds : DepthStencilState)
    (shader : PixelShaderStage) (frame : FrameBuffer) (xStart xEnd Y : Int)
    (v pDdx : VS_Output) (h : xEnd ≤ xStart) :
    RasterizeScanline numAttri ds shader frame xStart xEnd Y v pDdx = ⟨frame, v, []⟩ := by
  have h0 : (xEnd - xStart).toNat = 0 := by omega
  simp [RasterizeScanline, h0, scanLoop]

theorem scanlineEmit_quiet (T : RasterTarget) (pDdx VSOutput : VS_Output) (d0 d1 : ℚ)
    (Y iX0 iX1 : Int) (frame : FrameBuffer) (st : TriangleState)
    (h0 : T.viewport.Left ≤ iX0) (h1 : iX1 ≤ T.viewport.Left) (hq : st.Quiet frame) :
    (scanlineEmit T pDdx VSOutput d0 d1 Y iX0 iX1 st).Quiet frame := by
  obtain ⟨hf, hw, hc⟩ := hq
  unfold scanlineEmit
  simp only
  split_ifs with c1 c2
  · exact ⟨hf, hw, hc⟩
  · have hle : T.viewport.Left + T.viewport.Width ≤ iX0 := by omega
    rw [RasterizeScanline_empty _ _ _ _ _ _ _ _ _ hle]
    refine ⟨hf, by simp [hw], ?_⟩
    intro c hcm
    rcases List.mem_append.mp hcm with hcm | hcm
    · exact hc c hcm
    · rw [List.mem_singleton.mp hcm]
      exact hle
  · have hle : iX1 ≤ iX0 := by omega
    rw [RasterizeScanline_empty _ _ _ _ _ _ _ _ _ hle]
    refine ⟨hf, by simp [hw], ?_⟩
    intro c hcm
    rcases List.mem_append.mp hcm with hcm | hcm
    · exact hc c hcm
    · rw [List.mem_singleton.mp hcm]
      exact hle

theorem scanlineEmit_fX1 (T : RasterTarget) (pDdx VSOutput : VS_Output) (d0 d1 : ℚ)
    (Y iX0 iX1 : Int) (st : TriangleState) :
    (scanlineEmit T pDdx VSOutput d0 d1 Y iX0 iX1 st).fX1 = st.fX1
      ∨ (scanlineEmit T pDdx VSOutput d0 d1 Y iX0 iX1 st).fX1 = st.fX1 + d1 := by
  unfold scanlineEmit
  simp only
  split_ifs
  · exact Or.inl rfl
  · exact Or.inr rfl
  · exact Or.inr rfl

theorem scanlineBody_quiet (T : RasterTarget) (slot pBaseVertex ddx ddy : VS_Output)
    (d0 d1 : ℚ) (Y : Int) (frame : FrameBuffer) (st : TriangleState)
    (h : st.fX1 < (T.viewport.Left : ℚ)) (hq : st.Quiet frame) :
    (scanlineBody T slot pBaseVertex ddx ddy d0 d1 Y st).Quiet frame := by
  have h1 : ⌈st.fX1⌉ ≤ T.viewport.Left := Int.ceil_le.mpr h.le
  unfold scanlineBody
  simp only
  split_ifs with c1 c2
  · exact hq
  · exact scanlineEmit_quiet T _ _ _ _ _ _ _ frame st le_rfl h1 hq
  · exact scanlineEmit_quiet T _ _ _ _ _ _ _ frame st (not_lt.mp c1) h1 hq

theorem scanlineBody_fX1 (T : RasterTarget) (slot pBaseVertex ddx ddy : VS_Output)
    (d0 d1 : ℚ) (Y : Int) (st : TriangleState) :
    (scanlineBody T slot pBaseVertex ddx ddy d0 d1 Y st).fX1 = st.fX1
      ∨ (scanlineBody T slot pBaseVertex ddx ddy d0 d1 Y st).fX1 = st.fX1 + d1 := by
  unfold scanlineBody
  simp only
  split_ifs
  · exact Or.inl rfl
  · exact scanlineEmit_fX1 _ _ _ _ _ _ _ _ _
  · exact scanlineEmit_fX1 _ _ _ _ _ _ _ _ _

theorem scanlineLoop_quiet (T : RasterTarget) (slot pBaseVertex ddx ddy : VS_Output)
    (d0 d1 : ℚ) (frame : FrameBuffer) :
    ∀ (ys : List Int) (st : TriangleState),
      (∀ k : ℕ, k < ys.length → st.fX1 + d1 * (k : ℚ) < (T.viewport.Left : ℚ)) →
      st.Quiet frame →
      (scanlineLoop T slot pBaseVertex ddx ddy d0 d1 ys st).Quiet frame := by
  intro ys
  induction ys with
  | nil => intro st _ hq; exact hq
  | cons Y rest ih =>
    intro st hb hq
    have h0 : st.fX1 < (T.viewport.Left : ℚ) := by
      simpa using hb 0 (by simp)
    simp only [scanlineLoop]
    refine ih _ ?_ (scanlineBody_quiet T slot pBaseVertex ddx ddy d0 d1 Y frame st h0 hq)
    intro k hk
    rcases scanlineBody_fX1 T slot pBaseVertex ddx ddy d0 d1 Y st with e | e
    · rw [e]
      exact hb k (by simp only [List.length_cons]; omega)
    · rw [e]
      have := hb (k + 1) (by simp only [List.length_cons]; omega)
      push_cast at this
      linarith

theorem scanlineLoop_fX1 (T : RasterTarget) (slot pBaseVertex ddx ddy : VS_Output)
    (d0 d1 : ℚ) :
    ∀ (ys : List Int) (st : TriangleState),
      ∃ k : ℕ, k ≤ ys.length
        ∧ (scanlineLoop T slot pBaseVertex ddx ddy d0 d1 ys st).fX1 = st.fX1 + d1 * (k : ℚ) := by
  intro ys
  induction ys with
  | nil => intro st; exact ⟨0, le_rfl, by simp [scanlineLoop]⟩
  | cons Y rest ih =>
    intro st
    obtain ⟨k, hk, he⟩ := ih (scanlineBody T slot pBaseVertex ddx ddy d0 d1 Y st)
    simp only [scanlineLoop]
    rcases scanlineBody_fX1 T slot pBaseVertex ddx ddy d0 d1 Y st with e | e
    · exact ⟨k, by simp only [List.length_cons]; omega, by rw [he, e]⟩
    · refine ⟨k + 1, by simp only [List.length_cons]; omega, ?_⟩
      rw [he, e]
      push_cast
      ring

theorem yRange_length (lo hi : Int) : (yRange lo hi).length = (hi - lo).toNat := by
  simp [yRange]

theorem edge_lt (xa xb L h s : ℚ) (ha : xa < L) (hb : xb < L) (hh : 0 < h) (hs0 : 0 ≤ s)
    (hs1 : s ≤ h) : xa + (xb - xa) / h * s < L := by
  have hr0 : 0 ≤ s / h := div_nonneg hs0 hh.le
  have hr1 : s / h ≤ 1 := (div_le_one hh).mpr hs1
  have e : (xb - xa) / h * s = (xb - xa) * (s / h) := by field_simp
  have := lerp_neg (xa - L) (xb - L) (s / h) (by linarith) (by linarith) hr0 hr1
  rw [e]
  linarith

theorem slope_order (xA xB xC yA yB yC : ℚ) (hab : 0 < yB - yA) (hbc : 0 < yC - yB)
    (h : (xC - xA) / (yC - yA) ≤ (xC - xB) / (yC - yB)) :
    (xB - xA) / (yB - yA) ≤ (xC - xA) / (yC - yA) := by
  have hac : 0 < yC - yA := by linarith
  rw [div_le_div_iff₀ hac hbc] at h
  rw [div_le_div_iff₀ hab hac]
  have e : (xC - xA) * (yB - yA) - (xB - xA) * (yC - yA)
      = (xC - xB) * (yC - yA) - (xC - xA) * (yC - yB) := by ring
  linarith

theorem fStepX_fst (vA vB vC : float4) (h : 0 < vB.Y - vA.Y) :
    (fStepX vA vB vC).1 = (vB.X - vA.X) / (vB.Y - vA.Y) := by
  simp only [fStepX, if_pos h]

theorem fStepX_snd (vA vB vC : float4) (h : 0 < vC.Y - vA.Y) :
    (fStepX vA vB vC).2.1 = (vC.X - vA.X) / (vC.Y - vA.Y) := by
  simp only [fStepX, if_pos h]

theorem fStepX_thd (vA vB vC : float4) (h : 0 < vC.Y - vB.Y) :
    (fStepX vA vB vC).2.2 = (vC.X - vB.X) / (vC.Y - vB.Y) := by
  simp only [fStepX, if_pos h]

theorem rasterizePart0_facts (T : RasterTarget) (slot pBaseVertex ddx ddy : VS_Output)
    (frame : FrameBuffer) (vA vB vC : float4) (hBC : vB.Y ≤ vC.Y)
    (hA : vA.X < (T.viewport.Left : ℚ)) (hB : vB.X < (T.viewport.Left : ℚ))
    (hC : vC.X < (T.viewport.Left : ℚ)) :
    (rasterizePart0 T slot pBaseVertex ddx ddy frame vA vB (fStepX vA vB vC)).Quiet frame
      ∧ ∃ k : ℕ,
        k ≤ (min (T.viewport.Top + T.viewport.Height) ⌈vB.Y⌉
            - max T.viewport.Top ⌈vA.Y⌉).toNat
          ∧ (rasterizePart0 T slot pBaseVertex ddx ddy frame vA vB (fStepX vA vB vC)).fX1
            = vA.X
              + (if (fStepX vA vB vC).1 > (fStepX vA vB vC).2.1 then (fStepX vA vB vC).1
                  else (fStepX vA vB vC).2.1)
                * (((max T.viewport.Top ⌈vA.Y⌉ : ℤ) : ℚ) - vA.Y)
              + (if (fStepX vA vB vC).1 > (fStepX vA vB vC).2.1 then (fStepX vA vB vC).1
                  else (fStepX vA vB vC).2.1) * (k : ℚ) := by
  unfold rasterizePart0 part0Rows
  simp only
  constructor
  · apply scanlineLoop_quiet
    · intro k hk
      rw [yRange_length] at hk
      simp only
      have hy0 : ⌈vA.Y⌉ ≤ max T.viewport.Top ⌈vA.Y⌉ := le_max_right _ _
      have hy1 : min (T.viewport.Top + T.viewport.Height) ⌈vB.Y⌉ ≤ ⌈vB.Y⌉ := min_le_right _ _
      generalize max T.viewport.Top ⌈vA.Y⌉ = y0 at hk hy0 ⊢
      generalize min (T.viewport.Top + T.viewport.Height) ⌈vB.Y⌉ = y1 at hk hy1
      have h1 : y0 + (k : ℤ) < ⌈vB.Y⌉ := by omega
      have h2 : ((y0 + (k : ℤ) : ℤ) : ℚ) < vB.Y := Int.lt_ceil.mp h1
      push_cast at h2
      have h3 : vA.Y ≤ (y0 : ℚ) :=
        le_trans (Int.le_ceil vA.Y) (Int.cast_le.mpr hy0)
      have hk0 : (0 : ℚ) ≤ (k : ℚ) := Nat.cast_nonneg k
      have hab : 0 < vB.Y - vA.Y := by linarith
      have hac : 0 < vC.Y - vA.Y := by linarith
      rw [fStepX_fst _ _ _ hab, fStepX_snd _ _ _ hac]
      split_ifs
      · have := edge_lt vA.X vB.X _ (vB.Y - vA.Y) ((y0 : ℚ) - vA.Y + (k : ℚ)) hA hB hab
          (by linarith) (by linarith)
        linarith
      · have := edge_lt vA.X vC.X _ (vC.Y - vA.Y) ((y0 : ℚ) - vA.Y + (k : ℚ)) hA hC hac
          (by linarith) (by linarith)
        linarith
    · exact ⟨rfl, rfl, fun c hc => absurd hc (List.not_mem_nil _)⟩
  · obtain ⟨k, hk, he⟩ := scanlineLoop_fX1 T slot pBaseVertex ddx ddy
      (if (fStepX vA vB vC).1 > (fStepX vA vB vC).2.1 then (fStepX vA vB vC).2.1
        else (fStepX vA vB vC).1)
      (if (fStepX vA vB vC).1 > (fStepX vA vB vC).2.1 then (fStepX vA vB vC).1
        else (fStepX vA vB vC).2.1)
      (yRange (max T.viewport.Top ⌈vA.Y⌉)
        (min (T.viewport.Top + T.viewport.Height) ⌈vB.Y⌉))
      ⟨frame, [], [],
        vA.X + (if (fStepX vA vB vC).1 > (fStepX vA vB vC).2.1 then (fStepX vA vB vC).2.1
          else (fStepX vA vB vC).1) * (((max T.viewport.Top ⌈vA.Y⌉ : ℤ) : ℚ) - vA.Y),
        vA.X + (if (fStepX vA vB vC).1 > (fStepX vA vB vC).2.1 then (fStepX vA vB vC).1
          else (fStepX vA vB vC).2.1) * (((max T.viewport.Top ⌈vA.Y⌉ : ℤ) : ℚ) - vA.Y)⟩
    rw [yRange_length] at hk
    exact ⟨k, hk, he⟩

theorem rasterizeParts_quiet (T : RasterTarget) (slot pBaseVertex ddx ddy : VS_Output)
    (frame : FrameBuffer) (vA vB vC : float4) (hBC : vB.Y ≤ vC.Y)
    (hA : vA.X < (T.viewport.Left : ℚ)) (hB : vB.X < (T.viewport.Left : ℚ))
    (hC : vC.X < (T.viewport.Left : ℚ)) :
    (rasterizeParts T slot pBaseVertex ddx ddy frame vA vB vC).Quiet frame := by
  obtain ⟨hq, k0, hk0, hfx⟩ :=
    rasterizePart0_facts T slot pBaseVertex ddx ddy frame vA vB vC hBC hA hB hC
  unfold rasterizeParts part0End
  simp only
  have hy0 : ⌈vA.Y⌉ ≤ max T.viewport.Top ⌈vA.Y⌉ := le_max_right _ _
  have hy1 : min (T.viewport.Top + T.viewport.Height) ⌈vB.Y⌉ < T.viewport.Top + T.viewport.Height
      → ⌈vB.Y⌉ ≤ min (T.viewport.Top + T.viewport.Height) ⌈vB.Y⌉ := by
    intro h
    rcases le_total (T.viewport.Top + T.viewport.Height) ⌈vB.Y⌉ with c | c
    · rw [min_eq_left c] at h
      exact absurd h (lt_irrefl _)
    · rw [min_eq_right c]
  generalize rasterizePart0 T slot pBaseVertex ddx ddy frame vA vB (fStepX vA vB vC) = st1
    at hq hfx ⊢
  generalize max T.viewport.Top ⌈vA.Y⌉ = y0 at hk0 hfx hy0 ⊢
  generalize min (T.viewport.Top + T.viewport.Height) ⌈vB.Y⌉ = y1 at hk0 hy1 ⊢
  have hyb1 : y1 ≤ (if y0 < y1 then y1 else y0) := by split_ifs <;> omega
  have hyb2 : y0 + (k0 : ℤ) ≤ (if y0 < y1 then y1 else y0) := by split_ifs <;> omega
  generalize (if y0 < y1 then y1 else y0) = yb at hyb1 hyb2 ⊢
  unfold rasterizePart1 part1Rows
  simp only
  have hM : min (T.viewport.Top + T.viewport.Height) ⌈vC.Y⌉
      ≤ T.viewport.Top + T.viewport.Height := min_le_left _ _
  have hCe : min (T.viewport.Top + T.viewport.Height) ⌈vC.Y⌉ ≤ ⌈vC.Y⌉ := min_le_right _ _
  generalize min (T.viewport.Top + T.viewport.Height) ⌈vC.Y⌉ = y1b at hM hCe ⊢
  have hfacts : ∀ k : ℕ, k < (yRange yb y1b).length →
      ((yb : ℚ) + (k : ℚ) < vC.Y) ∧ vB.Y ≤ (yb : ℚ) := by
    intro k hk
    rw [yRange_length] at hk
    have h1 : yb + (k : ℤ) < ⌈vC.Y⌉ := by omega
    have h2 : ((yb + (k : ℤ) : ℤ) : ℚ) < vC.Y := Int.lt_ceil.mp h1
    push_cast at h2
    have h3 : ⌈vB.Y⌉ ≤ yb := le_trans (hy1 (by omega)) hyb1
    exact ⟨h2, le_trans (Int.le_ceil vB.Y) (Int.cast_le.mpr h3)⟩
  have hA0 : vA.Y ≤ (y0 : ℚ) := le_trans (Int.le_ceil vA.Y) (Int.cast_le.mpr hy0)
  have hyb3 : (y0 : ℚ) + (k0 : ℚ) ≤ (yb : ℚ) := by
    have := (Int.cast_le (R := ℚ)).mpr hyb2
    push_cast at this
    exact this
  split_ifs with c
  · apply scanlineLoop_quiet
    · intro k hk
      obtain ⟨h2, h3⟩ := hfacts k hk
      simp only
      have hk0 : (0 : ℚ) ≤ (k : ℚ) := Nat.cast_nonneg k
      have hbc : 0 < vC.Y - vB.Y := by linarith
      rw [fStepX_thd _ _ _ hbc]
      have := edge_lt vB.X vC.X _ (vC.Y - vB.Y) ((yb : ℚ) - vB.Y + (k : ℚ)) hB hC hbc
        (by linarith) (by linarith)
      linarith
    · exact ⟨hq.1, hq.2.1, hq.2.2⟩
  · apply scanlineLoop_quiet
    · intro k hk
      obtain ⟨h2, h3⟩ := hfacts k hk
      simp only
      rw [hfx]
      have hkk : (0 : ℚ) ≤ (k : ℚ) := Nat.cast_nonneg k
      have hkk0 : (0 : ℚ) ≤ (k0 : ℚ) := Nat.cast_nonneg k0
      have hbc : 0 < vC.Y - vB.Y := by linarith
      have hac : 0 < vC.Y - vA.Y := by linarith
      have hlong : ∀ s : ℚ, 0 ≤ s → s ≤ vC.Y - vA.Y →
          vA.X + (fStepX vA vB vC).2.1 * s < (T.viewport.Left : ℚ) := by
        intro s hs0 hs1
        rw [fStepX_snd _ _ _ hac]
        exact edge_lt vA.X vC.X _ (vC.Y - vA.Y) s hA hC hac hs0 hs1
      have hsame : (fStepX vA vB vC).1 ≤ (fStepX vA vB vC).2.1 →
          vA.X + (if (fStepX vA vB vC).1 > (fStepX vA vB vC).2.1 then (fStepX vA vB vC).1
              else (fStepX vA vB vC).2.1) * ((y0 : ℚ) - vA.Y)
            + (if (fStepX vA vB vC).1 > (fStepX vA vB vC).2.1 then (fStepX vA vB vC).1
              else (fStepX vA vB vC).2.1) * (k0 : ℚ)
            + (fStepX vA vB vC).2.1 * (k : ℚ) < (T.viewport.Left : ℚ) := by
        intro hle
        rw [if_neg (not_lt.mpr hle)]
        have := hlong ((y0 : ℚ) - vA.Y + (k0 : ℚ) + (k : ℚ)) (by linarith) (by linarith)
        linarith
      by_cases hab : 0 < vB.Y - vA.Y
      · apply hsame
        have c2 : (fStepX vA vB vC).2.1 ≤ (fStepX vA vB vC).2.2 := not_lt.mp c
        rw [fStepX_snd _ _ _ hac, fStepX_thd _ _ _ hbc] at c2
        rw [fStepX_fst _ _ _ hab, fStepX_snd _ _ _ hac]
        exact slope_order _ _ _ _ _ _ hab hbc c2
      · have e0 : (fStepX vA vB vC).1 = 0 := by simp only [fStepX, if_neg hab]
        by_cases hneg : (fStepX vA vB vC).2.1 < 0
        · rw [e0, if_pos hneg]
          have : (fStepX vA vB vC).2.1 * (k : ℚ) ≤ 0 :=
            mul_nonpos_of_nonpos_of_nonneg hneg.le hkk
          linarith
        · apply hsame
          rw [e0]
          exact not_lt.mp hneg
    · exact ⟨hq.1, hq.2.1, hq.2.2⟩

theorem sortByY_facts (P : float4 → Prop) (p0 p1 p2 : float4) (h0 : P p0) (h1 : P p1)
    (h2 : P p2) :
    (sortByY p0 p1 p2).2.1.Y ≤ (sortByY p0 p1 p2).2.2.Y
      ∧ P (sortByY p0 p1 p2).1 ∧ P (sortByY p0 p1 p2).2.1 ∧ P (sortByY p0 p1 p2).2.2 := by
  unfold sortByY
  by_cases c1 : p1.Y < p0.Y
  · simp only [if_pos c1]
    by_cases c2 : p2.Y < p1.Y
    · simp only [if_pos c2, if_pos c1]
      exact ⟨c1.le, h2, h1, h0⟩
    · simp only [if_neg c2]
      by_cases c3 : p2.Y < p0.Y
      · simp only [if_pos c3]
        exact ⟨c3.le, h1, h2, h0⟩
      · simp only [if_neg c3]
        exact ⟨not_lt.mp c3, h1, h0, h2⟩
  · simp only [if_neg c1]
    by_cases c2 : p2.Y < p0.Y
    · simp only [if_pos c2]
      by_cases c4 : p0.Y < p1.Y
      · simp only [if_pos c4]
        exact ⟨c4.le, h2, h0, h1⟩
      · simp only [if_neg c4]
        exact ⟨not_lt.mp c4, h2, h1, h0⟩
    · simp only [if_neg c2]
      by_cases c3 : p2.Y < p1.Y
      · simp only [if_pos c3]
        exact ⟨c3.le, h0, h2, h1⟩
      · simp only [if_neg c3]
        exact ⟨not_lt.mp c3, h0, h1, h2⟩

theorem ScanlineCall.visits_empty (numAttri : Nat) (pDdx : VS_Output) (c : ScanlineCall)
    (h : c.xEnd ≤ c.xStart) : c.visits numAttri pDdx = [] := by
  have h0 : (c.xEnd - c.xStart).toNat = 0 := by omega
  simp [ScanlineCall.visits, h0, scanVisits]

theorem flatten_map_nil {α β : Type} (f : α → List β) :
    ∀ l : List α, (∀ a ∈ l, f a = []) → (l.map f).flatten = [] := by
  intro l
  induction l with
  | nil => intro _; rfl
  | cons a rest ih =>
    intro h
    simp only [List.map_cons, List.flatten_cons, h a (List.mem_cons_self _ _),
      List.nil_append]
    exact ih (fun b hb => h b (List.mem_cons_of_mem _ hb))

/-- C21 (amended): in exact arithmetic (edge slopes and edge positions computed without
rounding, conversions to integer without overflow), for every triangle whose three
screen-space x coordinates are all less than the viewport's left edge, `RasterizeTriangle`
hands no pixel to the pixel pipeline: the pixel loop body is never entered (no frame-buffer
read, no pixel-shader call), no `WritePixel` call is made and the frame buffer is left as it
was. -/
theorem RasterizeTriangle_left_of_viewport (T : RasterTarget) (locals : TriangleLocals)
    (frame : FrameBuffer) (v0 v1 v2 : VS_Output)
    (h0 : v0.Position.X < (T.viewport.Left : ℚ)) (h1 : v1.Position.X < (T.viewport.Left : ℚ))
    (h2 : v2.Position.X < (T.viewport.Left : ℚ)) :
    RasterizeTriangle.visits T locals frame v0 v1 v2 = []
      ∧ (RasterizeTriangle T locals frame v0 v1 v2).writes = []
      ∧ (RasterizeTriangle T locals frame v0 v1 v2).frame = frame := by
  obtain ⟨hs, hA, hB, hC⟩ := sortByY_facts (fun p => p.X < (T.viewport.Left : ℚ))
    v0.Position v1.Position v2.Position h0 h1 h2
  obtain ⟨hf, hw, hc⟩ := rasterizeParts_quiet T locals.VSOutput v0
    (triangleGradients T.numAttri locals v0 v1 v2).1
    (triangleGradients T.numAttri locals v0 v1 v2).2 frame _ _ _ hs hA hB hC
  refine ⟨?_, hw, hf⟩
  unfold RasterizeTriangle.visits
  exact flatten_map_nil _ _ (fun c hcm => ScanlineCall.visits_empty _ _ c (hc c hcm))

/-- Witness of `RasterizeTriangle_left_of_viewport`: the triangle (0, 0), (4, 1), (2, 5) and
a viewport whose left edge is at x = 5. -/
theorem RasterizeTriangle_left_of_viewport_witness :
    RasterizeTriangle.visits (sceneTarget 5) zeroLocals (uniformFrame 1)
        ⟨⟨0, 0, 0, 1⟩, []⟩ ⟨⟨4, 1, 0, 1⟩, []⟩ ⟨⟨2, 5, 0, 1⟩, []⟩ = []
      ∧ (RasterizeTriangle (sceneTarget 5) zeroLocals (uniformFrame 1)
        ⟨⟨0, 0, 0, 1⟩, []⟩ ⟨⟨4, 1, 0, 1⟩, []⟩ ⟨⟨2, 5, 0, 1⟩, []⟩).writes = []
      ∧ (RasterizeTriangle (sceneTarget 5) zeroLocals (uniformFrame 1)
        ⟨⟨0, 0, 0, 1⟩, []⟩ ⟨⟨4, 1, 0, 1⟩, []⟩ ⟨⟨2, 5, 0, 1⟩, []⟩).frame = uniformFrame 1 :=
  RasterizeTriangle_left_of_viewport (sceneTarget 5) zeroLocals (uniformFrame 1)
    ⟨⟨0, 0, 0, 1⟩, []⟩ ⟨⟨4, 1, 0, 1⟩, []⟩ ⟨⟨2, 5, 0, 1⟩, []⟩ (by decide!) (by decide!)
    (by decide!)

/-! ## Sorting, skipped scanlines and the perspective round trip: proofs -/

theorem sortByY_sorted_perm (p0 p1 p2 : float4) :
    ∃ a b c : float4, sortByY p0 p1 p2 = (a, b, c) ∧ List.Perm [a, b, c] [p0, p1, p2]
      ∧ a.Y ≤ b.Y ∧ b.Y ≤ c.Y := by
  unfold sortByY
  by_cases c1 : p1.Y < p0.Y
  · simp only [if_pos c1]
    by_cases c2 : p2.Y < p1.Y
    · simp only [if_pos c2, if_pos c1]
      exact ⟨p2, p1, p0, rfl,
        (List.Perm.swap p1 p2 [p0]).trans
          ((List.Perm.cons p1 (List.Perm.swap p0 p2 [])).trans (List.Perm.swap p0 p1 [p2])),
        c2.le, c1.le⟩
    · simp only [if_neg c2]
      by_cases c3 : p2.Y < p0.Y
      · simp only [if_pos c3]
        exact ⟨p1, p2, p0, rfl,
          (List.Perm.cons p1 (List.Perm.swap p0 p2 [])).trans (List.Perm.swap p0 p1 [p2]),
          not_lt.mp c2, c3.le⟩
      · simp only [if_neg c3]
        exact ⟨p1, p0, p2, rfl, List.Perm.swap p0 p1 [p2], c1.le, not_lt.mp c3⟩
  · simp only [if_neg c1]
    by_cases c2 : p2.Y < p0.Y
    · simp only [if_pos c2]
      by_cases c4 : p0.Y < p1.Y
      · simp only [if_pos c4]
        exact ⟨p2, p0, p1, rfl,
          (List.Perm.swap p0 p2 [p1]).trans (List.Perm.cons p0 (List.Perm.swap p1 p2 [])),
          c2.le, c4.le⟩
      · simp only [if_neg c4]
        exact ⟨p2, p1, p0, rfl,
          (List.Perm.swap p1 p2 [p0]).trans
            ((List.Perm.cons p1 (List.Perm.swap p0 p2 [])).trans (List.Perm.swap p0 p1 [p2])),
          by linarith [not_lt.mp c1, not_lt.mp c4], not_lt.mp c4⟩
    · simp only [if_neg c2]
      by_cases c3 : p2.Y < p1.Y
      · simp only [if_pos c3]
        exact ⟨p0, p2, p1, rfl, List.Perm.cons p0 (List.Perm.swap p1 p2 []),
          not_lt.mp c2, c3.le⟩
      · simp only [if_neg c3]
        exact ⟨p0, p1, p2, rfl, List.Perm.refl _, not_lt.mp c1, not_lt.mp c3⟩

/-- C33: for every three input vertices, the three conditional swaps of `RasterizeTriangle`
leave a permutation `vA, vB, vC` of the three positions with `vA.y <= vB.y <= vC.y`; each
slope of `fStepX` is then either the quotient by a strictly positive divisor
(`vB.y - vA.y`, `vC.y - vA.y`, `vC.y - vB.y`), or the divisor is 0 and the slope is the
constant 0, with no division made. -/
theorem sorted_vertices_positive_divisors (p0 p1 p2 : float4) :
    ∃ vA vB vC : float4, sortByY p0 p1 p2 = (vA, vB, vC)
      ∧ List.Perm [vA, vB, vC] [p0, p1, p2]
      ∧ vA.Y ≤ vB.Y ∧ vB.Y ≤ vC.Y
      ∧ ((0 < vB.Y - vA.Y ∧ (fStepX vA vB vC).1 = (vB.X - vA.X) / (vB.Y - vA.Y))
        ∨ (vB.Y - vA.Y = 0 ∧ (fStepX vA vB vC).1 = 0))
      ∧ ((0 < vC.Y - vA.Y ∧ (fStepX vA vB vC).2.1 = (vC.X - vA.X) / (vC.Y - vA.Y))
        ∨ (vC.Y - vA.Y = 0 ∧ (fStepX vA vB vC).2.1 = 0))
      ∧ ((0 < vC.Y - vB.Y ∧ (fStepX vA vB vC).2.2 = (vC.X - vB.X) / (vC.Y - vB.Y))
        ∨ (vC.Y - vB.Y = 0 ∧ (fStepX vA vB vC).2.2 = 0)) := by
  obtain ⟨vA, vB, vC, hs, hp, hAB, hBC⟩ := sortByY_sorted_perm p0 p1 p2
  refine ⟨vA, vB, vC, hs, hp, hAB, hBC, ?_, ?_, ?_⟩
  · by_cases h : 0 < vB.Y - vA.Y
    · exact Or.inl ⟨h, fStepX_fst _ _ _ h⟩
    · exact Or.inr ⟨by linarith, by simp only [fStepX, if_neg h]⟩
  · by_cases h : 0 < vC.Y - vA.Y
    · exact Or.inl ⟨h, fStepX_snd _ _ _ h⟩
    · exact Or.inr ⟨by linarith, by simp only [fStepX, if_neg h]⟩
  · by_cases h : 0 < vC.Y - vB.Y
    · exact Or.inl ⟨h, fStepX_thd _ _ _ h⟩
    · exact Or.inr ⟨by linarith, by simp only [fStepX, if_neg h]⟩

/-- C31 (evaluation at the failing input): the triangle (0, 0), (4, 4), (0, 8). In a viewport
with left edge 0 every scanline Y = 0..7 gets its span, [0, 3) on Y = 3. In a viewport with
left edge 2 the scanline Y = 0 is skipped (its span [0, 0) lies left of the viewport) and
the edge positions stay where they were: all of Y = 0..3 is skipped, and the scanline Y = 3,
whose span is [2, 3) after clamping, is never handed to `RasterizeScanline`. -/
theorem skipped_scanline_leaves_edges_unstepped :
    (RasterizeTriangle (sceneTarget 0) zeroLocals (uniformFrame 1)
        ⟨⟨0, 0, 0, 1⟩, []⟩ ⟨⟨4, 4, 0, 1⟩, []⟩ ⟨⟨0, 8, 0, 1⟩, []⟩).calls.map
        (fun c => (c.xStart, c.xEnd, c.Y))
      = [(0, 0, 0), (0, 1, 1), (0, 2, 2), (0, 3, 3), (0, 4, 4), (0, 3, 5), (0, 2, 6),
          (0, 1, 7)]
      ∧ (RasterizeTriangle (sceneTarget 2) zeroLocals (uniformFrame 1)
        ⟨⟨0, 0, 0, 1⟩, []⟩ ⟨⟨4, 4, 0, 1⟩, []⟩ ⟨⟨0, 8, 0, 1⟩, []⟩).calls.map
        (fun c => (c.xStart, c.xEnd, c.Y))
      = [(2, 4, 4), (2, 3, 5), (2, 2, 6)]
      ∧ (scanlineBody (sceneTarget 2) zeroLocals.VSOutput ⟨⟨0, 0, 0, 1⟩, []⟩
          ⟨⟨0, 0, 0, 0⟩, []⟩ ⟨⟨0, 0, 0, 0⟩, []⟩ 0 1 0 ⟨uniformFrame 1, [], [], 0, 0⟩).fX1
        = 0 := by
  decide!

/-- C35: for every vertex with `w >= epsilon`, `ProjectVertex` stores `1/w` in the w slot and
`a_i / w` in each of the first `N` attributes, and the correction of `RasterizeScanline` at
that vertex, `VS_Output_Mul` by the reciprocal of the stored w slot, gives back exactly
`a_i` (exact arithmetic; the attribute arrays hold at least `N` entries). -/
theorem projection_round_trip (R : Rasterizer) (vertex PSInput : VS_Output)
    (hw : epsilon ≤ vertex.Position.W)
    (hN : R.mCurrVSOutputCount ≤ vertex.ShaderOutputs.length)
    (hslot : R.mCurrVSOutputCount ≤ PSInput.ShaderOutputs.length) :
    (ProjectVertex R vertex).Position.W = 1 / vertex.Position.W
      ∧ ∀ i, i < R.mCurrVSOutputCount →
        (ProjectVertex R vertex).ShaderOutputs.getD i 0
            = vertex.ShaderOutputs.getD i 0 / vertex.Position.W
          ∧ (VS_Output_Mul PSInput (ProjectVertex R vertex)
              (1 / (ProjectVertex R vertex).Position.W)
              R.mCurrVSOutputCount).ShaderOutputs.getD i 0
            = vertex.ShaderOutputs.getD i 0 := by
  have hnot : ¬ vertex.Position.W < epsilon := not_lt.mpr hw
  have hpos : 0 < vertex.Position.W := lt_of_lt_of_le (by decide! : (0 : ℚ) < epsilon) hw
  have hW : (ProjectVertex R vertex).Position.W = 1 / vertex.Position.W := by
    unfold ProjectVertex
    rw [if_neg hnot]
    rfl
  have hattr : ∀ i, i < R.mCurrVSOutputCount →
      (ProjectVertex R vertex).ShaderOutputs.getD i 0
        = vertex.ShaderOutputs.getD i 0 * (1 / vertex.Position.W) := by
    intro i hi
    unfold ProjectVertex
    rw [if_neg hnot]
    simp only [VS_Output_ProjectAttrib]
    exact attribLoop_scale_getD_lt _ _ _ i hi (by omega)
  refine ⟨hW, fun i hi => ⟨?_, ?_⟩⟩
  · rw [hattr i hi]
    ring
  · simp only [VS_Output_Mul]
    rw [attribLoop_getD_const _ _ _ _ hi hslot, hattr i hi, hW]
    field_simp

/-- Witness of `projection_round_trip`: a vertex with w = 2 and the attribute 8: stored are
1/2 and 4, and the correction gives 8 again. -/
theorem projection_round_trip_witness :
    (ProjectVertex { sceneRasterizer with mCurrVSOutputCount := 1 }
        ⟨⟨4, 6, 1, 2⟩, [8, 9]⟩).Position.W
        = 1 / (⟨⟨4, 6, 1, 2⟩, [8, 9]⟩ : VS_Output).Position.W
      ∧ (VS_Output_Mul ⟨⟨0, 0, 0, 0⟩, [0]⟩
          (ProjectVertex { sceneRasterizer with mCurrVSOutputCount := 1 }
            ⟨⟨4, 6, 1, 2⟩, [8, 9]⟩)
          (1 / (ProjectVertex { sceneRasterizer with mCurrVSOutputCount := 1 }
            ⟨⟨4, 6, 1, 2⟩, [8, 9]⟩).Position.W) 1).ShaderOutputs.getD 0 0
        = (⟨⟨4, 6, 1, 2⟩, [8, 9]⟩ : VS_Output).ShaderOutputs.getD 0 0 := by
  have h := projection_round_trip { sceneRasterizer with mCurrVSOutputCount := 1 }
    ⟨⟨4, 6, 1, 2⟩, [8, 9]⟩ ⟨⟨0, 0, 0, 0⟩, [0]⟩ (by decide!) (by decide) (by decide)
  exact ⟨h.1, (h.2 0 (by decide)).2⟩

/-! ## Rows and pixels of the walk: proofs -/

theorem mem_yRange (lo hi Y : Int) : Y ∈ yRange lo hi ↔ lo ≤ Y ∧ Y < hi := by
  simp only [yRange, List.mem_map, List.mem_range]
  constructor
  · rintro ⟨k, hk, rfl⟩
    omega
  · rintro ⟨h1, h2⟩
    exact ⟨(Y - lo).toNat, by omega, by omega⟩

theorem yRange_pairwise (lo hi : Int) : (yRange lo hi).Pairwise (fun a b => a < b) := by
  unfold yRange
  rw [List.pairwise_map]
  exact (List.pairwise_lt_range _).imp (fun h => by omega)

theorem yRange_nil (lo hi : Int) (h : hi ≤ lo) : yRange lo hi = [] := by
  have h0 : (hi - lo).toNat = 0 := by omega
  simp [yRange, h0]

theorem yRange_append (lo mid hi : Int) (h1 : lo ≤ mid) (h2 : mid ≤ hi) :
    yRange lo mid ++ yRange mid hi = yRange lo hi := by
  have e : (hi - lo).toNat = (mid - lo).toNat + (hi - mid).toNat := by omega
  unfold yRange
  rw [e, List.range_add, List.map_append, List.map_map]
  congr 1
  apply List.map_congr_left
  intro k _
  simp only [Function.comp]
  push_cast
  omega

theorem scanBody_writes_mem (numAttri : Nat) (ds : DepthStencilState)
    (shader : PixelShaderStage) (Y X : Int) (st : ScanState) :
    ∀ w ∈ (scanBody numAttri ds shader Y X st).writes,
      w ∈ st.writes ∨ (w.X = X ∧ w.Y = Y) := by
  intro w hw
  unfold scanBody at hw
  simp only at hw
  split at hw
  · exact Or.inl hw
  · split_ifs at hw <;>
      first
      | exact Or.inl hw
      | (rcases List.mem_append.mp hw with h | h
         · exact Or.inl h
         · rw [List.mem_singleton.mp h]
           exact Or.inr ⟨rfl, rfl⟩)

theorem scanLoop_writes_mem (numAttri : Nat) (ds : DepthStencilState)
    (shader : PixelShaderStage) (Y : Int) (pDdx : VS_Output) :
    ∀ (xs : List Int) (st : ScanState),
      ∀ w ∈ (scanLoop numAttri ds shader Y pDdx xs st).writes,
        w ∈ st.writes ∨ (w.X ∈ xs ∧ w.Y = Y) := by
  intro xs
  induction xs with
  | nil => intro st w hw; exact Or.inl hw
  | cons X rest ih =>
    intro st w hw
    simp only [scanLoop] at hw
    rcases ih _ w hw with h | ⟨h1, h2⟩
    · rcases scanBody_writes_mem numAttri ds shader Y X st w h with h' | ⟨h1, h2⟩
      · exact Or.inl h'
      · exact Or.inr ⟨by rw [h1]; exact List.mem_cons_self _ _, h2⟩
    · exact Or.inr ⟨List.mem_cons_of_mem _ h1, h2⟩

theorem RasterizeScanline_writes_mem (numAttri : Nat) (ds : DepthStencilState)
    (shader : PixelShaderStage) (frame : FrameBuffer) (xStart xEnd Y : Int)
    (v pDdx : VS_Output) :
    ∀ w ∈ (RasterizeScanline numAttri ds shader frame xStart xEnd Y v pDdx).writes,
      xStart ≤ w.X ∧ w.X < xEnd ∧ w.Y = Y := by
  intro w hw
  unfold RasterizeScanline at hw
  rcases scanLoop_writes_mem numAttri ds shader Y pDdx _ _ w hw with h | ⟨h1, h2⟩
  · exact absurd h (List.not_mem_nil _)
  · simp only [List.mem_map, List.mem_range] at h1
    obtain ⟨k, hk, e⟩ := h1
    exact ⟨by omega, by omega, h2⟩

theorem scanVisits_mem (numAttri : Nat) (Y : Int) (pDdx : VS_Output) :
    ∀ (xs : List Int) (v : VS_Output), ∀ p ∈ scanVisits numAttri Y pDdx xs v,
      p.X ∈ xs ∧ p.Y = Y := by
  intro xs
  induction xs with
  | nil => intro v p hp; exact absurd hp (List.not_mem_nil _)
  | cons X rest ih =>
    intro v p hp
    simp only [scanVisits, List.mem_cons] at hp
    rcases hp with rfl | hp
    · exact ⟨List.mem_cons_self _ _, rfl⟩
    · exact ⟨List.mem_cons_of_mem _ (ih _ p hp).1, (ih _ p hp).2⟩

theorem ScanlineCall.visits_mem (numAttri : Nat) (pDdx : VS_Output) (c : ScanlineCall) :
    ∀ p ∈ c.visits numAttri pDdx, c.xStart ≤ p.X ∧ p.X < c.xEnd ∧ p.Y = c.Y := by
  intro p hp
  unfold ScanlineCall.visits at hp
  obtain ⟨h1, h2⟩ := scanVisits_mem numAttri c.Y pDdx _ _ p hp
  simp only [List.mem_map, List.mem_range] at h1
  obtain ⟨k, hk, e⟩ := h1
  exact ⟨by omega, by omega, h2⟩

theorem scanlineEmit_inside (T : RasterTarget) (pDdx VSOutput : VS_Output) (d0 d1 : ℚ)
    (Y iX0 iX1 : Int) (st : TriangleState) (h0 : T.viewport.Left ≤ iX0)
    (hY : T.viewport.Top ≤ Y ∧ Y < T.viewport.Top + T.viewport.Height)
    (hin : st.Inside T.viewport) :
    (scanlineEmit T pDdx VSOutput d0 d1 Y iX0 iX1 st).Inside T.viewport := by
  obtain ⟨hc, hw⟩ := hin
  unfold scanlineEmit
  simp only
  split_ifs with c1 c2
  · exact ⟨hc, hw⟩
  · constructor
    · intro c hcm
      rcases List.mem_append.mp hcm with hcm | hcm
      · exact hc c hcm
      · rw [List.mem_singleton.mp hcm]
        exact ⟨h0, le_rfl, hY.1, hY.2⟩
    · intro w hwm
      rcases List.mem_append.mp hwm with hwm | hwm
      · exact hw w hwm
      · obtain ⟨a, b, e⟩ := RasterizeScanline_writes_mem _ _ _ _ _ _ _ _ _ w hwm
        exact ⟨by omega, b, by rw [e]; exact hY.1, by rw [e]; exact hY.2⟩
  · constructor
    · intro c hcm
      rcases List.mem_append.mp hcm with hcm | hcm
      · exact hc c hcm
      · rw [List.mem_singleton.mp hcm]
        exact ⟨h0, not_lt.mp c2, hY.1, hY.2⟩
    · intro w hwm
      rcases List.mem_append.mp hwm with hwm | hwm
      · exact hw w hwm
      · obtain ⟨a, b, e⟩ := RasterizeScanline_writes_mem _ _ _ _ _ _ _ _ _ w hwm
        exact ⟨by omega, by omega, by rw [e]; exact hY.1, by rw [e]; exact hY.2⟩

theorem scanlineBody_inside (T : RasterTarget) (slot pBaseVertex ddx ddy : VS_Output)
    (d0 d1 : ℚ) (Y : Int) (st : TriangleState)
    (hY : T.viewport.Top ≤ Y ∧ Y < T.viewport.Top + T.viewport.Height)
    (hin : st.Inside T.viewport) :
    (scanlineBody T slot pBaseVertex ddx ddy d0 d1 Y st).Inside T.viewport := by
  unfold scanlineBody
  simp only
  split_ifs with c1 c2
  · exact hin
  · exact scanlineEmit_inside T _ _ _ _ _ _ _ st le_rfl hY hin
  · exact scanlineEmit_inside T _ _ _ _ _ _ _ st (not_lt.mp c1) hY hin

theorem scanlineLoop_inside (T : RasterTarget) (slot pBaseVertex ddx ddy : VS_Output)
    (d0 d1 : ℚ) :
    ∀ (ys : List Int) (st : TriangleState),
      (∀ Y ∈ ys, T.viewport.Top ≤ Y ∧ Y < T.viewport.Top + T.viewport.Height) →
      st.Inside T.viewport →
      (scanlineLoop T slot pBaseVertex ddx ddy d0 d1 ys st).Inside T.viewport := by
  intro ys
  induction ys with
  | nil => intro st _ hin; exact hin
  | cons Y rest ih =>
    intro st hys hin
    simp only [scanlineLoop]
    exact ih _ (fun Z hZ => hys Z (List.mem_cons_of_mem _ hZ))
      (scanlineBody_inside T slot pBaseVertex ddx ddy d0 d1 Y st
        (hys Y (List.mem_cons_self _ _)) hin)

theorem rasterizeParts_inside (T : RasterTarget) (slot pBaseVertex ddx ddy : VS_Output)
    (frame : FrameBuffer) (vA vB vC : float4) :
    (rasterizeParts T slot pBaseVertex ddx ddy frame vA vB vC).Inside T.viewport := by
  have h0 : (rasterizePart0 T slot pBaseVertex ddx ddy frame vA vB
      (fStepX vA vB vC)).Inside T.viewport := by
    unfold rasterizePart0
    simp only
    apply scanlineLoop_inside
    · intro Y hY
      unfold part0Rows at hY
      rw [mem_yRange] at hY
      exact ⟨le_trans (le_max_left _ _) hY.1, lt_of_lt_of_le hY.2 (min_le_left _ _)⟩
    · exact ⟨fun c hc => absurd hc (List.not_mem_nil _),
        fun w hw => absurd hw (List.not_mem_nil _)⟩
  have hrows : ∀ Y ∈ part1Rows T vC (part0End T vA vB),
      T.viewport.Top ≤ Y ∧ Y < T.viewport.Top + T.viewport.Height := by
    intro Y hY
    unfold part1Rows at hY
    rw [mem_yRange] at hY
    have h1 : max T.viewport.Top ⌈vA.Y⌉ ≤ part0End T vA vB := by
      unfold part0End
      split_ifs with c
      · exact c.le
      · exact le_rfl
    exact ⟨le_trans (le_trans (le_max_left _ _) h1) hY.1,
      lt_of_lt_of_le hY.2 (min_le_left _ _)⟩
  unfold rasterizeParts rasterizePart1
  simp only
  split_ifs
  · exact scanlineLoop_inside T slot pBaseVertex ddx ddy _ _ _ _ hrows ⟨h0.1, h0.2⟩
  · exact scanlineLoop_inside T slot pBaseVertex ddx ddy _ _ _ _ hrows ⟨h0.1, h0.2⟩

/-- C34: for every triangle, every pixel for which the pixel loop of `RasterizeScanline`
runs its body during `RasterizeTriangle` (where it reads the frame buffer) and every pixel
of a `WritePixel` call lies in the viewport rectangle: `Left <= X < Left + Width` and
`Top <= Y < Top + Height`. -/
theorem RasterizeTriangle_stays_in_viewport (T : RasterTarget) (locals : TriangleLocals)
    (frame : FrameBuffer) (v0 v1 v2 : VS_Output) :
    (∀ p ∈ RasterizeTriangle.visits T locals frame v0 v1 v2,
        T.viewport.Left ≤ p.X ∧ p.X < T.viewport.Left + T.viewport.Width
          ∧ T.viewport.Top ≤ p.Y ∧ p.Y < T.viewport.Top + T.viewport.Height)
      ∧ ∀ w ∈ (RasterizeTriangle T locals frame v0 v1 v2).writes,
        T.viewport.Left ≤ w.X ∧ w.X < T.viewport.Left + T.viewport.Width
          ∧ T.viewport.Top ≤ w.Y ∧ w.Y < T.viewport.Top + T.viewport.Height := by
  obtain ⟨hc, hw⟩ := rasterizeParts_inside T locals.VSOutput v0
    (triangleGradients T.numAttri locals v0 v1 v2).1
    (triangleGradients T.numAttri locals v0 v1 v2).2 frame
    (sortByY v0.Position v1.Position v2.Position).1
    (sortByY v0.Position v1.Position v2.Position).2.1
    (sortByY v0.Position v1.Position v2.Position).2.2
  refine ⟨?_, hw⟩
  intro p hp
  unfold RasterizeTriangle.visits at hp
  simp only [List.mem_flatten, List.mem_map] at hp
  obtain ⟨l, ⟨c, hcm, rfl⟩, hpl⟩ := hp
  obtain ⟨a, b, e⟩ := ScanlineCall.visits_mem _ _ c p hpl
  obtain ⟨c1, c2, c3, c4⟩ := hc c hcm
  exact ⟨by omega, by omega, by rw [e]; exact c3, by rw [e]; exact c4⟩


/-! ## Blinn half-vector sampling: proofs -/

/-- C39 (evaluation at the failing input, and in general): whatever the math library, the
exponent, `wo` and the sample, the store to `*pdf` that `Blinn::Sample_f` makes last is
`blinPdf`, also when `Dot(wo, wh) <= 0`. For the exponent 0, `wo = (-1, 0, 1/10)` and the
sample (3/5, 0) the half-vector is (4/5, 0, 3/5) with `Dot(wo, wh) = -37/50`, the stores are
0 and then `blinPdf`, and `*pdf` ends non-zero, where `Blinn::Pdf` gives 0. -/
theorem Sample_f_overwrites_zero_pdf :
    (∀ (M : SamplingMath) (mExponent : ℚ) (wo : float3) (u1 u2 before : ℚ),
        (Blinn.Sample_f M mExponent wo u1 u2).pdf before
          = Blinn.blinPdf M mExponent wo (Blinn.halfVector M mExponent wo u1 u2))
      ∧ Blinn.halfVector sceneMath 0 ⟨-1, 0, 1 / 10⟩ (3 / 5) 0 = ⟨4 / 5, 0, 3 / 5⟩
      ∧ Dot3 ⟨-1, 0, 1 / 10⟩ (Blinn.halfVector sceneMath 0 ⟨-1, 0, 1 / 10⟩ (3 / 5) 0)
        = -37 / 50
      ∧ (Blinn.Sample_f sceneMath 0 ⟨-1, 0, 1 / 10⟩ (3 / 5) 0).pdfWrites
        = [0, Blinn.blinPdf sceneMath 0 ⟨-1, 0, 1 / 10⟩ ⟨4 / 5, 0, 3 / 5⟩]
      ∧ (Blinn.Sample_f sceneMath 0 ⟨-1, 0, 1 / 10⟩ (3 / 5) 0).pdf 0 ≠ 0
      ∧ Blinn.Pdf sceneMath 0 ⟨-1, 0, 1 / 10⟩ ⟨4 / 5, 0, 3 / 5⟩ = 0 := by
  refine ⟨?_, by decide!, by decide!, by decide!, by decide!, by decide!⟩
  intro M mExponent wo u1 u2 before
  simp [SampleResult.pdf, Blinn.Sample_f]

/-! ## LRU cache: proofs -/

theorem dedup_concat (h : List Nat) (k : Nat) :
    (h ++ [k]).dedup = h.dedup.erase k ++ [k] := by
  induction h with
  | nil => simp
  | cons x h ih =>
    by_cases hx : x ∈ h
    · have hx2 : x ∈ h ++ [k] := List.mem_append_left _ hx
      rw [List.cons_append, List.dedup_cons_of_mem hx2, List.dedup_cons_of_mem hx, ih]
    · by_cases hk : x = k
      · subst hk
        have hx2 : x ∈ h ++ [x] := List.mem_append_right _ (List.mem_singleton_self _)
        have hd : x ∉ h.dedup := fun hm => hx (List.mem_dedup.mp hm)
        rw [List.cons_append, List.dedup_cons_of_mem hx2, List.dedup_cons_of_not_mem hx, ih,
          List.erase_cons_head, List.erase_of_not_mem hd]
      · have hx2 : x ∉ h ++ [k] := by
          simp only [List.mem_append, List.mem_singleton, not_or]
          exact ⟨hx, hk⟩
        rw [List.cons_append, List.dedup_cons_of_not_mem hx2, List.dedup_cons_of_not_mem hx, ih,
          List.erase_cons_tail (by simpa using hk), List.cons_append]

theorem drop_append_last (A T : List Nat) (C : Nat) (h1 : T.length ≤ C)
    (h2 : T.length = C ∨ A = []) :
    (A ++ T).drop ((A ++ T).length - C) = T := by
  rcases h2 with h2 | h2
  · have e : (A ++ T).length - C = A.length := by
      rw [List.length_append]; omega
    rw [e, List.drop_left]
  · subst h2
    have e : ([] ++ T).length - C = 0 := by
      rw [List.nil_append]; omega
    rw [e]
    rfl

theorem recentKeys_split (C : Nat) (h : List Nat) :
    ∃ A : List Nat, h.dedup = A ++ recentKeys C h
      ∧ (recentKeys C h).length ≤ C
      ∧ ((recentKeys C h).length = C ∨ A = []) := by
  refine ⟨h.dedup.take (h.dedup.length - C), (List.take_append_drop _ _).symm, ?_, ?_⟩
  · simp only [recentKeys, List.length_drop]
    omega
  · simp only [recentKeys, List.length_drop]
    by_cases c : C ≤ h.dedup.length
    · left; omega
    · right
      have e : h.dedup.length - C = 0 := by omega
      rw [e, List.take_zero]

theorem recentKeys_hit (C : Nat) (h : List Nat) (k : Nat) (hk : k ∈ recentKeys C h) :
    recentKeys C (h ++ [k]) = (recentKeys C h).erase k ++ [k] := by
  obtain ⟨A, hA, hlen, hfull⟩ := recentKeys_split C h
  have hnd : (A ++ recentKeys C h).Nodup := hA ▸ List.nodup_dedup h
  have hkA : k ∉ A := fun hm => (List.disjoint_of_nodup_append hnd) hm hk
  have hpos : 0 < (recentKeys C h).length := List.length_pos_of_mem hk
  have e1 : (h ++ [k]).dedup = A ++ ((recentKeys C h).erase k ++ [k]) := by
    rw [dedup_concat, hA, List.erase_append_right _ hkA, List.append_assoc]
  have hl : ((recentKeys C h).erase k ++ [k]).length = (recentKeys C h).length := by
    rw [List.length_append, List.length_erase_of_mem hk, List.length_singleton]
    omega
  show (h ++ [k]).dedup.drop ((h ++ [k]).dedup.length - C) = _
  rw [e1]
  exact drop_append_last A _ C (by omega) (by rw [hl]; exact hfull)

theorem recentKeys_miss (C : Nat) (hC : 1 ≤ C) (h : List Nat) (k : Nat)
    (hk : k ∉ recentKeys C h) :
    recentKeys C (h ++ [k])
      = (if (recentKeys C h).length = C then (recentKeys C h).tail else recentKeys C h)
        ++ [k] := by
  obtain ⟨A, hA, hlen, hfull⟩ := recentKeys_split C h
  have e1 : (h ++ [k]).dedup = A.erase k ++ (recentKeys C h ++ [k]) := by
    rw [dedup_concat, hA]
    by_cases hkA : k ∈ A
    · rw [List.erase_append_left _ hkA, List.append_assoc]
    · rw [List.erase_append_right _ hkA, List.erase_of_not_mem hk, List.erase_of_not_mem hkA,
        List.append_assoc]
  show (h ++ [k]).dedup.drop ((h ++ [k]).dedup.length - C) = _
  rw [e1]
  split_ifs with c
  · cases hT : recentKeys C h with
    | nil => rw [hT] at c; simp at c; omega
    | cons t T =>
      rw [hT] at c
      simp only [List.length_cons] at c
      have e2 : A.erase k ++ (t :: T ++ [k]) = (A.erase k ++ [t]) ++ (T ++ [k]) := by simp
      rw [List.tail_cons, e2]
      exact drop_append_last _ _ C (by simp; omega) (Or.inl (by simp; omega))
  · have hA0 : A = [] := by
      rcases hfull with hf | hf
      · exact absurd hf c
      · exact hf
    subst hA0
    rw [List.erase_nil, List.nil_append]
    have e3 : (recentKeys C h ++ [k]).length - C = 0 := by
      rw [List.length_append, List.length_singleton]; omega
    rw [e3]
    rfl



theorem split_at_takeWhile (k : Nat) : ∀ r : List Nat, k ∈ r →
    ∃ rest, r = r.takeWhile (fun x => decide (x ≠ k)) ++ k :: rest := by
  intro r
  induction r with
  | nil => intro h; exact absurd h (List.not_mem_nil _)
  | cons x r ih =>
    intro h
    by_cases hx : x = k
    · subst hx
      exact ⟨r, by simp [List.takeWhile]⟩
    · have hk : k ∈ r := by
        rcases List.mem_cons.mp h with e | e
        · exact absurd e.symm hx
        · exact e
      obtain ⟨rest, hr⟩ := ih hk
      refine ⟨rest, ?_⟩
      have e : List.takeWhile (fun x => decide (x ≠ k)) (x :: r)
          = x :: List.takeWhile (fun x => decide (x ≠ k)) r := by
        simp [List.takeWhile_cons, hx]
      rw [e, List.cons_append, ← hr]

theorem history_split_last (h : List Nat) (k : Nat) (hk : k ∈ h) :
    ∃ pre, h = pre ++ k :: fetchedSince h k ∧ k ∉ fetchedSince h k := by
  obtain ⟨rest, hr⟩ := split_at_takeWhile k h.reverse (List.mem_reverse.mpr hk)
  refine ⟨rest.reverse, ?_, ?_⟩
  · have := congrArg List.reverse hr
    rw [List.reverse_reverse, List.reverse_append, List.reverse_cons, List.append_assoc] at this
    simpa [fetchedSince] using this
  · intro hm
    unfold fetchedSince at hm
    have := List.mem_takeWhile_imp (List.mem_reverse.mp hm)
    simp at this

theorem mem_recentKeys_iff (C : Nat) (h : List Nat) (k : Nat) :
    k ∈ recentKeys C h ↔ k ∈ h ∧ othersSince h k < C := by
  constructor
  · intro hm
    have hkh : k ∈ h := List.mem_dedup.mp (List.mem_of_mem_drop hm)
    refine ⟨hkh, ?_⟩
    obtain ⟨pre, hsplit, hnot⟩ := history_split_last h k hkh
    by_contra hge
    have hge2 : C ≤ (fetchedSince h k).dedup.length := not_lt.mp hge
    have hd : h.dedup = pre ∪ (k :: (fetchedSince h k).dedup) := by
      conv_lhs => rw [hsplit]
      rw [List.dedup_append, List.dedup_cons_of_not_mem hnot]
    obtain ⟨X, hX⟩ := List.suffix_union_right pre (k :: (fetchedSince h k).dedup)
    rw [← hd] at hX
    have hnd : (X ++ k :: (fetchedSince h k).dedup).Nodup := hX ▸ List.nodup_dedup h
    have hkP : k ∉ (fetchedSince h k).dedup := fun hm2 => hnot (List.mem_dedup.mp hm2)
    unfold recentKeys at hm
    rw [← hX] at hm
    have e : X ++ k :: (fetchedSince h k).dedup = (X ++ [k]) ++ (fetchedSince h k).dedup := by
      simp
    rw [e, List.drop_append_eq_append_drop] at hm
    have hz : List.drop (((X ++ [k]) ++ (fetchedSince h k).dedup).length - C) (X ++ [k]) = [] := by
      apply List.drop_eq_nil_of_le
      simp only [List.length_append, List.length_singleton]
      omega
    rw [hz, List.nil_append] at hm
    exact hkP (List.mem_of_mem_drop hm)
  · rintro ⟨hkh, hlt⟩
    obtain ⟨pre, hsplit, hnot⟩ := history_split_last h k hkh
    have hd : h.dedup = pre ∪ (k :: (fetchedSince h k).dedup) := by
      conv_lhs => rw [hsplit]
      rw [List.dedup_append, List.dedup_cons_of_not_mem hnot]
    obtain ⟨X, hX⟩ := List.suffix_union_right pre (k :: (fetchedSince h k).dedup)
    rw [← hd] at hX
    unfold recentKeys
    rw [← hX, List.drop_append_of_le_length]
    · exact List.mem_append_right _ (List.mem_cons_self _ _)
    · unfold othersSince at hlt
      simp only [List.length_append, List.length_cons]
      omega

theorem lastFetch_concat_self (h : List Nat) (k : Nat) : lastFetch (h ++ [k]) k = h.length := by
  simp [lastFetch]

theorem lastFetch_concat_ne (h : List Nat) (k x : Nat) (hx : x ≠ k) :
    lastFetch (h ++ [k]) x = lastFetch h x := by
  unfold lastFetch
  rw [List.reverse_append, List.reverse_singleton, List.singleton_append,
    List.indexOf_cons_ne _ (fun e => hx e.symm), List.length_append, List.length_singleton]
  omega

theorem lastFetch_lt (h : List Nat) (x : Nat) (hx : x ∈ h) : lastFetch h x < h.length := by
  have : 0 < h.length := List.length_pos_of_mem hx
  unfold lastFetch
  omega

theorem dedup_pairwise_lastFetch (h : List Nat) :
    h.dedup.Pairwise (fun a b => lastFetch h a < lastFetch h b) := by
  induction h using List.reverseRecOn with
  | nil => simp
  | append_singleton h k ih =>
    rw [dedup_concat, List.pairwise_append]
    refine ⟨?_, List.pairwise_singleton _ _, ?_⟩
    · have hsub : (h.dedup.erase k).Pairwise (fun a b => lastFetch h a < lastFetch h b) :=
        ih.sublist (List.erase_sublist _ _)
      refine hsub.imp_of_mem ?_
      intro a b ha hb hab
      have hak : a ≠ k := fun e => by
        subst e
        exact (List.Nodup.not_mem_erase (List.nodup_dedup h)) ha
      have hbk : b ≠ k := fun e => by
        subst e
        exact (List.Nodup.not_mem_erase (List.nodup_dedup h)) hb
      rw [lastFetch_concat_ne _ _ _ hak, lastFetch_concat_ne _ _ _ hbk]
      exact hab
    · intro a ha b hb
      rw [List.mem_singleton.mp hb, lastFetch_concat_self]
      have hak : a ≠ k := fun e => by
        subst e
        exact (List.Nodup.not_mem_erase (List.nodup_dedup h)) ha
      rw [lastFetch_concat_ne _ _ _ hak]
      exact lastFetch_lt h a (List.mem_dedup.mp (List.mem_of_mem_erase ha))

theorem recentKeys_pairwise (C : Nat) (h : List Nat) :
    (recentKeys C h).Pairwise (fun a b => lastFetch h a < lastFetch h b) :=
  (dedup_pairwise_lastFetch h).sublist (List.drop_sublist _ _)

theorem recentKeys_nodup (C : Nat) (h : List Nat) : (recentKeys C h).Nodup :=
  (List.nodup_dedup h).sublist (List.drop_sublist _ _)

theorem LRUCache.find_eq_none {V : Type} (c : LRUCache V) (k : Nat) :
    c.find k = none ↔ k ∉ c.mKeyToValues.map LRUEntry.key := by
  unfold LRUCache.find
  rw [List.find?_eq_none]
  simp only [decide_eq_true_eq, List.mem_map, not_exists, not_and]

theorem LRUCache.find_eq_some {V : Type} (c : LRUCache V) (k : Nat) (e : LRUEntry V)
    (h : c.find k = some e) : e ∈ c.mKeyToValues ∧ e.key = k := by
  unfold LRUCache.find at h
  exact ⟨List.mem_of_find?_eq_some h, by simpa using List.find?_some h⟩

theorem LRUCache.Valid.mem_keys {V : Type} {gen : Nat → V} {C : Nat} {c : LRUCache V}
    (hv : c.Valid gen C) (k : Nat) :
    k ∈ c.trackedKeys ↔ k ∈ c.mKeyToValues.map LRUEntry.key := by
  obtain ⟨-, -, -, -, he, hf, -, -⟩ := hv
  constructor
  · intro hk
    obtain ⟨nd, hnd, rfl⟩ := List.mem_map.mp hk
    obtain ⟨e, hem, hek⟩ := hf nd hnd
    exact List.mem_map.mpr ⟨e, hem, hek⟩
  · intro hk
    obtain ⟨e, hem, rfl⟩ := List.mem_map.mp hk
    obtain ⟨-, n, -, hn⟩ := he e hem
    exact List.mem_map.mpr ⟨(n, e.key), hn, rfl⟩

theorem splice_spec (l : List (Nat × Nat)) (n k : Nat) (hids : (l.map Prod.fst).Nodup)
    (hkeys : (l.map Prod.snd).Nodup) (hm : (n, k) ∈ l) :
    ∃ t, spliceToEnd l (some n) = some t ∧ List.Perm t l
      ∧ t.map Prod.snd = (l.map Prod.snd).erase k ++ [k] := by
  obtain ⟨A, B, rfl⟩ := List.append_of_mem hm
  have hnA : ∀ x ∈ A, ¬ (decide (x.1 = n) = true) := by
    intro x hx hxn
    simp only [decide_eq_true_eq] at hxn
    rw [List.map_append, List.map_cons] at hids
    have hd := List.disjoint_of_nodup_append hids
    exact hd (List.mem_map.mpr ⟨x, hx, hxn⟩) (List.mem_cons_self _ _)
  have hkA : k ∉ A.map Prod.snd := by
    intro hk
    rw [List.map_append, List.map_cons] at hkeys
    exact (List.disjoint_of_nodup_append hkeys) hk (List.mem_cons_self _ _)
  have hfind : (A ++ (n, k) :: B).find? (fun nd => decide (nd.1 = n)) = some (n, k) := by
    rw [List.find?_append, List.find?_eq_none.mpr hnA]
    simp
  have herase : (A ++ (n, k) :: B).eraseP (fun x => decide (x.1 = n)) = A ++ B := by
    rw [List.eraseP_append_right _ hnA, List.eraseP_cons_of_pos (by simp)]
  refine ⟨A ++ B ++ [(n, k)], ?_, ?_, ?_⟩
  · simp only [spliceToEnd, hfind, herase]
  · exact (List.perm_append_singleton _ _).trans List.perm_middle.symm
  · simp only [List.map_append, List.map_cons, List.map_nil]
    rw [List.erase_append_right _ hkA, List.erase_cons_head]

theorem eraseP_key_ne {V : Type} (a : Nat) : ∀ l : List (LRUEntry V),
    (l.map LRUEntry.key).Nodup →
    ∀ e ∈ l.eraseP (fun e => decide (e.key = a)), e.key ≠ a := by
  intro l
  induction l with
  | nil => intro _ e he; exact absurd he (List.not_mem_nil _)
  | cons x l ih =>
    intro hnd e he
    rw [List.map_cons, List.nodup_cons] at hnd
    by_cases hx : x.key = a
    · rw [List.eraseP_cons_of_pos (by simpa using hx)] at he
      intro hea
      exact hnd.1 (List.mem_map.mpr ⟨e, he, by rw [hea, hx]⟩)
    · rw [List.eraseP_cons_of_neg (by simpa using hx)] at he
      rcases List.mem_cons.mp he with rfl | he
      · exact hx
      · exact ih hnd.2 e he

theorem LRUCache.evict_spec {V : Type} (gen : Nat → V) (C : Nat) (hC : 1 ≤ C)
    (c : LRUCache V) (hv : c.Valid gen C) (hfull : c.mKeyToValues.length = C) :
    ∃ c1, c.evict = .ok c1 ∧ c1.Valid gen (C - 1)
      ∧ c1.trackedKeys = c.trackedKeys.tail
      ∧ ∀ k, k ∉ c.mKeyToValues.map LRUEntry.key → k ∉ c1.mKeyToValues.map LRUEntry.key := by
  obtain ⟨ha, hb, hc, hd, he, hf, hg, hh⟩ := hv
  cases ht : c.mkeyTracker with
  | nil =>
    rw [ht] at hg
    simp only [List.length_nil] at hg
    omega
  | cons front rest =>
    obtain ⟨e0, he0, hk0⟩ := hf front (by rw [ht]; exact List.mem_cons_self _ _)
    have hfind : (c.find front.2).isSome = true := by
      cases hfi : c.find front.2 with
      | none =>
        exact absurd (List.mem_map.mpr ⟨e0, he0, hk0⟩) ((LRUCache.find_eq_none c front.2).mp hfi)
      | some _ => rfl
    obtain ⟨e1, he1⟩ := Option.isSome_iff_exists.mp hfind
    refine ⟨{ c with
      mKeyToValues := c.mKeyToValues.eraseP (fun e => decide (e.key = front.2))
      mkeyTracker := rest }, ?_, ?_, ?_, ?_⟩
    · simp only [LRUCache.evict, ht, he1]
    · unfold LRUCache.trackedKeys at ha
      rw [ht] at ha hb hc hg
      rw [List.map_cons, List.nodup_cons] at ha hb
      refine ⟨ha.2, hb.2, fun nd hnd => hc nd (List.mem_cons_of_mem _ hnd),
        hd.sublist ((List.eraseP_sublist _).map _), ?_, ?_, ?_, ?_⟩
      · intro e hem
        have hem2 : e ∈ c.mKeyToValues := List.mem_of_mem_eraseP hem
        obtain ⟨hval, n, hp, hn⟩ := he e hem2
        refine ⟨hval, n, hp, ?_⟩
        rw [ht] at hn
        rcases List.mem_cons.mp hn with hfr | hn
        · exfalso
          have : e.key = front.2 := by rw [← hfr]
          exact eraseP_key_ne front.2 _ hd e hem this
        · exact hn
      · intro nd hnd
        obtain ⟨e, hem, hek⟩ := hf nd (by rw [ht]; exact List.mem_cons_of_mem _ hnd)
        have hne : nd.2 ≠ front.2 := by
          intro e2
          exact ha.1 (List.mem_map.mpr ⟨nd, hnd, e2⟩)
        refine ⟨e, ?_, hek⟩
        rw [List.mem_eraseP_of_neg (by simpa [hek] using hne)]
        exact hem
      · show rest.length = (c.mKeyToValues.eraseP _).length
        rw [List.length_eraseP_of_mem he0 (by simpa using hk0)]
        simp only [List.length_cons] at hg
        omega
      · show (c.mKeyToValues.eraseP _).length ≤ C - 1
        rw [List.length_eraseP_of_mem he0 (by simpa using hk0)]
        omega
    · simp only [LRUCache.trackedKeys, ht, List.map_cons, List.tail_cons]
    · intro k hk hk2
      exact hk ((List.eraseP_sublist _).map _ |>.subset hk2)

theorem LRUCache.append_spec {V : Type} (gen : Nat → V) (C : Nat) (hC : 1 ≤ C)
    (c1 : LRUCache V) (hv : c1.Valid gen (C - 1)) (k : Nat)
    (hk : k ∉ c1.mKeyToValues.map LRUEntry.key) :
    LRUCache.Valid gen C
        { mkeyTracker := c1.mkeyTracker ++ [(c1.nextNode, k)]
          mKeyToValues := c1.mKeyToValues ++ [⟨k, gen k, some c1.nextNode⟩]
          nextNode := c1.nextNode + 1 } := by
  have hkt : k ∉ c1.trackedKeys := fun h => hk ((hv.mem_keys k).mp h)
  obtain ⟨ha, hb, hc, hd, he, hf, hg, hh⟩ := hv
  unfold LRUCache.trackedKeys at ha hkt
  refine ⟨?_, ?_, ?_, ?_, ?_, ?_, ?_, ?_⟩
  · show ((c1.mkeyTracker ++ [(c1.nextNode, k)]).map Prod.snd).Nodup
    rw [List.map_append, List.map_singleton]
    exact List.Nodup.append ha (List.nodup_singleton _)
      (List.disjoint_singleton.mpr hkt)
  · show ((c1.mkeyTracker ++ [(c1.nextNode, k)]).map Prod.fst).Nodup
    rw [List.map_append, List.map_singleton]
    refine List.Nodup.append hb (List.nodup_singleton _) (List.disjoint_singleton.mpr ?_)
    intro hm
    obtain ⟨nd, hnd, e⟩ := List.mem_map.mp hm
    have := hc nd hnd
    simp only at e
    omega
  · intro nd hnd
    show nd.1 < c1.nextNode + 1
    rcases List.mem_append.mp hnd with h | h
    · exact Nat.lt_succ_of_lt (hc nd h)
    · rw [List.mem_singleton.mp h]
      exact Nat.lt_succ_self _
  · show ((c1.mKeyToValues ++ [(⟨k, gen k, some c1.nextNode⟩ : LRUEntry V)]).map
      LRUEntry.key).Nodup
    rw [List.map_append, List.map_singleton]
    exact List.Nodup.append hd (List.nodup_singleton _) (List.disjoint_singleton.mpr hk)
  · intro e hem
    show e.value = gen e.key
      ∧ ∃ n, e.position = some n ∧ (n, e.key) ∈ c1.mkeyTracker ++ [(c1.nextNode, k)]
    rcases List.mem_append.mp hem with h | h
    · obtain ⟨hval, n, hp, hn⟩ := he e h
      exact ⟨hval, n, hp, List.mem_append_left _ hn⟩
    · rw [List.mem_singleton.mp h]
      exact ⟨rfl, c1.nextNode, rfl, List.mem_append_right _ (List.mem_singleton_self _)⟩
  · intro nd hnd
    show ∃ e ∈ c1.mKeyToValues ++ [(⟨k, gen k, some c1.nextNode⟩ : LRUEntry V)],
      e.key = nd.2
    rcases List.mem_append.mp hnd with h | h
    · obtain ⟨e, hem, hek⟩ := hf nd h
      exact ⟨e, List.mem_append_left _ hem, hek⟩
    · rw [List.mem_singleton.mp h]
      exact ⟨_, List.mem_append_right _ (List.mem_singleton_self _), rfl⟩
  · show (c1.mkeyTracker ++ [(c1.nextNode, k)]).length
      = (c1.mKeyToValues ++ [(⟨k, gen k, some c1.nextNode⟩ : LRUEntry V)]).length
    rw [List.length_append, List.length_append, hg]
    rfl
  · show (c1.mKeyToValues ++ [(⟨k, gen k, some c1.nextNode⟩ : LRUEntry V)]).length ≤ C
    rw [List.length_append, List.length_singleton]
    omega

theorem LRUCache.lru_valid_construct {V : Type} (gen : Nat → V) (C : Nat) :
    (LRUCache.construct : LRUCache V).Valid gen C := by
  refine ⟨List.nodup_nil, List.nodup_nil, ?_, List.nodup_nil, ?_, ?_, rfl, Nat.zero_le _⟩
  · intro nd h; exact absurd h (List.not_mem_nil _)
  · intro e h; exact absurd h (List.not_mem_nil _)
  · intro nd h; exact absurd h (List.not_mem_nil _)

theorem LRUCache.call_spec {V : Type} [Inhabited V] (gen : Nat → V) (C : Nat) (hC : 1 ≤ C)
    (c : LRUCache V) (hv : c.Valid gen C) (key : Nat) :
    ∃ r, c.call gen C key = .ok r ∧ r.value = gen key ∧ r.cache.Valid gen C
      ∧ (key ∈ c.trackedKeys →
          r.invoked = [] ∧ r.cache.trackedKeys = c.trackedKeys.erase key ++ [key])
      ∧ (key ∉ c.trackedKeys →
          r.invoked = [key]
            ∧ r.cache.trackedKeys
              = (if c.trackedKeys.length = C then c.trackedKeys.tail else c.trackedKeys)
                ++ [key]) := by
  cases hfi : c.find key with
  | none =>
    have hk : key ∉ c.mKeyToValues.map LRUEntry.key := (LRUCache.find_eq_none c key).mp hfi
    have hkt : key ∉ c.trackedKeys := fun h => hk ((hv.mem_keys key).mp h)
    have hlen : c.trackedKeys.length = c.mKeyToValues.length := by
      unfold LRUCache.trackedKeys
      rw [List.length_map]
      exact hv.2.2.2.2.2.2.1
    obtain ⟨c1, hc1, hv1, ht1, hk1⟩ : ∃ c1 : LRUCache V,
        (if c.mKeyToValues.length = C then c.evict else .ok c) = .ok c1
          ∧ c1.Valid gen (C - 1)
          ∧ c1.trackedKeys
            = (if c.trackedKeys.length = C then c.trackedKeys.tail else c.trackedKeys)
          ∧ key ∉ c1.mKeyToValues.map LRUEntry.key := by
      by_cases hfull : c.mKeyToValues.length = C
      · obtain ⟨c1, he, hv1, ht1, hk1⟩ := LRUCache.evict_spec gen C hC c hv hfull
        refine ⟨c1, by rw [if_pos hfull]; exact he, hv1, ?_, hk1 key hk⟩
        rw [if_pos (by rw [hlen]; exact hfull)]
        exact ht1
      · refine ⟨c, by rw [if_neg hfull], ?_, ?_, hk⟩
        · obtain ⟨ha, hb, hc, hd, he, hf, hg, hh⟩ := hv
          exact ⟨ha, hb, hc, hd, he, hf, hg, by omega⟩
        · rw [if_neg (by rw [hlen]; exact hfull)]
    have hf1 : c1.find key = none := (LRUCache.find_eq_none c1 key).mpr hk1
    have hfind2 : LRUCache.find
        ({ mkeyTracker := c1.mkeyTracker ++ [(c1.nextNode, key)]
           mKeyToValues := c1.mKeyToValues ++ [⟨key, gen key, some c1.nextNode⟩]
           nextNode := c1.nextNode + 1 } : LRUCache V) key
        = some ⟨key, gen key, some c1.nextNode⟩ := by
      unfold LRUCache.find at hf1 ⊢
      simp only [List.find?_append, hf1]
      simp
    refine ⟨⟨gen key,
      { mkeyTracker := c1.mkeyTracker ++ [(c1.nextNode, key)]
        mKeyToValues := c1.mKeyToValues ++ [⟨key, gen key, some c1.nextNode⟩]
        nextNode := c1.nextNode + 1 }, [key]⟩, ?_, rfl,
      LRUCache.append_spec gen C hC c1 hv1 key hk1, fun h => absurd h hkt, fun _ => ⟨rfl, ?_⟩⟩
    · simp only [LRUCache.call, LRUCache.insert, hfi, hc1, hf1, Option.isSome_none,
        Bool.false_eq_true, if_false, hfind2]
    · show (c1.mkeyTracker ++ [(c1.nextNode, key)]).map Prod.snd = _
      rw [List.map_append, List.map_singleton, ← ht1]
      rfl
  | some e =>
    obtain ⟨hem, hek⟩ := LRUCache.find_eq_some c key e hfi
    have hv0 := hv
    obtain ⟨ha, hb, hc, hd, he, hf, hg, hh⟩ := hv
    obtain ⟨hval, n, hp, hn⟩ := he e hem
    rw [hek] at hn hval
    obtain ⟨t, hsp, hperm, hkeys⟩ := splice_spec c.mkeyTracker n key hb ha hn
    have hkt : key ∈ c.trackedKeys := List.mem_map.mpr ⟨(n, key), hn, rfl⟩
    refine ⟨⟨e.value, { c with mkeyTracker := t }, []⟩, ?_, hval, ?_,
      fun _ => ⟨rfl, hkeys⟩, fun h => absurd hkt h⟩
    · simp only [LRUCache.call, hfi, hp, hsp]
    · refine ⟨?_, ?_, ?_, hd, ?_, ?_, ?_, hh⟩
      · show (t.map Prod.snd).Nodup
        exact (hperm.map Prod.snd).nodup_iff.mpr ha
      · show (t.map Prod.fst).Nodup
        exact (hperm.map Prod.fst).nodup_iff.mpr hb
      · intro nd hnd
        exact hc nd (hperm.mem_iff.mp hnd)
      · intro e2 hem2
        obtain ⟨hval2, n2, hp2, hn2⟩ := he e2 hem2
        exact ⟨hval2, n2, hp2, hperm.mem_iff.mpr hn2⟩
      · intro nd hnd
        exact hf nd (hperm.mem_iff.mp hnd)
      · show t.length = c.mKeyToValues.length
        rw [hperm.length_eq]
        exact hg

theorem recentKeys_nil (C : Nat) : recentKeys C [] = [] := by
  simp [recentKeys]

theorem LRUCache.call_tracks {V : Type} [Inhabited V] (gen : Nat → V) (C : Nat) (hC : 1 ≤ C)
    (c : LRUCache V) (hv : c.Valid gen C) (h : List Nat)
    (ht : c.trackedKeys = recentKeys C h) (key : Nat) :
    ∃ r, c.call gen C key = .ok r ∧ r.value = gen key ∧ r.cache.Valid gen C
      ∧ r.cache.trackedKeys = recentKeys C (h ++ [key])
      ∧ (key ∈ recentKeys C h → r.invoked = [])
      ∧ (key ∉ recentKeys C h →
          r.invoked = [key]
            ∧ r.cache.trackedKeys
              = (if c.trackedKeys.length = C then c.trackedKeys.tail else c.trackedKeys)
                ++ [key]) := by
  obtain ⟨r, hr, hval, hv2, hhit, hmiss⟩ := LRUCache.call_spec gen C hC c hv key
  refine ⟨r, hr, hval, hv2, ?_, ?_, ?_⟩
  · by_cases hk : key ∈ c.trackedKeys
    · rw [(hhit hk).2, ht, recentKeys_hit C h key (ht ▸ hk)]
    · rw [(hmiss hk).2, ht, recentKeys_miss C hC h key (ht ▸ hk)]
  · intro hk
    exact (hhit (ht ▸ hk)).1
  · intro hk
    exact hmiss (fun hm => hk (ht ▸ hm))

theorem LRUCache.fetchAll_spec {V : Type} [Inhabited V] (gen : Nat → V) (C : Nat)
    (hC : 1 ≤ C) :
    ∀ (ks : List Nat) (c : LRUCache V) (h : List Nat), c.Valid gen C →
      c.trackedKeys = recentKeys C h →
      ∃ r, c.fetchAll gen C ks = .ok r ∧ r.values = ks.map gen ∧ r.cache.Valid gen C
        ∧ r.cache.trackedKeys = recentKeys C (h ++ ks) := by
  intro ks
  induction ks with
  | nil =>
    intro c h hv ht
    exact ⟨⟨[], [], c⟩, rfl, rfl, hv, by rw [List.append_nil]; exact ht⟩
  | cons k ks ih =>
    intro c h hv ht
    obtain ⟨r1, hr1, hval, hv1, ht1, -, -⟩ := LRUCache.call_tracks gen C hC c hv h ht k
    obtain ⟨r2, hr2, hvals, hv2, ht2⟩ := ih r1.cache (h ++ [k]) hv1 ht1
    refine ⟨⟨r1.value :: r2.values, r1.invoked ++ r2.invoked, r2.cache⟩, ?_, ?_, hv2, ?_⟩
    · simp only [LRUCache.fetchAll, hr1, hr2]
    · simp only [List.map_cons, hval, hvals]
    · show r2.cache.trackedKeys = _
      rw [ht2, List.append_assoc, List.singleton_append]

/-- C36 (as stated, refuted): for the single fetch of the largest 32-bit key the LRU cache
returns the generator's value, the freshly constructed direct-mapped cache the initial
content of the slot: replacing one by the other changes the fetched value. -/
theorem lru_and_direct_map_differ_at_UINT_MAX :
    Except.map LRURun.values
        (LRUCache.fetchAll (fun k => k + 1) 16 LRUCache.construct [UINT_MAX])
        = .ok [UINT_MAX + 1]
      ∧ (DirectMapCache.fetchAll (fun k => k + 1) 16 (DirectMapCache.construct (fun _ => 0))
          [UINT_MAX]).1 = [0] := by
  decide!

/-- C36 (amended): for every sequence of fetches on an `LRUCache` of capacity at least 1,
started empty, with a generator that is a function of the key, no fetch ends abnormally and
each fetch of `k` returns the generator's value for `k`; so the values are those the
direct-mapped cache returns for every sequence of keys other than the largest 32-bit
value. -/
theorem LRU_fetch_returns_generator {V : Type} [Inhabited V] (gen : Nat → V) (C : Nat)
    (hC : 1 ≤ C) (ks : List Nat) :
    ∃ r, LRUCache.fetchAll gen C LRUCache.construct ks = .ok r
      ∧ r.values = ks.map gen
      ∧ ∀ (Capacity : Nat) (indet : Nat → V), (∀ k ∈ ks, k ≠ UINT_MAX) →
        r.values
          = (DirectMapCache.fetchAll gen Capacity (DirectMapCache.construct indet) ks).1 := by
  obtain ⟨r, hr, hvals, -, -⟩ := LRUCache.fetchAll_spec gen C hC ks LRUCache.construct []
    (LRUCache.lru_valid_construct gen C) (by rw [recentKeys_nil]; rfl)
  refine ⟨r, hr, hvals, ?_⟩
  intro Capacity indet hks
  rw [hvals, DirectMapCache.fetchAll_values gen Capacity ks _
    (DirectMapCache.valid_construct gen indet) hks]

/-- Witness of `LRU_fetch_returns_generator`: the fetches 1, 2, 1, 3, 2 on a cache of
capacity 2. -/
theorem LRU_fetch_returns_generator_witness :
    ∃ r, LRUCache.fetchAll (fun k => k + 1) 2 LRUCache.construct [1, 2, 1, 3, 2] = .ok r
      ∧ r.values = [1, 2, 1, 3, 2].map (fun k => k + 1)
      ∧ ∀ (Capacity : Nat) (indet : Nat → Nat),
        (∀ k ∈ [1, 2, 1, 3, 2], k ≠ UINT_MAX) →
        r.values
          = (DirectMapCache.fetchAll (fun k => k + 1) Capacity
              (DirectMapCache.construct indet) [1, 2, 1, 3, 2]).1 :=
  LRU_fetch_returns_generator (fun k => k + 1) 2 (by decide) [1, 2, 1, 3, 2]

/-- C37: in an `LRUCache` of capacity `C >= 1`, after any history of fetches, the fetch of
`k` invokes the generator exactly when `k` was never fetched or at least `C` distinct other
keys were fetched since the last fetch of `k`, and does not invoke it otherwise; a miss on a
full cache removes from the recency list exactly its front key, whose last fetch is older
than that of every other key held, and appends `k`. -/
theorem LRU_strict_recency {V : Type} [Inhabited V] (gen : Nat → V) (C : Nat) (hC : 1 ≤ C)
    (history : List Nat) (k : Nat) :
    ∃ r0 r, LRUCache.fetchAll gen C LRUCache.construct history = .ok r0
      ∧ r0.cache.call gen C k = .ok r
      ∧ (r.invoked = [k] ↔ (k ∉ history ∨ C ≤ othersSince history k))
      ∧ (r.invoked = [] ↔ (k ∈ history ∧ othersSince history k < C))
      ∧ (r.invoked = [k] → r0.cache.mKeyToValues.length = C →
          ∃ oldest rest, r0.cache.trackedKeys = oldest :: rest
            ∧ r.cache.trackedKeys = rest ++ [k]
            ∧ (∀ x, x ∈ r.cache.mKeyToValues.map LRUEntry.key
                ↔ (x ∈ r0.cache.mKeyToValues.map LRUEntry.key ∧ x ≠ oldest) ∨ x = k)
            ∧ ∀ x ∈ rest, lastFetch history oldest < lastFetch history x) := by
  obtain ⟨r0, hr0, -, hv0, ht0⟩ := LRUCache.fetchAll_spec gen C hC history
    LRUCache.construct [] (LRUCache.lru_valid_construct gen C) (by rw [recentKeys_nil]; rfl)
  rw [List.nil_append] at ht0
  obtain ⟨r, hr, -, hv, -, hhit, hmiss⟩ :=
    LRUCache.call_tracks gen C hC r0.cache hv0 history ht0 k
  have hiff := mem_recentKeys_iff C history k
  have hmissiff : r.invoked = [k] ↔ k ∉ recentKeys C history := by
    constructor
    · intro hi hm
      rw [hhit hm] at hi
      exact absurd hi (by simp)
    · intro hm
      exact (hmiss hm).1
  refine ⟨r0, r, hr0, hr, ?_, ?_, ?_⟩
  · rw [hmissiff, hiff]
    constructor
    · intro h
      by_cases hk : k ∈ history
      · exact Or.inr (not_lt.mp (fun hlt => h ⟨hk, hlt⟩))
      · exact Or.inl hk
    · rintro (h | h) ⟨hk, hlt⟩
      · exact h hk
      · omega
  · rw [← hiff]
    constructor
    · intro hi
      by_contra hm
      rw [(hmiss hm).1] at hi
      exact absurd hi (by simp)
    · exact hhit
  · intro hi hfull
    have hm : k ∉ recentKeys C history := hmissiff.mp hi
    have hlen : r0.cache.trackedKeys.length = C := by
      unfold LRUCache.trackedKeys
      rw [List.length_map, hv0.2.2.2.2.2.2.1]
      exact hfull
    have ht := (hmiss hm).2
    rw [if_pos hlen] at ht
    cases hT : r0.cache.trackedKeys with
    | nil =>
      rw [hT] at hlen
      simp only [List.length_nil] at hlen
      omega
    | cons oldest rest =>
      rw [hT, List.tail_cons] at ht
      have hnd : (oldest :: rest).Nodup := hT ▸ hv0.1
      have hpw := recentKeys_pairwise C history
      rw [← ht0, hT] at hpw
      refine ⟨oldest, rest, rfl, ht, ?_, (List.pairwise_cons.mp hpw).1⟩
      intro x
      rw [← hv.mem_keys x, ← hv0.mem_keys x, ht, hT]
      simp only [List.mem_append, List.mem_cons, List.not_mem_nil, or_false]
      constructor
      · rintro (h | h)
        · refine Or.inl ⟨Or.inr h, ?_⟩
          rintro rfl
          exact (List.nodup_cons.mp hnd).1 h
        · exact Or.inr h
      · rintro (⟨h | h, hne⟩ | h)
        · exact absurd h hne
        · exact Or.inl h
        · exact Or.inr h

/-- Witness of `LRU_strict_recency`: capacity 2, history 1, 2, 1, 3 and the fetch of 2, of
which two distinct other keys (1 and 3) were fetched since its last fetch. -/
theorem LRU_strict_recency_witness :
    ∃ r0 r, LRUCache.fetchAll (fun k => k + 1) 2 LRUCache.construct [1, 2, 1, 3] = .ok r0
      ∧ r0.cache.call (fun k => k + 1) 2 2 = .ok r
      ∧ (r.invoked = [2] ↔ (2 ∉ [1, 2, 1, 3] ∨ 2 ≤ othersSince [1, 2, 1, 3] 2))
      ∧ (r.invoked = [] ↔ (2 ∈ [1, 2, 1, 3] ∧ othersSince [1, 2, 1, 3] 2 < 2))
      ∧ (r.invoked = [2] → r0.cache.mKeyToValues.length = 2 →
          ∃ oldest rest, r0.cache.trackedKeys = oldest :: rest
            ∧ r.cache.trackedKeys = rest ++ [2]
            ∧ (∀ x, x ∈ r.cache.mKeyToValues.map LRUEntry.key
                ↔ (x ∈ r0.cache.mKeyToValues.map LRUEntry.key ∧ x ≠ oldest) ∨ x = 2)
            ∧ ∀ x ∈ rest, lastFetch [1, 2, 1, 3] oldest < lastFetch [1, 2, 1, 3] x) :=
  LRU_strict_recency (fun k => k + 1) 2 (by decide) [1, 2, 1, 3] 2

/-- C38: after every sequence of fetches on an `LRUCache` of capacity `C >= 1`, started
empty, no assert has failed and no invalid iterator was used (every fetch ended normally),
the recency list holds no key twice, its keys are exactly the keys of the map, no two nodes
share an identity, each map entry's stored iterator designates a node of the list that holds
the entry's own key, and list and map hold at most `C` entries. -/
theorem LRU_invariants_hold {V : Type} [Inhabited V] (gen : Nat → V) (C : Nat) (hC : 1 ≤ C)
    (ks : List Nat) :
    ∃ r, LRUCache.fetchAll gen C LRUCache.construct ks = .ok r
      ∧ r.cache.trackedKeys.Nodup
      ∧ (∀ k, k ∈ r.cache.trackedKeys ↔ k ∈ r.cache.mKeyToValues.map LRUEntry.key)
      ∧ (r.cache.mkeyTracker.map Prod.fst).Nodup
      ∧ (∀ e ∈ r.cache.mKeyToValues,
          ∃ n, e.position = some n ∧ (n, e.key) ∈ r.cache.mkeyTracker)
      ∧ r.cache.mkeyTracker.length ≤ C
      ∧ r.cache.mKeyToValues.length ≤ C := by
  obtain ⟨r, hr, -, hv, -⟩ := LRUCache.fetchAll_spec gen C hC ks LRUCache.construct []
    (LRUCache.lru_valid_construct gen C) (by rw [recentKeys_nil]; rfl)
  have hkeys := hv.mem_keys
  obtain ⟨ha, hb, -, -, he, -, hg, hh⟩ := hv
  exact ⟨r, hr, ha, hkeys, hb, fun e hem => (he e hem).2, by rw [hg]; exact hh, hh⟩

/-- Witness of `LRU_invariants_hold`: the fetches 1, 2, 1, 3, 2 on a cache of capacity 2. -/
theorem LRU_invariants_hold_witness :
    ∃ r, LRUCache.fetchAll (fun k => k + 1) 2 LRUCache.construct [1, 2, 1, 3, 2] = .ok r
      ∧ r.cache.trackedKeys.Nodup
      ∧ (∀ k, k ∈ r.cache.trackedKeys ↔ k ∈ r.cache.mKeyToValues.map LRUEntry.key)
      ∧ (r.cache.mkeyTracker.map Prod.fst).Nodup
      ∧ (∀ e ∈ r.cache.mKeyToValues,
          ∃ n, e.position = some n ∧ (n, e.key) ∈ r.cache.mkeyTracker)
      ∧ r.cache.mkeyTracker.length ≤ 2
      ∧ r.cache.mKeyToValues.length ≤ 2 :=
  LRU_invariants_hold (fun k => k + 1) 2 (by decide) [1, 2, 1, 3, 2]

/-! ## Binary32 clipper: proofs -/

theorem binary32_clipEdge_outside (lerp : ℚ → ℚ → ℚ → ℚ) (plane : float4) (numAttri : Nat)
    (vi vj : VS_Output) (st : ClipBuf) (hi : Binary32.Dot plane vi.Position < 0)
    (hj : Binary32.Dot plane vj.Position < 0) :
    Binary32.clipEdge lerp plane numAttri vi vj st = .ok st := by
  unfold Binary32.clipEdge
  simp only [if_neg (not_le.mpr hi), if_neg (not_le.mpr hj)]

theorem binary32_clipEdge_inside (lerp : ℚ → ℚ → ℚ → ℚ) (plane : float4) (numAttri : Nat)
    (vi vj : VS_Output) (st : ClipBuf) (hi : 0 ≤ Binary32.Dot plane vi.Position)
    (hj : 0 ≤ Binary32.Dot plane vj.Position) (hl : st.dest.length < 5) :
    Binary32.clipEdge lerp plane numAttri vi vj st
      = .ok { st with dest := st.dest ++ [vi] } := by
  unfold Binary32.clipEdge pushVertex
  simp only [if_pos hi, if_pos hl, if_neg (not_lt.mpr hj)]

theorem binary32_Clip_first_plane (lerp : ℚ → ℚ → ℚ → ℚ) (p : float4) (rest : List float4)
    (numAttri : Nat) (pool : List VS_Output) (v0 v1 v2 : VS_Output)
    (h0 : Binary32.Dot p v0.Position < 0) (h1 : Binary32.Dot p v1.Position < 0)
    (h2 : Binary32.Dot p v2.Position < 0) :
    Binary32.Clip lerp (p :: rest) numAttri pool v0 v1 v2 = .ok (0, []) := by
  have e01 := binary32_clipEdge_outside lerp p numAttri v0 v1 ⟨[], pool⟩ h0 h1
  have e12 := binary32_clipEdge_outside lerp p numAttri v1 v2 ⟨[], pool⟩ h1 h2
  have e20 := binary32_clipEdge_outside lerp p numAttri v2 v0 ⟨[], pool⟩ h2 h0
  have hr : List.range [v0, v1, v2].length = [0, 1, 2] := rfl
  unfold Binary32.Clip Binary32.clipPlanes
  rw [hr]
  simp [Binary32.clipEdges, e01, e12, e20]

theorem binary32_Clip_second_plane (lerp : ℚ → ℚ → ℚ → ℚ) (p q : float4)
    (rest : List float4) (numAttri : Nat) (pool : List VS_Output) (v0 v1 v2 : VS_Output)
    (h0 : 0 ≤ Binary32.Dot p v0.Position) (h1 : 0 ≤ Binary32.Dot p v1.Position)
    (h2 : 0 ≤ Binary32.Dot p v2.Position)
    (k0 : Binary32.Dot q v0.Position < 0) (k1 : Binary32.Dot q v1.Position < 0)
    (k2 : Binary32.Dot q v2.Position < 0) :
    Binary32.Clip lerp (p :: q :: rest) numAttri pool v0 v1 v2 = .ok (0, []) := by
  have e01 := binary32_clipEdge_inside lerp p numAttri v0 v1 ⟨[], pool⟩ h0 h1 (by simp)
  have e12 := binary32_clipEdge_inside lerp p numAttri v1 v2 ⟨[v0], pool⟩ h1 h2 (by simp)
  have e20 := binary32_clipEdge_inside lerp p numAttri v2 v0 ⟨[v0, v1], pool⟩ h2 h0 (by simp)
  have hnext := binary32_Clip_first_plane lerp q rest numAttri pool v0 v1 v2 k0 k1 k2
  have hr : List.range [v0, v1, v2].length = [0, 1, 2] := rfl
  unfold Binary32.Clip at hnext ⊢
  rw [Binary32.clipPlanes, hr]
  simp [Binary32.clipEdges, e01, e12, e20, hnext]

/-- C2 (as stated, refuted): the three vertices with (z, w) = (-1, -1 - 2^-22),
(-3/2, -3/2 - 2^-23) and (11/2, 11/2 - 2^-21) are binary32 numbers and all lie beyond the far
plane (w - z < 0, in exact arithmetic and as `Dot` computes it); the near plane cuts the
triangle first, the vertex it synthesizes on the edge from the second to the third vertex is
rounded onto the far plane (z = w = 0), the far-plane pass keeps it and adds two copies of
it, and `Clip` in binary32 returns 3, whichever of the two forms of `Lerp` is used. In exact
arithmetic `Clip` returns 0 for this triangle. -/
theorem binary32_Clip_far_plane_keeps_three :
    (∀ v ∈ [(⟨0, 0, -1, -1 - 1 / 4194304⟩ : float4), ⟨1, 0, -3 / 2, -3 / 2 - 1 / 8388608⟩,
        ⟨0, 1, 11 / 2, 11 / 2 - 1 / 2097152⟩],
      fl32 v.X = v.X ∧ fl32 v.Y = v.Y ∧ fl32 v.Z = v.Z ∧ fl32 v.W = v.W
        ∧ Dot ⟨0, 0, -1, 1⟩ v < 0 ∧ Binary32.Dot ⟨0, 0, -1, 1⟩ v < 0)
      ∧ Binary32.Clip Binary32.Lerp mClipPlanes 0 (List.replicate 6 ⟨⟨0, 0, 0, 0⟩, []⟩)
          ⟨⟨0, 0, -1, -1 - 1 / 4194304⟩, []⟩ ⟨⟨1, 0, -3 / 2, -3 / 2 - 1 / 8388608⟩, []⟩
          ⟨⟨0, 1, 11 / 2, 11 / 2 - 1 / 2097152⟩, []⟩
        = .ok (3, [⟨⟨6591049 / 8388608, 1797559 / 8388608, 0, 0⟩, []⟩,
            ⟨⟨6591049 / 8388608, 1797559 / 8388608, 0, 0⟩, []⟩,
            ⟨⟨6591049 / 8388608, 1797559 / 8388608, 0, 0⟩, []⟩])
      ∧ Binary32.Clip Binary32.LerpWeighted mClipPlanes 0
          (List.replicate 6 ⟨⟨0, 0, 0, 0⟩, []⟩)
          ⟨⟨0, 0, -1, -1 - 1 / 4194304⟩, []⟩ ⟨⟨1, 0, -3 / 2, -3 / 2 - 1 / 8388608⟩, []⟩
          ⟨⟨0, 1, 11 / 2, 11 / 2 - 1 / 2097152⟩, []⟩
        = .ok (3, [⟨⟨6591049 / 8388608, 1797559 / 8388608, 0, 0⟩, []⟩,
            ⟨⟨6591049 / 8388608, 1797559 / 8388608, 0, 0⟩, []⟩,
            ⟨⟨6591049 / 8388608, 1797559 / 8388608, 0, 0⟩, []⟩])
      ∧ Clip mClipPlanes 0 (List.replicate 6 ⟨⟨0, 0, 0, 0⟩, []⟩)
          ⟨⟨0, 0, -1, -1 - 1 / 4194304⟩, []⟩ ⟨⟨1, 0, -3 / 2, -3 / 2 - 1 / 8388608⟩, []⟩
          ⟨⟨0, 1, 11 / 2, 11 / 2 - 1 / 2097152⟩, []⟩
        = .ok (0, []) := by
  decide!

/-- C2 (amended): in exact arithmetic a triangle whose three vertices all have negative
signed distance to one of the two clip planes (near or far) is culled, `Clip` returns 0 and
writes nothing, also when the plane is the far plane, tested second, and the near plane cuts
the triangle first. In binary32, with the distances as `Dot` computes them and whatever the
scalar `Lerp` is, `Clip` returns 0 when the three distances to the near plane are negative,
and when the three distances to the far plane are negative and none of the three distances
to the near plane is (the near plane does not cut the triangle). -/
theorem Clip_behind_plane_culled_exact_or_uncut (lerp : ℚ → ℚ → ℚ → ℚ) (numAttri : Nat)
    (pool : List VS_Output) (hpool : pool.length = 6) (v0 v1 v2 : VS_Output) :
    ((∃ p ∈ mClipPlanes,
        Dot p v0.Position < 0 ∧ Dot p v1.Position < 0 ∧ Dot p v2.Position < 0) →
      Clip mClipPlanes numAttri pool v0 v1 v2 = .ok (0, []))
    ∧ ((Binary32.Dot ⟨0, 0, 1, 0⟩ v0.Position < 0 ∧ Binary32.Dot ⟨0, 0, 1, 0⟩ v1.Position < 0
          ∧ Binary32.Dot ⟨0, 0, 1, 0⟩ v2.Position < 0) →
      Binary32.Clip lerp mClipPlanes numAttri pool v0 v1 v2 = .ok (0, []))
    ∧ ((0 ≤ Binary32.Dot ⟨0, 0, 1, 0⟩ v0.Position ∧ 0 ≤ Binary32.Dot ⟨0, 0, 1, 0⟩ v1.Position
          ∧ 0 ≤ Binary32.Dot ⟨0, 0, 1, 0⟩ v2.Position
          ∧ Binary32.Dot ⟨0, 0, -1, 1⟩ v0.Position < 0
          ∧ Binary32.Dot ⟨0, 0, -1, 1⟩ v1.Position < 0
          ∧ Binary32.Dot ⟨0, 0, -1, 1⟩ v2.Position < 0) →
      Binary32.Clip lerp mClipPlanes numAttri pool v0 v1 v2 = .ok (0, [])) := by
  refine ⟨fun h => ?_, fun h => ?_, fun h => ?_⟩
  · have hspec : specClip mClipPlanes [v0.Position, v1.Position, v2.Position] = [] := by
      obtain ⟨p, hp, hd⟩ := h
      simp only [mClipPlanes, List.mem_cons, List.mem_singleton, List.not_mem_nil,
        or_false] at hp
      rcases hp with rfl | rfl
      · exact specClip_behind_plane _ _ _ _ _ (Or.inl hd)
      · exact specClip_behind_plane _ _ _ _ _ (Or.inr hd)
    have hmain := Clip_two_planes_spec ⟨0, 0, 1, 0⟩ ⟨0, 0, -1, 1⟩ numAttri pool hpool v0 v1 v2
    simp only [mClipPlanes] at hspec ⊢
    rw [hspec] at hmain
    obtain ⟨vs, hclip, hvs⟩ := (hmain (by decide)).2 (by decide)
    rcases hvs with ⟨-, rfl⟩ | ⟨h3, -⟩
    · exact hclip
    · exact absurd h3 (by decide)
  · exact binary32_Clip_first_plane lerp _ _ numAttri pool v0 v1 v2 h.1 h.2.1 h.2.2
  · exact binary32_Clip_second_plane lerp _ _ _ numAttri pool v0 v1 v2 h.1 h.2.1 h.2.2.1
      h.2.2.2.1 h.2.2.2.2.1 h.2.2.2.2.2

/-- Witness of `Clip_behind_plane_culled_exact_or_uncut`: in exact arithmetic a triangle
wholly beyond the far plane that the near plane cuts first (one vertex has z < 0); in
binary32 a triangle wholly behind the near plane, and a triangle wholly beyond the far plane
that the near plane does not cut. -/
theorem Clip_behind_plane_culled_exact_or_uncut_witness :
    Clip mClipPlanes 0 (List.replicate 6 ⟨⟨0, 0, 0, 0⟩, []⟩)
        ⟨⟨0, 0, -1, -2⟩, []⟩ ⟨⟨1, 0, 3, 1⟩, []⟩ ⟨⟨0, 1, 4, 2⟩, []⟩ = .ok (0, [])
      ∧ Binary32.Clip Binary32.Lerp mClipPlanes 0 (List.replicate 6 ⟨⟨0, 0, 0, 0⟩, []⟩)
        ⟨⟨0, 0, -1, 1⟩, []⟩ ⟨⟨1, 0, -2, 1⟩, []⟩ ⟨⟨0, 1, -3, 1⟩, []⟩ = .ok (0, [])
      ∧ Binary32.Clip Binary32.Lerp mClipPlanes 0 (List.replicate 6 ⟨⟨0, 0, 0, 0⟩, []⟩)
        ⟨⟨0, 0, 2, 1⟩, []⟩ ⟨⟨1, 0, 3, 1⟩, []⟩ ⟨⟨0, 1, 4, 2⟩, []⟩ = .ok (0, []) :=
  ⟨(Clip_behind_plane_culled_exact_or_uncut Binary32.Lerp 0
      (List.replicate 6 ⟨⟨0, 0, 0, 0⟩, []⟩) (by decide)
      ⟨⟨0, 0, -1, -2⟩, []⟩ ⟨⟨1, 0, 3, 1⟩, []⟩ ⟨⟨0, 1, 4, 2⟩, []⟩).1
      ⟨⟨0, 0, -1, 1⟩, by decide!, by decide!⟩,
    (Clip_behind_plane_culled_exact_or_uncut Binary32.Lerp 0
      (List.replicate 6 ⟨⟨0, 0, 0, 0⟩, []⟩) (by decide)
      ⟨⟨0, 0, -1, 1⟩, []⟩ ⟨⟨1, 0, -2, 1⟩, []⟩ ⟨⟨0, 1, -3, 1⟩, []⟩).2.1 (by decide!),
    (Clip_behind_plane_culled_exact_or_uncut Binary32.Lerp 0
      (List.replicate 6 ⟨⟨0, 0, 0, 0⟩, []⟩) (by decide)
      ⟨⟨0, 0, 2, 1⟩, []⟩ ⟨⟨1, 0, 3, 1⟩, []⟩ ⟨⟨0, 1, 4, 2⟩, []⟩).2.2 (by decide!)⟩

/-! ## The scanline walk in binary32 and int32: proofs -/

theorem int32Cast_eq (indet : ℚ → Int) (x : ℚ)
    (h : -2147483648 ≤ ⌈x⌉ ∧ ⌈x⌉ < 2147483648) : int32Cast indet x = ⌈x⌉ := by
  unfold int32Cast
  rw [if_pos h]

theorem int32Add_eq (indet : ℚ → Int) (a b : Int)
    (h : -2147483648 ≤ a + b ∧ a + b < 2147483648) : int32Add indet a b = a + b := by
  unfold int32Add
  rw [if_pos h]

theorem binary32_scanlineBody_rows (vp : Viewport) (indet : ℚ → Int) (iPart : Nat)
    (d0 d1 : ℚ) (Y : Int) (st : Binary32.Walk) :
    (Binary32.scanlineBody vp indet iPart d0 d1 Y st).rows = st.rows ++ [(iPart, Y)] := by
  unfold Binary32.scanlineBody
  simp only
  split_ifs <;> rfl

theorem binary32_scanlineLoop_rows (vp : Viewport) (indet : ℚ → Int) (iPart : Nat)
    (d0 d1 : ℚ) (ys : List Int) (st : Binary32.Walk) :
    (Binary32.scanlineLoop vp indet iPart d0 d1 ys st).rows
      = st.rows ++ ys.map (fun Y => (iPart, Y)) := by
  induction ys generalizing st with
  | nil => simp [Binary32.scanlineLoop]
  | cons Y rest ih =>
    rw [Binary32.scanlineLoop, ih, binary32_scanlineBody_rows]
    simp

theorem binary32_walk_rows (vp : Viewport) (indet : ℚ → Int) (vA vB vC : float4)
    (hvp : -2147483648 ≤ vp.Top + vp.Height ∧ vp.Top + vp.Height < 2147483648)
    (hA : -2147483648 ≤ ⌈vA.Y⌉ ∧ ⌈vA.Y⌉ < 2147483648)
    (hB : -2147483648 ≤ ⌈vB.Y⌉ ∧ ⌈vB.Y⌉ < 2147483648)
    (hC : -2147483648 ≤ ⌈vC.Y⌉ ∧ ⌈vC.Y⌉ < 2147483648) (step : ℚ × ℚ × ℚ) :
    (Binary32.rasterizePart1 vp indet vB vC step
        (Binary32.rasterizePart0 vp indet vA vB step).2
        (Binary32.rasterizePart0 vp indet vA vB step).1).rows
      = (yRange (max vp.Top ⌈vA.Y⌉) (min (vp.Top + vp.Height) ⌈vB.Y⌉)).map
          (fun Y => ((0 : Nat), Y))
        ++ (yRange
            (if max vp.Top ⌈vA.Y⌉ < min (vp.Top + vp.Height) ⌈vB.Y⌉
              then min (vp.Top + vp.Height) ⌈vB.Y⌉ else max vp.Top ⌈vA.Y⌉)
            (min (vp.Top + vp.Height) ⌈vC.Y⌉)).map (fun Y => ((1 : Nat), Y)) := by
  unfold Binary32.rasterizePart1 Binary32.rasterizePart0
  simp only [int32Cast_eq indet _ hA, int32Cast_eq indet _ hB, int32Cast_eq indet _ hC,
    int32Add_eq indet _ _ hvp]
  split_ifs <;> simp [binary32_scanlineLoop_rows]

/-- C21 (as stated, refuted): the vertices (-3/4, 0), (-1/2, 7 + 2^-21) and
(-2^-30, 7 + 2^-21) are binary32 numbers and all lie left of the viewport, whose left edge
is at x = 0. Stepped in binary32, the right edge position `fX[1]` has passed 0 on the row
Y = 7, where `RasterizeTriangle` calls `RasterizeScanline(0, 1, 7)`: the pixel loop runs its
body for the pixel (0, 7) and, with the pass-through shader and the depth test that always
passes, writes it, whatever the vertex handed over. In exact arithmetic the walk hands over
no pixel. -/
theorem binary32_walk_shades_left_of_viewport :
    (∀ v ∈ [(⟨-3 / 4, 0, 0, 1⟩ : float4), ⟨-1 / 2, 7 + 1 / 2097152, 0, 1⟩,
        ⟨-1 / 1073741824, 7 + 1 / 2097152, 0, 1⟩],
      fl32 v.X = v.X ∧ fl32 v.Y = v.Y ∧ v.X < (((sceneTarget 0).viewport.Left : Int) : ℚ))
      ∧ (Binary32.RasterizeTriangle (sceneTarget 0).viewport x86Indefinite
          ⟨-3 / 4, 0, 0, 1⟩ ⟨-1 / 2, 7 + 1 / 2097152, 0, 1⟩
          ⟨-1 / 1073741824, 7 + 1 / 2097152, 0, 1⟩).spans
        = [(0, 0, 0), (0, 0, 1), (0, 0, 2), (0, 0, 3), (0, 0, 4), (0, 0, 5), (0, 0, 6),
            (0, 1, 7)]
      ∧ (Binary32.RasterizeTriangle (sceneTarget 0).viewport x86Indefinite
          ⟨-3 / 4, 0, 0, 1⟩ ⟨-1 / 2, 7 + 1 / 2097152, 0, 1⟩
          ⟨-1 / 1073741824, 7 + 1 / 2097152, 0, 1⟩).pixels = [(0, 7)]
      ∧ (∀ v pDdx : VS_Output,
          (RasterizeScanline (sceneTarget 0).numAttri (sceneTarget 0).depthStencil
            (sceneTarget 0).shader (uniformFrame 1) 0 1 7 v pDdx).writes
          = [⟨0, 7, ⟨⟨0, 0, 0, 1⟩⟩, some v.Position.Z⟩])
      ∧ RasterizeTriangle.visits (sceneTarget 0) zeroLocals (uniformFrame 1)
          ⟨⟨-3 / 4, 0, 0, 1⟩, []⟩ ⟨⟨-1 / 2, 7 + 1 / 2097152, 0, 1⟩, []⟩
          ⟨⟨-1 / 1073741824, 7 + 1 / 2097152, 0, 1⟩, []⟩ = [] := by
  refine ⟨by decide!, by decide!, by decide!, fun v pDdx => ?_, by decide!⟩
  have hl : (List.range ((1 : Int) - 0).toNat).map (fun (k : Nat) => (0 : Int) + (k : Int))
      = [0] := by decide
  unfold RasterizeScanline
  rw [hl]
  simp [scanLoop, scanBody, sceneTarget, passThroughShader, depthTest]

/-- C32 (as stated, refuted): for the triangle (0, 0), (4, 4), (0, 2^32) and the viewport of
8 rows from Top = 0, the integers `Y` with `max(Top, ceil(yA)) <= Y < min(Top + Height,
ceil(yC))` are 0, ..., 7; `ceil(yC) = 2^32` is more than an `int32_t` holds, and with the
value `-2^31` that the conversion yields on x86 the loop body runs for the rows 0, 1, 2, 3
of part 0 only. -/
theorem binary32_rows_stop_short :
    sortByY ⟨0, 0, 0, 1⟩ ⟨4, 4, 0, 1⟩ ⟨0, 4294967296, 0, 1⟩
        = (⟨0, 0, 0, 1⟩, ⟨4, 4, 0, 1⟩, ⟨0, 4294967296, 0, 1⟩)
      ∧ fl32 4294967296 = 4294967296
      ∧ yRange (max (sceneTarget 0).viewport.Top ⌈(0 : ℚ)⌉)
          (min ((sceneTarget 0).viewport.Top + (sceneTarget 0).viewport.Height)
            ⌈(4294967296 : ℚ)⌉) = [0, 1, 2, 3, 4, 5, 6, 7]
      ∧ (Binary32.RasterizeTriangle (sceneTarget 0).viewport x86Indefinite
          ⟨0, 0, 0, 1⟩ ⟨4, 4, 0, 1⟩ ⟨0, 4294967296, 0, 1⟩).rows
        = [(0, 0), (0, 1), (0, 2), (0, 3)] := by
  decide!

/-- C32 (amended): for every triangle whose three vertex y coordinates have a ceiling that an
`int32_t` holds, and every viewport whose `Top + Height` an `int32_t` holds, with `vA`, `vB`,
`vC` the positions sorted by y (a permutation of the inputs, `vA.y` the smallest and `vC.y`
the largest y), the scanline loop body of `RasterizeTriangle` runs for the integers `Y` with
`max(Top, ceil(vA.y)) <= Y < min(Top + Height, ceil(vC.y))`, each once and in increasing
order, whatever the rounding of the edge positions; the rows below `ceil(vB.y)` are passes
of part 0 and the others passes of part 1. -/
theorem binary32_rows_cover_once (vp : Viewport) (indet : ℚ → Int) (p0 p1 p2 : float4)
    (hvp : -2147483648 ≤ vp.Top + vp.Height ∧ vp.Top + vp.Height < 2147483648)
    (h0 : -2147483648 ≤ ⌈p0.Y⌉ ∧ ⌈p0.Y⌉ < 2147483648)
    (h1 : -2147483648 ≤ ⌈p1.Y⌉ ∧ ⌈p1.Y⌉ < 2147483648)
    (h2 : -2147483648 ≤ ⌈p2.Y⌉ ∧ ⌈p2.Y⌉ < 2147483648) :
    ∃ vA vB vC : float4, sortByY p0 p1 p2 = (vA, vB, vC)
      ∧ List.Perm [vA, vB, vC] [p0, p1, p2]
      ∧ vA.Y ≤ vB.Y ∧ vB.Y ≤ vC.Y
      ∧ (Binary32.RasterizeTriangle vp indet p0 p1 p2).rows.map Prod.snd
        = yRange (max vp.Top ⌈vA.Y⌉) (min (vp.Top + vp.Height) ⌈vC.Y⌉)
      ∧ ((Binary32.RasterizeTriangle vp indet p0 p1 p2).rows.map Prod.snd).Pairwise
          (fun a b => a < b)
      ∧ (∀ Y : Int, Y ∈ (Binary32.RasterizeTriangle vp indet p0 p1 p2).rows.map Prod.snd
          ↔ max vp.Top ⌈vA.Y⌉ ≤ Y ∧ Y < min (vp.Top + vp.Height) ⌈vC.Y⌉)
      ∧ (∀ r ∈ (Binary32.RasterizeTriangle vp indet p0 p1 p2).rows,
          (r.1 = 0 ∧ r.2 < ⌈vB.Y⌉) ∨ (r.1 = 1 ∧ ⌈vB.Y⌉ ≤ r.2)) := by
  obtain ⟨vA, vB, vC, hs, hp, hAB, hBC⟩ := sortByY_sorted_perm p0 p1 p2
  have hin : ∀ v ∈ [vA, vB, vC], -2147483648 ≤ ⌈v.Y⌉ ∧ ⌈v.Y⌉ < 2147483648 := by
    intro v hv
    have hm := hp.subset hv
    simp only [List.mem_cons, List.mem_singleton, List.not_mem_nil, or_false] at hm
    rcases hm with rfl | rfl | rfl
    · exact h0
    · exact h1
    · exact h2
  have hA := hin vA (by simp)
  have hB := hin vB (by simp)
  have hC := hin vC (by simp)
  have hrows : (Binary32.RasterizeTriangle vp indet p0 p1 p2).rows
      = (yRange (max vp.Top ⌈vA.Y⌉) (min (vp.Top + vp.Height) ⌈vB.Y⌉)).map
          (fun Y => ((0 : Nat), Y))
        ++ (yRange
            (if max vp.Top ⌈vA.Y⌉ < min (vp.Top + vp.Height) ⌈vB.Y⌉
              then min (vp.Top + vp.Height) ⌈vB.Y⌉ else max vp.Top ⌈vA.Y⌉)
            (min (vp.Top + vp.Height) ⌈vC.Y⌉)).map (fun Y => ((1 : Nat), Y)) := by
    unfold Binary32.RasterizeTriangle
    simp only [hs]
    exact binary32_walk_rows vp indet vA vB vC hvp hA hB hC _
  have hc : ⌈vB.Y⌉ ≤ ⌈vC.Y⌉ := Int.ceil_mono hBC
  have hm : min (vp.Top + vp.Height) ⌈vB.Y⌉ ≤ min (vp.Top + vp.Height) ⌈vC.Y⌉ :=
    min_le_min le_rfl hc
  have hsnd : (Binary32.RasterizeTriangle vp indet p0 p1 p2).rows.map Prod.snd
      = yRange (max vp.Top ⌈vA.Y⌉) (min (vp.Top + vp.Height) ⌈vC.Y⌉) := by
    rw [hrows]
    simp only [List.map_append, List.map_map, Function.comp_def, List.map_id']
    split_ifs with c
    · exact yRange_append _ _ _ c.le hm
    · rw [yRange_nil _ _ (not_lt.mp c), List.nil_append]
  refine ⟨vA, vB, vC, hs, hp, hAB, hBC, hsnd, ?_, ?_, ?_⟩
  · rw [hsnd]
    exact yRange_pairwise _ _
  · intro Y
    rw [hsnd]
    exact mem_yRange _ _ _
  · intro r hr
    rw [hrows] at hr
    rcases List.mem_append.mp hr with h | h
    · obtain ⟨Y, hY, rfl⟩ := List.mem_map.mp h
      rw [mem_yRange] at hY
      exact Or.inl ⟨rfl, lt_of_lt_of_le hY.2 (min_le_right _ _)⟩
    · obtain ⟨Y, hY, rfl⟩ := List.mem_map.mp h
      rw [mem_yRange] at hY
      refine Or.inr ⟨rfl, ?_⟩
      obtain ⟨k1, k2⟩ := hY
      have k3 : Y < vp.Top + vp.Height := lt_of_lt_of_le k2 (min_le_left _ _)
      show ⌈vB.Y⌉ ≤ Y
      split_ifs at k1 with c
      · rcases le_total (vp.Top + vp.Height) ⌈vB.Y⌉ with d | d
        · rw [min_eq_left d] at k1
          omega
        · rw [min_eq_right d] at k1
          exact k1
      · have c2 := not_lt.mp c
        rcases le_total (vp.Top + vp.Height) ⌈vB.Y⌉ with d | d
        · rw [min_eq_left d] at c2
          omega
        · rw [min_eq_right d] at c2
          omega

/-- Witness of `binary32_rows_cover_once`: the triangle (1, 1/2), (6, 3), (2, 13/2) in the
viewport of 8 rows from Top = 0, with the x86 value for conversions out of range. -/
theorem binary32_rows_cover_once_witness :
    ∃ vA vB vC : float4, sortByY ⟨1, 1 / 2, 0, 1⟩ ⟨6, 3, 0, 1⟩ ⟨2, 13 / 2, 0, 1⟩ = (vA, vB, vC)
      ∧ List.Perm [vA, vB, vC] [⟨1, 1 / 2, 0, 1⟩, ⟨6, 3, 0, 1⟩, ⟨2, 13 / 2, 0, 1⟩]
      ∧ vA.Y ≤ vB.Y ∧ vB.Y ≤ vC.Y
      ∧ (Binary32.RasterizeTriangle ⟨0, 0, 8, 8⟩ x86Indefinite
          ⟨1, 1 / 2, 0, 1⟩ ⟨6, 3, 0, 1⟩ ⟨2, 13 / 2, 0, 1⟩).rows.map Prod.snd
        = yRange (max 0 ⌈vA.Y⌉) (min (0 + 8) ⌈vC.Y⌉)
      ∧ ((Binary32.RasterizeTriangle ⟨0, 0, 8, 8⟩ x86Indefinite
          ⟨1, 1 / 2, 0, 1⟩ ⟨6, 3, 0, 1⟩ ⟨2, 13 / 2, 0, 1⟩).rows.map Prod.snd).Pairwise
          (fun a b => a < b)
      ∧ (∀ Y : Int, Y ∈ (Binary32.RasterizeTriangle ⟨0, 0, 8, 8⟩ x86Indefinite
            ⟨1, 1 / 2, 0, 1⟩ ⟨6, 3, 0, 1⟩ ⟨2, 13 / 2, 0, 1⟩).rows.map Prod.snd
          ↔ max 0 ⌈vA.Y⌉ ≤ Y ∧ Y < min (0 + 8) ⌈vC.Y⌉)
      ∧ (∀ r ∈ (Binary32.RasterizeTriangle ⟨0, 0, 8, 8⟩ x86Indefinite
            ⟨1, 1 / 2, 0, 1⟩ ⟨6, 3, 0, 1⟩ ⟨2, 13 / 2, 0, 1⟩).rows,
          (r.1 = 0 ∧ r.2 < ⌈vB.Y⌉) ∨ (r.1 = 1 ∧ ⌈vB.Y⌉ ≤ r.2)) :=
  binary32_rows_cover_once ⟨0, 0, 8, 8⟩ x86Indefinite
    ⟨1, 1 / 2, 0, 1⟩ ⟨6, 3, 0, 1⟩ ⟨2, 13 / 2, 0, 1⟩ (by decide) (by decide!) (by decide!)
    (by decide!)

end Queen
